import Mathlib

/-!
# User-level thread scheduler (`preemptive-threads/thread.c`)

A shallow embedding of the scheduler of `src/preemptive-threads/thread.c`.

* Pointers are `Option Nat`: `none` is `NULL`, `some a` is the address `a`.
* The C heap is split by object type: thread control blocks (`heap`),
  `struct wait_queue` objects (`wqs`), locks and condition variables.  A cell
  that holds `none` is unallocated or freed.  `malloc` hands out the address
  `brk` and advances it.
* A computation returns `Option`: `none` stands for an execution without a
  defined result, that is a `NULL` or freed pointer was dereferenced, an
  `assert` failed, or a loop did not terminate.  The loops over linked lists
  run on fuel `brk + 1`, which exceeds the number of allocated blocks.
* `getcontext`/`setcontext` are modelled by recording, in the `mycontext` field
  of the thread, the point of the source at which the thread resumes together
  with the locals of that stack frame (`ucontext_t`); `resume` runs the code
  that follows that point.  A call that ends in `setcontext` has the result
  `result.switch`; the value it returns to its caller is the one `resume`
  produces when the caller is switched to again.
* `thread.h` is not among the sources: `THREAD_MAX_THREADS` is the parameter
  `MAX` of the functions that use it, and the result codes are the constants
  `THREAD_ANY`, ..., `THREAD_FAILED` below.

The file has three parts: the embedding, the predicates used to state the
properties (`chain`, `isQueue`, `Sched`, ...) with example states, and the
theorems.

The clock algorithm of `virtual-memory/clock.c` is embedded in the namespace
`Clock`, which follows the definitions of the scheduler; its theorem is at the
end of the file.
-/

namespace Threads

/-- Status `READY` of the anonymous enum of thread.c. -/
def READY : Int := 0

/-- Status `RUNNING` of the anonymous enum of thread.c. -/
def RUNNING : Int := 1

/-- Status `EXITED` of the anonymous enum of thread.c. -/
def EXITED : Int := 2

/-- Status `BLOCKED` of the anonymous enum of thread.c. -/
def BLOCKED : Int := 3

/-- Modelled from the spec: thread.h is not among the sources.  `ANY` is the
target "pick the ready-set head"; the code fixes its value, since
`want_tid >= -1` guards the branch that tests `want_tid == THREAD_ANY`. -/
def THREAD_ANY : Int := -1

/-- Modelled from the spec: thread.h is not among the sources.  `SELF` is the
target "return own tid without switching"; the code tests it under
`want_tid < 0`, so it is a negative value other than `THREAD_ANY`. -/
def THREAD_SELF : Int := -2

/-- Modelled from the spec: thread.h is not among the sources.  The outcome
**InvalidTarget** / **InvalidArgument**, a result value that is not a tid. -/
def THREAD_INVALID : Int := -3

/-- Modelled from the spec: thread.h is not among the sources.  The outcome
**NoCandidate**, a result value that is not a tid. -/
def THREAD_NONE : Int := -4

/-- Modelled from the spec: thread.h is not among the sources.  The outcome
**ResourceExhausted** (no more threads), a result value that is not a tid. -/
def THREAD_NOMORE : Int := -5

/-- Modelled from the spec: thread.h is not among the sources.  The outcome
**OutOfMemory**, a result value that is not a tid. -/
def THREAD_NOMEMORY : Int := -6

/-- Modelled from the spec: thread.h is not among the sources.  The value
returned by the unreachable last line of `thread_sleep`. -/
def THREAD_FAILED : Int := -7

/-- The function that called `thread_sleep`, with the locals of its frame: the
code that runs when `thread_sleep` returns in a resumed thread. -/
inductive caller where
  /-- application code called `thread_sleep` -/
  | app
  /-- the function `thread_wait (tid, exit_code)`, with its local `enabled` -/
  | wait (enabled : Bool) (tid : Int) (exit_code : Option Nat)
  /-- the loop of `lock_acquire (lock)`, with its local `enabled`; `cv` is the
  local `enabled` of `cv_wait` when `lock_acquire` was called from there -/
  | acquire (enabled : Bool) (lock : Nat) (cv : Option Bool)
  /-- the function `cv_wait (cv, lock)`, with its local `enabled` -/
  | cv_wait (enabled : Bool) (lock : Nat)
  deriving DecidableEq, Repr

/-- The saved context of a thread (`mycontext`): the `getcontext` call at which
it resumes, with the locals of the frame that called it. -/
inductive ucontext_t where
  /-- saved by `thread_init` -/
  | init
  /-- seeded by `thread_create`: resumes at the entry of `thread_stub` -/
  | stub
  /-- saved by `thread_yield`; `ret` is its local `ret` -/
  | yield (enabled : Bool) (ret : Int)
  /-- saved by `thread_exit` -/
  | exit (enabled : Bool) (exit_code : Int)
  /-- saved by `thread_sleep`, called by `k` -/
  | sleep (enabled : Bool) (k : caller)
  deriving DecidableEq, Repr

/-- The thread control block.  The stack `sp` is not modelled: it is allocated
and freed together with the block. -/
structure tcb_t where
  tid : Int
  next : Option Nat
  mycontext : ucontext_t
  status : Int
  wait_queue : Nat
  deriving DecidableEq, Repr

/-- The run-queue header `queue_t`. -/
structure queue_t where
  head : Option Nat
  tail : Option Nat
  size : Int
  deriving DecidableEq, Repr

/-- The structure `struct lock`. -/
structure lock_t where
  state : Int
  wait_queue : Nat
  deriving DecidableEq, Repr

/-- The structure `struct cv`. -/
structure cv_t where
  wait_queue : Nat
  deriving DecidableEq, Repr

/-- Thread control blocks by address. -/
abbrev Heap := Nat → Option tcb_t

/-- The objects `struct wait_queue` by address; the value is the `queue_t` that
the field `queue` points to (`wait_queue_create` allocates both together). -/
abbrev WQs := Nat → Option queue_t

/-- The globals of thread.c and the memory they point into.  `interrupts` is
the state of the preemption mask (`true`: signals enabled); `mem` is the memory
of the application, which `thread_wait` writes the exit code to. -/
structure State where
  heap : Heap
  wqs : WQs
  locks : Nat → Option lock_t
  cvs : Nat → Option cv_t
  mem : Nat → Int
  brk : Nat
  running_thread : Option Nat
  ready_queue : queue_t
  exit_queue : queue_t
  available_thr : Int → Option Nat
  exit_code_array : Int → Int
  interrupts : Bool

/-- How a call of the thread library ends. -/
inductive result where
  /-- the function returned `v` to its caller in state `s` -/
  | ret (s : State) (v : Int)
  /-- the function called `setcontext (running_thread->mycontext)` in state `s` -/
  | switch (s : State)
  /-- the function called `exit (code)` in state `s` -/
  | exit (s : State) (code : Int)
  /-- the function `thread_stub` called `thread_main`: a new thread runs application code -/
  | start (s : State)

/-- The function `enqueue`. -/
def enqueue (h : Heap) (q : queue_t) (thread : Option Nat) : Option (Heap × queue_t) :=
  if q.size = 0 then
    some (h, { head := thread, tail := thread, size := q.size + 1 })
  else do
    let tl ← q.tail
    let t ← h tl
    some (Function.update h tl (some { t with next := thread }),
      { q with tail := thread, size := q.size + 1 })

/-- The `while` loop of `dequeue` (the case `size > 2`), with the loop variables
`curr` and `prev`. -/
def dequeue_scan (h : Heap) (q : queue_t) (thread : Option Nat) :
    Nat → Option Nat → Option Nat → Option (Heap × queue_t)
  | _, none, _ => some (h, q)
  | 0, some _, _ => none
  | n + 1, some c, prev => do
    let ct ← h c
    let th ← thread.bind h
    if ct.tid = th.tid then
      if some c = q.head then
        some (h, { q with head := th.next })
      else if some c = q.tail then do
        let p ← prev
        let pt ← h p
        some (Function.update h p (some { pt with next := none }), { q with tail := prev })
      else do
        let p ← prev
        let pt ← h p
        some (Function.update h p (some { pt with next := ct.next }), q)
    else dequeue_scan h q thread n ct.next (some c)

/-- The function `dequeue`; `fuel` bounds the iterations of its loop. -/
def dequeue (fuel : Nat) (h : Heap) (q : queue_t) (thread : Option Nat) :
    Option (Heap × queue_t) := do
  let (h1, q1) ←
    if q.size = 1 then
      some (h, { q with head := none, tail := none })
    else if q.size = 2 then
      if q.head = thread then do
        let th ← thread.bind h
        some (h, { q with head := th.next, tail := th.next })
      else
        some (h, { q with head := thread, tail := thread })
    else dequeue_scan h q thread fuel q.head none
  let p ← thread
  let t ← h1 p
  some (Function.update h1 p (some { t with next := none }), { q1 with size := q1.size - 1 })

/-- The function `free_queue`, with `wait_queue_destroy` inlined: each thread of
the queue is dequeued, its wait queue destroyed (the assertion that it is empty,
then `free_queue` on it) and the thread freed.  `n` bounds the iterations and
the nesting. -/
def free_queue : Nat → Heap → WQs → queue_t → Option (Heap × WQs × queue_t)
  | 0, _, _, _ => none
  | n + 1, h, w, q =>
    match q.head with
    | none => some (h, w, q)
    | some c => do
      let (h1, q1) ← dequeue n h q (some c)
      let t ← h1 c
      let wq ← w t.wait_queue
      if wq.size ≠ 0 then none
      else do
        let (h2, w2, _) ← free_queue n h1 w wq
        free_queue n (Function.update h2 c none) (Function.update w2 t.wait_queue none) q1

/-- The function `wait_queue_destroy`. -/
def wait_queue_destroy (n : Nat) (h : Heap) (w : WQs) (wq : Nat) : Option (Heap × WQs) := do
  let q ← w wq
  if q.size ≠ 0 then none
  else do
    let (h1, w1, _) ← free_queue n h w q
    some (h1, Function.update w1 wq none)

/-- The function `interrupts_set`.  Modelled from the spec: interrupt.h is not
among the sources; `unmask (prior_state)` restores the given mask state. -/
def interrupts_set (s : State) (enabled : Bool) : State :=
  { s with interrupts := enabled }

/-- The function `interrupts_off`.  Modelled from the spec: interrupt.h is not
among the sources; `mask ()` masks preemption.  The prior state that it returns
is read as `s.interrupts` by the callers. -/
def interrupts_off (s : State) : State :=
  { s with interrupts := false }

/-- An empty `queue_t`, as `thread_init` and `wait_queue_create` set it up. -/
def empty_queue : queue_t :=
  { head := none, tail := none, size := 0 }

/-- The function `thread_init`.  The block of the first thread gets address 0
and its wait queue address 1.  The source does not initialise the field `next`
of the first thread: `next0` is the content `malloc` left there.  The global
arrays are zero-initialised. -/
def thread_init (next0 : Option Nat) : State :=
  { heap := Function.update (fun _ => none) 0
      (some { tid := 0, next := next0, mycontext := .init, status := RUNNING, wait_queue := 1 })
    wqs := Function.update (fun _ => none) 1 (some empty_queue)
    locks := fun _ => none
    cvs := fun _ => none
    mem := fun _ => 0
    brk := 2
    running_thread := some 0
    ready_queue := empty_queue
    exit_queue := empty_queue
    available_thr := fun i => if i = 0 then some 0 else none
    exit_code_array := fun _ => 0
    interrupts := true }

/-- The function `thread_id`. -/
def thread_id (s : State) : Option result :=
  match s.running_thread with
  | some rp => do
    let rt ← s.heap rp
    some (.ret s rt.tid)
  | none => some (.ret s THREAD_INVALID)

/-- The call `free_queue (exit_queue)`: the zombie sweep. -/
def sweep (s : State) : Option State := do
  let (h, w, q) ← free_queue (s.brk + 1) s.heap s.wqs s.exit_queue
  some { s with heap := h, wqs := w, exit_queue := q }

/-- The function `thread_create`.  `malloc_ok` tells whether the three
allocations succeed.  The `for` loop is the search for the first `j` below
`THREAD_MAX_THREADS` (`MAX`) with `available_thr[j] == NULL`; with `MAX = 0`
the source would go on with an uninitialised tid.  On the path that returns
`THREAD_NOMORE` the allocated blocks are not freed: the address stays used and
nothing points to it. -/
def thread_create (MAX : Nat) (s0 : State) (malloc_ok : Bool) : Option result :=
  let enabled := s0.interrupts
  let s := interrupts_off s0
  if malloc_ok = false then
    some (.ret (interrupts_set s enabled) THREAD_NOMEMORY)
  else
    let newthr := s.brk
    match (List.range MAX).find? (fun j : Nat => (s.available_thr (j : Int)).isNone) with
    | none =>
      if MAX = 0 then none
      else some (.ret (interrupts_set { s with brk := s.brk + 1 } enabled) THREAD_NOMORE)
    | some j => do
      let wq := s.brk + 1
      let h := Function.update s.heap newthr
        (some { tid := (j : Int), next := none, mycontext := .stub, status := READY, wait_queue := wq })
      let (h1, rq) ← enqueue h s.ready_queue (some newthr)
      let t1 ← h1 newthr
      some (.ret (interrupts_set
        { s with
          heap := h1
          wqs := Function.update s.wqs wq (some empty_queue)
          brk := s.brk + 2
          ready_queue := rq
          available_thr := Function.update s.available_thr (j : Int) (some newthr) } enabled) t1.tid)

/-- The `while` loop of `thread_wakeup` on the wait queue at address `w`, with
the loop variables `curr` and `count`. -/
def wakeup_loop (all : Int) (w : Nat) : Nat → State → Option Nat → Int → Option (State × Int)
  | _, s, none, count => some (s, count)
  | 0, _, some _, _ => none
  | n + 1, s, some temp, count => do
    let t ← s.heap temp
    let wq ← s.wqs w
    let (h1, wq1) ← dequeue (s.brk + 1) s.heap wq (some temp)
    let (h2, rq) ← enqueue h1 s.ready_queue (some temp)
    let t2 ← h2 temp
    let h3 := if t2.status ≠ EXITED then
      Function.update h2 temp (some { t2 with status := READY }) else h2
    let s1 := { s with heap := h3, wqs := Function.update s.wqs w (some wq1), ready_queue := rq }
    if all = 0 then some (s1, 1)
    else wakeup_loop all w n s1 t.next (count + 1)

/-- The function `thread_wakeup`; it returns the new state and the count.  The
test `queue->queue == NULL` never holds: `wait_queue_create` fills the field. -/
def thread_wakeup (s0 : State) (queue : Option Nat) (all : Int) : Option (State × Int) :=
  let enabled := s0.interrupts
  let s := interrupts_off s0
  match queue with
  | none => some (interrupts_set s enabled, 0)
  | some w => do
    let wq ← s.wqs w
    let (s1, count) ← wakeup_loop all w (s.brk + 1) s wq.head 0
    some (interrupts_set s1 enabled, count)

/-- The function `thread_exit`.  It never returns: it ends in `exit` or in
`setcontext`. -/
def thread_exit (s0 : State) (exit_code : Int) : Option result := do
  let enabled := s0.interrupts
  let s := interrupts_off s0
  let rp ← s.running_thread
  let rt ← s.heap rp
  let last ←
    if s.ready_queue.size = 0 then do
      let wq ← s.wqs rt.wait_queue
      some (decide (wq.size = 0))
    else some false
  if last then do
    let (h1, w1) ← wait_queue_destroy (s.brk + 1) s.heap s.wqs rt.wait_queue
    let h2 := Function.update h1 rp none
    let (h3, w3, rq) ← free_queue (s.brk + 1) h2 w1 s.ready_queue
    let (h4, w4, eq) ← free_queue (s.brk + 1) h3 w3 s.exit_queue
    some (.exit (interrupts_set
      { s with heap := h4, wqs := w4, ready_queue := rq, exit_queue := eq } enabled) exit_code)
  else do
    let (s1, _) ← thread_wakeup s (some rt.wait_queue) 1
    let rt1 ← s1.heap rp
    let h1 := Function.update s1.heap rp
      (some { rt1 with status := EXITED, mycontext := .exit enabled exit_code })
    let (h2, eq) ← enqueue h1 s1.exit_queue (some rp)
    let hd ← s1.ready_queue.head
    let ht ← h2 hd
    let h3 := if ht.status ≠ EXITED then
      Function.update h2 hd (some { ht with status := RUNNING }) else h2
    let (h4, rq) ← dequeue (s1.brk + 1) h3 s1.ready_queue (some hd)
    some (.switch
      { s1 with
        heap := h4
        running_thread := some hd
        ready_queue := rq
        exit_queue := eq
        available_thr := Function.update s1.available_thr rt1.tid none
        exit_code_array := Function.update s1.exit_code_array rt1.tid exit_code })

/-- The switch of `thread_yield` to the thread `ready`: the block guarded by
`setcon_flag == 0`, with the context saved just before it. -/
def yield_switch (s : State) (enabled : Bool) (ready : Option Nat) : Option result := do
  let rp ← s.running_thread
  let (h1, rq1) ← dequeue (s.brk + 1) s.heap s.ready_queue ready
  let (h2, rq2) ← enqueue h1 rq1 (some rp)
  let rt ← h2 rp
  let h3 := Function.update h2 rp (some { rt with status := READY })
  let np ← ready
  let nt ← h3 np
  let h4 := if nt.status ≠ EXITED then
    Function.update h3 np (some { nt with status := RUNNING }) else h3
  let nt1 ← h4 np
  let ot ← h4 rp
  let h5 := Function.update h4 rp (some { ot with mycontext := .yield enabled nt1.tid })
  some (.switch { s with heap := h5, running_thread := ready, ready_queue := rq2 })

/-- The function `thread_yield`. -/
def thread_yield (MAX : Nat) (s0 : State) (want_tid : Int) : Option result := do
  let enabled := s0.interrupts
  let s ← sweep (interrupts_off s0)
  let rp ← s.running_thread
  let rt ← s.heap rp
  if rt.status = EXITED then
    thread_exit s 0
  else if want_tid < 0 ∧ want_tid = THREAD_ANY ∧ s.ready_queue.size = 0 then
    some (.ret (interrupts_set s enabled) THREAD_NONE)
  else if want_tid < 0 ∧ want_tid = THREAD_SELF then
    some (.ret (interrupts_set s enabled) rt.tid)
  else if want_tid ≥ -1 ∧ want_tid < MAX then
    if want_tid = THREAD_ANY then
      yield_switch s enabled s.ready_queue.head
    else if want_tid = rt.tid then
      some (.ret (interrupts_set s enabled) rt.tid)
    else if s.available_thr want_tid = none then
      some (.ret (interrupts_set s enabled) THREAD_INVALID)
    else
      yield_switch s enabled (s.available_thr want_tid)
  else
    some (.ret (interrupts_set s enabled) THREAD_INVALID)

/-- The function `thread_kill`. -/
def thread_kill (MAX : Nat) (s0 : State) (tid : Int) : Option result := do
  let enabled := s0.interrupts
  let s := interrupts_off s0
  let invalid ←
    if tid < 0 ∨ tid ≥ MAX ∨ s.available_thr tid = none then some true
    else do
      let rp ← s.running_thread
      let rt ← s.heap rp
      some (decide (tid = rt.tid))
  if invalid then
    some (.ret (interrupts_set s enabled) THREAD_INVALID)
  else do
    let curr ← s.available_thr tid
    let ct ← s.heap curr
    some (.ret (interrupts_set
      { s with heap := Function.update s.heap curr (some { ct with status := EXITED }) } enabled)
      ct.tid)

/-- The function `wait_queue_create`, called by application code; it returns
the address of the wait queue. -/
def wait_queue_create (s0 : State) : result :=
  .ret { s0 with wqs := Function.update s0.wqs s0.brk (some empty_queue), brk := s0.brk + 1 }
    s0.brk

/-- The function `thread_sleep`, called by `k`. -/
def thread_sleep (s0 : State) (queue : Option Nat) (k : caller) : Option result :=
  let enabled := s0.interrupts
  let s := interrupts_off s0
  match queue with
  | none => some (.ret (interrupts_set s enabled) THREAD_INVALID)
  | some w =>
    if s.ready_queue.head = none then
      some (.ret (interrupts_set s enabled) THREAD_NONE)
    else do
      let rp ← s.running_thread
      let rt ← s.heap rp
      let h0 := Function.update s.heap rp
        (some { rt with mycontext := .sleep enabled k, status := BLOCKED })
      let wq ← s.wqs w
      let (h1, wq1) ← enqueue h0 wq (some rp)
      let hd ← s.ready_queue.head
      let ht ← h1 hd
      let h2 := Function.update h1 hd (some { ht with status := RUNNING })
      let (h3, rq) ← dequeue (s.brk + 1) h2 s.ready_queue (some hd)
      some (.switch
        { s with
          heap := h3
          wqs := Function.update s.wqs w (some wq1)
          running_thread := some hd
          ready_queue := rq })

/-- The end of `thread_wait`, from the comment "resumes after target thread
exited" on: `ttid` is the value of the local of that name. -/
def thread_wait_tail (s : State) (enabled : Bool) (tid : Int) (exit_code : Option Nat)
    (ttid : Int) : result :=
  let s1 := match exit_code with
    | some a => { s with mem := Function.update s.mem a (s.exit_code_array tid) }
    | none => s
  if ttid = THREAD_NONE ∨ ttid = THREAD_INVALID then
    .ret (interrupts_set s1 enabled) THREAD_INVALID
  else
    .ret (interrupts_set s1 enabled) tid

/-- The function `thread_wait`.  The local `ttid` is not initialised by the
source: `ttid0` is the value it holds when `thread_sleep` is not called. -/
def thread_wait (MAX : Nat) (s0 : State) (tid : Int) (exit_code : Option Nat) (ttid0 : Int) :
    Option result := do
  let enabled := s0.interrupts
  let s := interrupts_off s0
  let rp ← s.running_thread
  let rt ← s.heap rp
  if tid = rt.tid ∨ tid < 0 ∨ tid ≥ MAX ∨ s.available_thr tid = none then
    some (.ret (interrupts_set s enabled) THREAD_INVALID)
  else do
    let tp ← s.available_thr tid
    let tt ← s.heap tp
    if tt.status ≠ EXITED then
      match ← thread_sleep s (some tt.wait_queue) (.wait enabled tid exit_code) with
      | .ret s1 ttid => some (thread_wait_tail s1 enabled tid exit_code ttid)
      | r => some r
    else
      some (thread_wait_tail s enabled tid exit_code ttid0)

/-- The function `lock_create`; it returns the address of the lock. -/
def lock_create (s0 : State) : result :=
  .ret
    { s0 with
      locks := Function.update s0.locks s0.brk (some { state := 0, wait_queue := s0.brk + 1 })
      wqs := Function.update s0.wqs (s0.brk + 1) (some empty_queue)
      brk := s0.brk + 2 } s0.brk

/-- The function `lock_destroy`. -/
def lock_destroy (s0 : State) (lock : Option Nat) : Option result := do
  let lp ← lock
  let enabled := s0.interrupts
  let s := interrupts_off s0
  let l ← s.locks lp
  let (h, w) ←
    if l.state = 0 then wait_queue_destroy (s.brk + 1) s.heap s.wqs l.wait_queue
    else some (s.heap, s.wqs)
  some (.ret (interrupts_set
    { s with heap := h, wqs := w, locks := Function.update s.locks lp none } enabled) 0)

/-- The loop of `lock_acquire`, from the call of `test_set` on, and the return
to the caller: application code when `cv` is `none`, else `cv_wait`, which
restores its own `enabled`.  When `thread_sleep` returns at once the lock is
still held and the loop never ends. -/
def acquire_loop (s : State) (enabled : Bool) (lock : Nat) (cv : Option Bool) :
    Option result := do
  let l ← s.locks lock
  let s1 := { s with locks := Function.update s.locks lock (some { l with state := 1 }) }
  if l.state ≠ 0 then
    match ← thread_sleep s1 (some l.wait_queue) (.acquire enabled lock cv) with
    | .switch s2 => some (.switch s2)
    | _ => none
  else
    match cv with
    | none => some (.ret (interrupts_set s1 enabled) 0)
    | some enabled_cv => some (.ret (interrupts_set s1 enabled_cv) 0)

/-- The function `lock_acquire`. -/
def lock_acquire (s0 : State) (lock : Option Nat) : Option result := do
  let lp ← lock
  acquire_loop (interrupts_off s0) s0.interrupts lp none

/-- The function `lock_release`. -/
def lock_release (s0 : State) (lock : Option Nat) : Option result := do
  let lp ← lock
  let enabled := s0.interrupts
  let s := interrupts_off s0
  let l ← s.locks lp
  if l.state = 1 then do
    let (s1, _) ← thread_wakeup s (some l.wait_queue) 1
    let l1 ← s1.locks lp
    some (.ret (interrupts_set
      { s1 with locks := Function.update s1.locks lp (some { l1 with state := 0 }) } enabled) 0)
  else
    some (.ret (interrupts_set s enabled) 0)

/-- The function `cv_create`; it returns the address of the condition variable. -/
def cv_create (s0 : State) : result :=
  .ret
    { s0 with
      cvs := Function.update s0.cvs s0.brk (some { wait_queue := s0.brk + 1 })
      wqs := Function.update s0.wqs (s0.brk + 1) (some empty_queue)
      brk := s0.brk + 2 } s0.brk

/-- The function `cv_destroy`. -/
def cv_destroy (s0 : State) (cv : Option Nat) : Option result := do
  let cp ← cv
  let enabled := s0.interrupts
  let s := interrupts_off s0
  let c ← s.cvs cp
  let (h, w) ← wait_queue_destroy (s.brk + 1) s.heap s.wqs c.wait_queue
  some (.ret (interrupts_set
    { s with heap := h, wqs := w, cvs := Function.update s.cvs cp none } enabled) 0)

/-- The function `cv_wait`. -/
def cv_wait (s0 : State) (cv lock : Option Nat) : Option result := do
  let enabled := s0.interrupts
  let s := interrupts_off s0
  let cp ← cv
  let lp ← lock
  let l ← s.locks lp
  if l.state = 1 then do
    let r ← lock_release s lock
    match r with
    | .ret s1 _ => do
      let c ← s1.cvs cp
      match ← thread_sleep s1 (some c.wait_queue) (.cv_wait enabled lp) with
      | .ret s2 _ => acquire_loop (interrupts_off s2) s2.interrupts lp (some enabled)
      | r2 => some r2
    | r1 => some r1
  else
    some (.ret (interrupts_set s enabled) 0)

/-- The function `cv_signal`. -/
def cv_signal (s0 : State) (cv lock : Option Nat) : Option result := do
  let enabled := s0.interrupts
  let s := interrupts_off s0
  let cp ← cv
  let lp ← lock
  let l ← s.locks lp
  if l.state = 1 then do
    let c ← s.cvs cp
    let (s1, _) ← thread_wakeup s (some c.wait_queue) 0
    some (.ret (interrupts_set s1 enabled) 0)
  else
    some (.ret (interrupts_set s enabled) 0)

/-- The function `cv_broadcast`. -/
def cv_broadcast (s0 : State) (cv lock : Option Nat) : Option result := do
  let enabled := s0.interrupts
  let s := interrupts_off s0
  let cp ← cv
  let lp ← lock
  let l ← s.locks lp
  if l.state = 1 then do
    let c ← s.cvs cp
    let (s1, _) ← thread_wakeup s (some c.wait_queue) 1
    some (.ret (interrupts_set s1 enabled) 0)
  else
    some (.ret (interrupts_set s enabled) 0)

/-- What follows the return of `thread_sleep` with value `v` in its caller `k`,
up to the return to application code or the next switch. -/
def return_from_sleep (s : State) (v : Int) : caller → Option result
  | .app => some (.ret s v)
  | .wait enabled tid exit_code => some (thread_wait_tail s enabled tid exit_code v)
  | .acquire enabled lock cv => acquire_loop s enabled lock cv
  | .cv_wait enabled lock => acquire_loop (interrupts_off s) s.interrupts lock (some enabled)

/-- The effect of `setcontext (running_thread->mycontext)` in state `s`: the
running thread continues after the `getcontext` that saved its context, where
`setcon_flag` is now 1, up to the return to application code, the call of
`exit` or the next switch.  A context saved by `thread_init` is never resumed
by the source: the frame it belongs to is gone. -/
def resume (s : State) : Option result := do
  let rp ← s.running_thread
  let rt ← s.heap rp
  match rt.mycontext with
  | .init => none
  | .stub => some (.start { s with interrupts := true })
  | .yield enabled ret => do
    let s1 ← sweep s
    some (.ret (interrupts_set s1 enabled) ret)
  | .exit enabled exit_code => do
    let s1 ← sweep s
    some (.exit (interrupts_set s1 enabled) exit_code)
  | .sleep enabled k => return_from_sleep (interrupts_set s enabled) rt.tid k

/-- A call followed through its switches: `resume` is applied until control is
back in application code or the process has exited; `n` bounds the number of
switches. -/
def follow : Nat → result → Option result
  | 0, .switch _ => none
  | n + 1, .switch s => (resume s).bind (follow n)
  | _, r => some r

/-! ## Specification predicates -/

/-- The `next` links from `p` run through exactly the blocks `l`, all allocated,
and end in `NULL`. -/
def chain (h : Heap) : Option Nat → List Nat → Prop
  | p, [] => p = none
  | p, a :: l => p = some a ∧ ∃ t, h a = some t ∧ chain h t.next l

/-- The queue header `q` represents the sequence `l` in heap `h`. -/
structure isQueue (h : Heap) (q : queue_t) (l : List Nat) : Prop where
  size_eq : q.size = l.length
  links : chain h q.head l
  tail_eq : q.tail = l.getLast?
  nodup : l.Nodup

/-- The assignment `b->next = nx`. -/
def set_next (h : Heap) (b : Nat) (nx : Option Nat) : Heap :=
  Function.update h b ((h b).map fun t => { t with next := nx })

/-- The heap after `enqueue` of `x` on a queue whose last element is `last`. -/
def link (h : Heap) (last : Option Nat) (x : Nat) : Heap :=
  match last with
  | none => h
  | some b => set_next h b (some x)

/-- The memory `h` with the cells at the addresses `Z` freed. -/
def erase_list {α : Type} (h : Nat → Option α) (Z : List Nat) : Nat → Option α :=
  fun a => if a ∈ Z then none else h a

/-- The addresses of the private wait queues of the threads `Z`. -/
def wq_of (h : Heap) (Z : List Nat) : List Nat :=
  Z.filterMap fun z => (h z).map fun t => t.wait_queue

/-- The threads `Z` can be freed: each is allocated, its private wait queue is
allocated and empty, and no two of them share a wait queue. -/
def zombies_ok (h : Heap) (w : WQs) (Z : List Nat) : Prop :=
  (∀ z ∈ Z, ∃ t, h z = some t ∧ w t.wait_queue = some empty_queue) ∧ (wq_of h Z).Nodup

/-- The representation invariant of the scheduler state, for the running
thread `p`, the ready set `R` and the zombie set `Z` (sequences of addresses of
thread control blocks): the running thread is allocated and linked to nothing,
the two queues are well-formed linked lists, the zombies can be freed, the
running thread is in neither queue, no thread is in both, and every allocated
block lies below `brk`. -/
structure Sched (s : State) (p : Nat) (R Z : List Nat) : Prop where
  running : s.running_thread = some p
  alloc : ∃ c, s.heap p = some c ∧ c.next = none
  ready : isQueue s.heap s.ready_queue R
  zombie : isQueue s.heap s.exit_queue Z
  zok : zombies_ok s.heap s.wqs Z
  not_ready : p ∉ R
  not_zombie : p ∉ Z
  disjoint : ∀ a ∈ R, a ∉ Z
  bound : ∀ a t, s.heap a = some t → a < s.brk

/-- The state in which a call ended. -/
def result.state : result → State
  | .ret s _ => s
  | .switch s => s
  | .exit s _ => s
  | .start s => s

/-- The blocks reached from `p` by `next` links, at most `n` of them. -/
def walk (h : Heap) : Nat → Option Nat → List Nat
  | 0, _ => []
  | _ + 1, none => []
  | n + 1, some a =>
    a :: (match h a with
      | some t => walk h n t.next
      | none => [])

/-- The state after `thread_init` and two calls of `thread_create`: the first
thread (tid 0, at address 0) runs and the threads with tids 1 and 2 (at
addresses 2 and 4) are ready, in this order. -/
def two_ready : State :=
  { heap := fun a =>
      if a = 0 then
        some { tid := 0, next := none, mycontext := .init, status := RUNNING, wait_queue := 1 }
      else if a = 2 then
        some { tid := 1, next := some 4, mycontext := .stub, status := READY, wait_queue := 3 }
      else if a = 4 then
        some { tid := 2, next := none, mycontext := .stub, status := READY, wait_queue := 5 }
      else none
    wqs := fun a => if a = 1 ∨ a = 3 ∨ a = 5 then some empty_queue else none
    locks := fun _ => none
    cvs := fun _ => none
    mem := fun _ => 0
    brk := 6
    running_thread := some 0
    ready_queue := { head := some 2, tail := some 4, size := 2 }
    exit_queue := empty_queue
    available_thr := fun i => if i = 0 then some 0 else if i = 1 then some 2
      else if i = 2 then some 4 else none
    exit_code_array := fun _ => 0
    interrupts := true }

/-- How a call ended, without the state. -/
inductive outcome where
  | returned (v : Int)
  | switched
  | exited (code : Int)
  | started
  deriving DecidableEq, Repr

/-- How the call with result `r` ended. -/
def result.outcome : result → outcome
  | .ret _ v => .returned v
  | .switch _ => .switched
  | .exit _ code => .exited code
  | .start _ => .started

/-- The trace `thread_init (); thread_create (); thread_create ()` with
`THREAD_MAX_THREADS = MAX`: the state it ends in. -/
def init_two (MAX : Nat) : Option State := do
  let r1 ← thread_create MAX (thread_init none) true
  let r2 ← thread_create MAX r1.state true
  some r2.state

/-- Two blocks that differ at most in `next` and `status`. -/
def same_thread (o1 o2 : Option tcb_t) : Prop :=
  o1.map (fun t => (t.tid, t.mycontext, t.wait_queue))
    = o2.map (fun t => (t.tid, t.mycontext, t.wait_queue))

/-- The hypotheses on the private wait queue of the running thread `p`: it is a
well-formed queue `W` of threads that are in no other queue. -/
structure Joiners (s : State) (p : Nat) (R Z W : List Nat) : Prop where
  wait : ∃ c wq, s.heap p = some c ∧ s.wqs c.wait_queue = some wq ∧ isQueue s.heap wq W
  not_ready : ∀ a ∈ W, a ∉ R
  not_zombie : ∀ a ∈ W, a ∉ Z
  not_running : p ∉ W

/-- The state after `thread_init`, one `thread_create` and `thread_wait (1, NULL)`
by the first thread: the created thread (tid 1, at address 2) runs, the ready
set is empty and the first thread is blocked on the wait queue of the running
thread (at address 3). -/
def joined : State :=
  { heap := fun a =>
      if a = 0 then
        some { tid := 0, next := none, mycontext := .sleep false (.wait true 1 none),
               status := BLOCKED, wait_queue := 1 }
      else if a = 2 then
        some { tid := 1, next := none, mycontext := .stub, status := RUNNING, wait_queue := 3 }
      else none
    wqs := fun a =>
      if a = 1 then some empty_queue
      else if a = 3 then some { head := some 0, tail := some 0, size := 1 }
      else none
    locks := fun _ => none
    cvs := fun _ => none
    mem := fun _ => 0
    brk := 4
    running_thread := some 2
    ready_queue := empty_queue
    exit_queue := empty_queue
    available_thr := fun i => if i = 0 then some 0 else if i = 1 then some 2 else none
    exit_code_array := fun _ => 0
    interrupts := true }

/-- The trace `thread_init (); thread_create (); thread_wait (1, NULL)`, followed
to the start of the created thread: the state it ends in. -/
def init_joined (MAX : Nat) : Option State := do
  let r1 ← thread_create MAX (thread_init none) true
  let r2 ← thread_wait MAX r1.state 1 none 0
  let r3 ← resume r2.state
  some r3.state

/-- The state `two_ready` after `thread_kill (1)`: the head of the ready set has
status `EXITED`. -/
def head_killed : State :=
  { two_ready with
    heap := Function.update two_ready.heap 2
      (some { tid := 1, next := some 4, mycontext := .stub, status := EXITED, wait_queue := 3 }) }

/-- The hypotheses on the wait queue at address `w`: it is a well-formed queue
`W` of threads that are neither ready, nor zombies, nor the running thread `p`. -/
structure WaitSet (s : State) (p : Nat) (R Z : List Nat) (w : Nat) (W : List Nat) : Prop where
  queue : ∃ wq, s.wqs w = some wq ∧ isQueue s.heap wq W
  not_ready : ∀ a ∈ W, a ∉ R
  not_zombie : ∀ a ∈ W, a ∉ Z
  not_running : p ∉ W

/-- The calls `thread_wakeup (w, 0)` made `n` times in a row, each of which has
to return 1: the state after the last one. -/
def wakeup_times (w : Nat) : Nat → State → Option State
  | 0, s => some s
  | n + 1, s => do
    let (s1, v) ← thread_wakeup s (some w) 0
    if v = 1 then wakeup_times w n s1 else none

/-- The state in which the first thread (tid 0) runs, the ready set is empty and
the threads with tids 1, 2 and 3 (at addresses 3, 5 and 7) are blocked, in this
order, on the wait queue at address 2, which the application created. -/
def three_waiting : State :=
  { heap := fun a =>
      if a = 0 then
        some { tid := 0, next := none, mycontext := .yield true 1, status := RUNNING,
               wait_queue := 1 }
      else if a = 3 then
        some { tid := 1, next := some 5, mycontext := .sleep true .app, status := BLOCKED,
               wait_queue := 4 }
      else if a = 5 then
        some { tid := 2, next := some 7, mycontext := .sleep true .app, status := BLOCKED,
               wait_queue := 6 }
      else if a = 7 then
        some { tid := 3, next := none, mycontext := .sleep true .app, status := BLOCKED,
               wait_queue := 8 }
      else none
    wqs := fun a =>
      if a = 2 then some { head := some 3, tail := some 7, size := 3 }
      else if a = 1 ∨ a = 4 ∨ a = 6 ∨ a = 8 then some empty_queue
      else none
    locks := fun _ => none
    cvs := fun _ => none
    mem := fun _ => 0
    brk := 9
    running_thread := some 0
    ready_queue := empty_queue
    exit_queue := empty_queue
    available_thr := fun i => if i = 0 then some 0 else if i = 1 then some 3
      else if i = 2 then some 5 else if i = 3 then some 7 else none
    exit_code_array := fun _ => 0
    interrupts := true }

/-- The trace that ends in a state with the content of `three_waiting`: a wait
queue and three threads are created, the first thread yields, and each of the
three threads, when it runs, sleeps on the wait queue. -/
def init_three_waiting : Option State := do
  let r2 ← thread_create 4 (wait_queue_create (thread_init none)).state true
  let r3 ← thread_create 4 r2.state true
  let r4 ← thread_create 4 r3.state true
  let r5 ← thread_yield 4 r4.state THREAD_ANY
  let r6 ← resume r5.state
  let r7 ← thread_sleep r6.state (some 2) .app
  let r8 ← resume r7.state
  let r9 ← thread_sleep r8.state (some 2) .app
  let r10 ← resume r9.state
  let r11 ← thread_sleep r10.state (some 2) .app
  let r12 ← resume r11.state
  some r12.state

/-- The state after `thread_init`, `lock_create`, `lock_acquire` by the first
thread and two calls of `thread_create`: the first thread runs and holds the
lock at address 2 (wait queue at address 3), and the threads with tids 1 and 2
(at addresses 4 and 6) are ready, in this order. -/
def lock_held : State :=
  { heap := fun a =>
      if a = 0 then
        some { tid := 0, next := none, mycontext := .init, status := RUNNING, wait_queue := 1 }
      else if a = 4 then
        some { tid := 1, next := some 6, mycontext := .stub, status := READY, wait_queue := 5 }
      else if a = 6 then
        some { tid := 2, next := none, mycontext := .stub, status := READY, wait_queue := 7 }
      else none
    wqs := fun a => if a = 1 ∨ a = 3 ∨ a = 5 ∨ a = 7 then some empty_queue else none
    locks := fun a => if a = 2 then some { state := 1, wait_queue := 3 } else none
    cvs := fun _ => none
    mem := fun _ => 0
    brk := 8
    running_thread := some 0
    ready_queue := { head := some 4, tail := some 6, size := 2 }
    exit_queue := empty_queue
    available_thr := fun i => if i = 0 then some 0 else if i = 1 then some 4
      else if i = 2 then some 6 else none
    exit_code_array := fun _ => 0
    interrupts := true }

/-- The trace that ends in a state with the content of `lock_held`. -/
def init_lock_held : Option State := do
  let r1 ← lock_acquire (lock_create (thread_init none)).state (some 2)
  let r2 ← thread_create 4 r1.state true
  let r3 ← thread_create 4 r2.state true
  some r3.state

/-- The state `lock_held` after the first thread has yielded and each of the
two other threads has called `lock_acquire` on the lock: the first thread runs
again and holds the lock, the ready set is empty and the two threads are
blocked, in this order, on the wait queue of the lock. -/
def lock_contended : State :=
  { heap := fun a =>
      if a = 0 then
        some { tid := 0, next := none, mycontext := .yield true 1, status := RUNNING,
               wait_queue := 1 }
      else if a = 4 then
        some { tid := 1, next := some 6, mycontext := .sleep false (.acquire true 2 none),
               status := BLOCKED, wait_queue := 5 }
      else if a = 6 then
        some { tid := 2, next := none, mycontext := .sleep false (.acquire true 2 none),
               status := BLOCKED, wait_queue := 7 }
      else none
    wqs := fun a =>
      if a = 3 then some { head := some 4, tail := some 6, size := 2 }
      else if a = 1 ∨ a = 5 ∨ a = 7 then some empty_queue
      else none
    locks := fun a => if a = 2 then some { state := 1, wait_queue := 3 } else none
    cvs := fun _ => none
    mem := fun _ => 0
    brk := 8
    running_thread := some 0
    ready_queue := empty_queue
    exit_queue := empty_queue
    available_thr := fun i => if i = 0 then some 0 else if i = 1 then some 4
      else if i = 2 then some 6 else none
    exit_code_array := fun _ => 0
    interrupts := true }

/-- The trace that ends in a state with the content of `lock_contended`. -/
def init_lock_contended : Option State := do
  let s ← init_lock_held
  let r4 ← thread_yield 4 s THREAD_ANY
  let r5 ← resume r4.state
  let r6 ← lock_acquire r5.state (some 2)
  let r7 ← resume r6.state
  let r8 ← lock_acquire r7.state (some 2)
  let r9 ← resume r8.state
  some r9.state

/-- The content of a state that the example states are compared on: the
running thread, the two queues, `brk`, the preemption mask, and the cells of the
heap, of the wait queues, of the locks and of the slot table at the first
addresses. -/
def summary (s : State) :=
  (s.running_thread, s.ready_queue, s.exit_queue, s.brk, s.interrupts,
    (List.range 9).map s.heap, (List.range 9).map s.wqs, (List.range 4).map s.locks,
    (List.range 5).map fun i : Nat => s.available_thr i)

/-- The state `s` after the zombie sweep of the zombie set `Z`: the zombies and
their wait queues are freed and the zombie set is empty. -/
def swept (s : State) (Z : List Nat) : State :=
  { s with
    heap := erase_list s.heap Z
    wqs := erase_list s.wqs (wq_of s.heap Z)
    exit_queue := empty_queue }

/-- The state after `thread_init`, two calls of `thread_create`,
`thread_yield (THREAD_ANY)` by the first thread and `thread_exit (7)` by the
thread with tid 1: the thread with tid 2 (at address 4) has just started, the
first thread is ready and the thread with tid 1 (at address 2) is a zombie. -/
def with_zombie : State :=
  { heap := fun a =>
      if a = 0 then
        some { tid := 0, next := none, mycontext := .yield true 1, status := READY,
               wait_queue := 1 }
      else if a = 2 then
        some { tid := 1, next := none, mycontext := .exit true 7, status := EXITED,
               wait_queue := 3 }
      else if a = 4 then
        some { tid := 2, next := none, mycontext := .stub, status := RUNNING, wait_queue := 5 }
      else none
    wqs := fun a => if a = 1 ∨ a = 3 ∨ a = 5 then some empty_queue else none
    locks := fun _ => none
    cvs := fun _ => none
    mem := fun _ => 0
    brk := 6
    running_thread := some 4
    ready_queue := { head := some 0, tail := some 0, size := 1 }
    exit_queue := { head := some 2, tail := some 2, size := 1 }
    available_thr := fun i => if i = 0 then some 0 else if i = 2 then some 4 else none
    exit_code_array := fun i => if i = 1 then 7 else 0
    interrupts := true }

/-- The trace that ends in a state with the content of `with_zombie`. -/
def init_with_zombie : Option State := do
  let r1 ← thread_create 4 (thread_init none) true
  let r2 ← thread_create 4 r1.state true
  let r3 ← thread_yield 4 r2.state THREAD_ANY
  let r4 ← resume r3.state
  let r5 ← thread_exit r4.state 7
  let r6 ← resume r5.state
  some r6.state

/-- The state after `thread_init`, one `thread_create`, `thread_yield (1)` by the
first thread, and `thread_kill (0)` and `thread_yield (THREAD_ANY)` by the
created thread: the first thread runs again, with status `EXITED`, and the
created thread (tid 1, at address 2) is ready. -/
def killed_running : State :=
  { heap := fun a =>
      if a = 0 then
        some { tid := 0, next := none, mycontext := .yield true 1, status := EXITED,
               wait_queue := 1 }
      else if a = 2 then
        some { tid := 1, next := none, mycontext := .yield true 0, status := READY,
               wait_queue := 3 }
      else none
    wqs := fun a => if a = 1 ∨ a = 3 then some empty_queue else none
    locks := fun _ => none
    cvs := fun _ => none
    mem := fun _ => 0
    brk := 4
    running_thread := some 0
    ready_queue := { head := some 2, tail := some 2, size := 1 }
    exit_queue := empty_queue
    available_thr := fun i => if i = 0 then some 0 else if i = 1 then some 2 else none
    exit_code_array := fun _ => 0
    interrupts := true }

/-- The trace that ends in a state with the content of `killed_running`. -/
def init_killed_running : Option State := do
  let r1 ← thread_create 4 (thread_init none) true
  let r2 ← thread_yield 4 r1.state 1
  let r3 ← resume r2.state
  let r4 ← thread_kill 4 r3.state 0
  let r5 ← thread_yield 4 r4.state THREAD_ANY
  let r6 ← resume r5.state
  some r6.state

/-- The state after `thread_init`, one `thread_create`, `thread_yield (1)` by the
first thread, and `thread_kill (0)` and `thread_exit (3)` by the created thread,
once the first thread has returned from its `thread_yield`: the first thread
runs, with status `EXITED`, and no other thread exists. -/
def killed_alone : State :=
  { heap := fun a =>
      if a = 0 then
        some { tid := 0, next := none, mycontext := .yield true 1, status := EXITED,
               wait_queue := 1 }
      else none
    wqs := fun a => if a = 1 then some empty_queue else none
    locks := fun _ => none
    cvs := fun _ => none
    mem := fun _ => 0
    brk := 4
    running_thread := some 0
    ready_queue := empty_queue
    exit_queue := empty_queue
    available_thr := fun i => if i = 0 then some 0 else none
    exit_code_array := fun i => if i = 1 then 3 else 0
    interrupts := true }

/-- The trace that ends in a state with the content of `killed_alone`. -/
def init_killed_alone : Option State := do
  let r1 ← thread_create 4 (thread_init none) true
  let r2 ← thread_yield 4 r1.state 1
  let r3 ← resume r2.state
  let r4 ← thread_kill 4 r3.state 0
  let r5 ← thread_exit r4.state 3
  let r6 ← resume r5.state
  some r6.state

/-- The trace `wait_queue_create (); thread_create (); thread_create ()` by the
first thread, which then yields; the thread with tid 1 (at address 3) sleeps on
the wait queue (at address 2); the thread with tid 2 (at address 5) yields: the
first thread runs again, the thread with tid 2 is ready and the thread with
tid 1 is blocked on the wait queue. -/
def init_one_blocked : Option State := do
  let r1 ← thread_create 4 (wait_queue_create (thread_init none)).state true
  let r2 ← thread_create 4 r1.state true
  let r3 ← thread_yield 4 r2.state THREAD_ANY
  let r4 ← resume r3.state
  let r5 ← thread_sleep r4.state (some 2) .app
  let r6 ← resume r5.state
  let r7 ← thread_yield 4 r6.state THREAD_ANY
  let r8 ← resume r7.state
  some r8.state

/-- The sequences of blocks that the queues of a state hold, read off the
`next` links: the ready set, the zombie set, and the wait queues at the first
addresses. -/
def queues (s : State) : List Nat × List Nat × List (Option (List Nat)) :=
  (walk s.heap 9 s.ready_queue.head, walk s.heap 9 s.exit_queue.head,
    (List.range 9).map fun w => (s.wqs w).map fun q => walk s.heap 9 q.head)

/-- The state after `thread_init`, `lock_create` (lock at address 2, wait queue
at address 3), `cv_create` (condition variable at address 4, wait queue at
address 5), two calls of `thread_create`, `thread_yield (THREAD_ANY)` by the
first thread and `lock_acquire` by the thread with tid 1 (at address 6): that
thread runs and holds the lock, and the thread with tid 2 (at address 8) and
the first thread are ready, in this order. -/
def holder_running : State :=
  { heap := fun a =>
      if a = 0 then
        some { tid := 0, next := none, mycontext := .yield true 1, status := READY,
               wait_queue := 1 }
      else if a = 6 then
        some { tid := 1, next := none, mycontext := .stub, status := RUNNING, wait_queue := 7 }
      else if a = 8 then
        some { tid := 2, next := some 0, mycontext := .stub, status := READY, wait_queue := 9 }
      else none
    wqs := fun a => if a = 1 ∨ a = 3 ∨ a = 5 ∨ a = 7 ∨ a = 9 then some empty_queue else none
    locks := fun a => if a = 2 then some { state := 1, wait_queue := 3 } else none
    cvs := fun a => if a = 4 then some { wait_queue := 5 } else none
    mem := fun _ => 0
    brk := 10
    running_thread := some 6
    ready_queue := { head := some 8, tail := some 0, size := 2 }
    exit_queue := empty_queue
    available_thr := fun i => if i = 0 then some 0 else if i = 1 then some 6
      else if i = 2 then some 8 else none
    exit_code_array := fun _ => 0
    interrupts := true }

/-- The trace that ends in a state with the content of `holder_running`. -/
def init_holder_running : Option State := do
  let r2 ← thread_create 4 (cv_create (lock_create (thread_init none)).state).state true
  let r3 ← thread_create 4 r2.state true
  let r4 ← thread_yield 4 r3.state THREAD_ANY
  let r5 ← resume r4.state
  let r6 ← lock_acquire r5.state (some 2)
  some r6.state

/-- The state `holder_running` after the thread with tid 1 has called `cv_wait`,
the thread with tid 2 has called `lock_acquire` and `cv_wait`, and the first
thread has returned from its `thread_yield` and called `lock_acquire`: the
first thread runs and holds the lock, the ready set is empty and the two other
threads are blocked, in this order, on the wait queue of the condition
variable. -/
def cv_two_waiting : State :=
  { heap := fun a =>
      if a = 0 then
        some { tid := 0, next := none, mycontext := .yield true 1, status := RUNNING,
               wait_queue := 1 }
      else if a = 6 then
        some { tid := 1, next := some 8, mycontext := .sleep false (.cv_wait true 2),
               status := BLOCKED, wait_queue := 7 }
      else if a = 8 then
        some { tid := 2, next := none, mycontext := .sleep false (.cv_wait true 2),
               status := BLOCKED, wait_queue := 9 }
      else none
    wqs := fun a =>
      if a = 5 then some { head := some 6, tail := some 8, size := 2 }
      else if a = 1 ∨ a = 3 ∨ a = 7 ∨ a = 9 then some empty_queue
      else none
    locks := fun a => if a = 2 then some { state := 1, wait_queue := 3 } else none
    cvs := fun a => if a = 4 then some { wait_queue := 5 } else none
    mem := fun _ => 0
    brk := 10
    running_thread := some 0
    ready_queue := empty_queue
    exit_queue := empty_queue
    available_thr := fun i => if i = 0 then some 0 else if i = 1 then some 6
      else if i = 2 then some 8 else none
    exit_code_array := fun _ => 0
    interrupts := true }

/-- The trace that ends in a state with the content of `cv_two_waiting`. -/
def init_cv_two_waiting : Option State := do
  let s ← init_holder_running
  let r7 ← cv_wait s (some 4) (some 2)
  let r8 ← resume r7.state
  let r9 ← lock_acquire r8.state (some 2)
  let r10 ← cv_wait r9.state (some 4) (some 2)
  let r11 ← resume r10.state
  let r12 ← lock_acquire r11.state (some 2)
  some r12.state

/-- The content of a state with a condition variable that the example states
are compared on. -/
def summary_cv (s : State) :=
  (s.running_thread, s.ready_queue, s.exit_queue, s.brk, s.interrupts,
    (List.range 11).map s.heap, (List.range 11).map s.wqs, (List.range 6).map s.locks,
    (List.range 6).map s.cvs, (List.range 5).map fun i : Nat => s.available_thr i)

/-- A call of the library by application code, with its arguments.  The value
`ttid0` of `thread_wait` is the content of its uninitialised local. -/
inductive op where
  | thread_id
  | thread_create (malloc_ok : Bool)
  | thread_yield (want_tid : Int)
  | thread_exit (exit_code : Int)
  | thread_kill (tid : Int)
  | wait_queue_create
  | wait_queue_destroy (wq : Nat)
  | thread_sleep (queue : Option Nat)
  | thread_wakeup (queue : Option Nat) (all : Int)
  | thread_wait (tid : Int) (exit_code : Option Nat) (ttid0 : Int)
  | lock_create
  | lock_destroy (lock : Option Nat)
  | lock_acquire (lock : Option Nat)
  | lock_release (lock : Option Nat)
  | cv_create
  | cv_destroy (cv : Option Nat)
  | cv_wait (cv lock : Option Nat)
  | cv_signal (cv lock : Option Nat)
  | cv_broadcast (cv lock : Option Nat)
  deriving DecidableEq, Repr

/-- The call `o` made by application code in state `s`. -/
def call (MAX : Nat) (s : State) : op → Option result
  | .thread_id => thread_id s
  | .thread_create malloc_ok => thread_create MAX s malloc_ok
  | .thread_yield want_tid => thread_yield MAX s want_tid
  | .thread_exit exit_code => thread_exit s exit_code
  | .thread_kill tid => thread_kill MAX s tid
  | .wait_queue_create => some (wait_queue_create s)
  | .wait_queue_destroy wq =>
    (wait_queue_destroy (s.brk + 1) s.heap s.wqs wq).map fun hw =>
      .ret { s with heap := hw.1, wqs := hw.2 } 0
  | .thread_sleep queue => thread_sleep s queue .app
  | .thread_wakeup queue all => (thread_wakeup s queue all).map fun sc => .ret sc.1 sc.2
  | .thread_wait tid exit_code ttid0 => thread_wait MAX s tid exit_code ttid0
  | .lock_create => some (lock_create s)
  | .lock_destroy lock => lock_destroy s lock
  | .lock_acquire lock => lock_acquire s lock
  | .lock_release lock => lock_release s lock
  | .cv_create => some (cv_create s)
  | .cv_destroy cv => cv_destroy s cv
  | .cv_wait cv lock => cv_wait s cv lock
  | .cv_signal cv lock => cv_signal s cv lock
  | .cv_broadcast cv lock => cv_broadcast s cv lock

/-- One step of an execution: application code calls the library, or the
context that the last call switched to continues. -/
inductive event where
  | call (o : op)
  | resume
  deriving DecidableEq, Repr

/-- The step `e` after a call that ended with `r`: application code runs after
a return and in a started thread, and makes the next call there; after a switch
the thread switched to continues.  After `exit` nothing runs. -/
def step (MAX : Nat) : result → event → Option result
  | .ret s _, .call o => call MAX s o
  | .start s, .call o => call MAX s o
  | .switch s, .resume => resume s
  | _, _ => none

/-- The execution of the steps `es` after `r`. -/
def trace (MAX : Nat) : result → List event → Option result
  | r, [] => some r
  | r, e :: es => (step MAX r e).bind fun r1 => trace MAX r1 es

/-- The fields of a block other than the link `next`. -/
def tcb_t.fields (t : tcb_t) : Int × ucontext_t × Int × Nat :=
  (t.tid, t.mycontext, t.status, t.wait_queue)

/-- The heap `h2` differs from `h` in `next` links only: the same blocks are
allocated, with the same tid, saved context, status and wait queue. -/
def links_only (h h2 : Heap) : Prop :=
  ∀ a, (h2 a).map tcb_t.fields = (h a).map tcb_t.fields

/-- The heap `h2` comes from `h` by changes of `next` links and by frees: every
block of `h2` is a block of `h` with the same tid, saved context, status and
wait queue. -/
def links_or_freed (h h2 : Heap) : Prop :=
  ∀ a t2, h2 a = some t2 → ∃ t, h a = some t ∧ t.fields = t2.fields

/-- Every thread with status `RUNNING` is the thread recorded as running. -/
def running_is_current (s : State) : Prop :=
  ∀ a t, s.heap a = some t → t.status = RUNNING → s.running_thread = some a

/-- The preemption mask at the end of a call that was entered with the mask
`e`: restored where the call returns, masked where it switches. -/
def mask_ok (e : Bool) : result → Prop
  | .ret s _ => s.interrupts = e
  | .switch s => s.interrupts = false
  | .exit _ _ => True
  | .start _ => True

/-- The threads `l` have pairwise distinct tids. -/
def distinct_tids (h : Heap) (l : List Nat) : Prop :=
  ∀ a ∈ l, ∀ b ∈ l, ∀ ta tb, h a = some ta → h b = some tb → ta.tid = tb.tid → a = b

/-- A state in which the first thread (tid 0, at address 0) runs, the thread
with tid 1 (at address 2) is blocked on the wait queue at address 4, and the
ready set is empty. -/
def one_blocked_none_ready : State :=
  { heap := fun a =>
      if a = 0 then
        some { tid := 0, next := none, mycontext := .init, status := RUNNING, wait_queue := 1 }
      else if a = 2 then
        some { tid := 1, next := none, mycontext := .stub, status := BLOCKED, wait_queue := 3 }
      else none
    wqs := fun a =>
      if a = 1 ∨ a = 3 then some empty_queue
      else if a = 4 then some { head := some 2, tail := some 2, size := 1 }
      else none
    locks := fun _ => none
    cvs := fun _ => none
    mem := fun _ => 0
    brk := 5
    running_thread := some 0
    ready_queue := empty_queue
    exit_queue := empty_queue
    available_thr := fun i => if i = 0 then some 0 else if i = 1 then some 2 else none
    exit_code_array := fun _ => 0
    interrupts := true }

/-- Every block of `h` with status `RUNNING` has its address in `X`. -/
def running_within (h : Heap) (X : Nat → Prop) : Prop :=
  ∀ a t, h a = some t → t.status = RUNNING → X a

/-- A heap with two blocks that hold the same tid: the block at address 2 and
the block at address 4, both with a null `next` link. -/
def same_tid_heap : Heap := fun a =>
  if a = 2 then
    some { tid := 1, next := none, mycontext := .stub, status := EXITED, wait_queue := 3 }
  else if a = 4 then
    some { tid := 1, next := none, mycontext := .stub, status := READY, wait_queue := 5 }
  else none

/-- Every block of `h2` below the address `b` is a block of `h`, and has status
`EXITED` if it has that status in `h`. -/
def exited_kept (b : Nat) (h h2 : Heap) : Prop :=
  ∀ a t2, a < b → h2 a = some t2 → ∃ t, h a = some t ∧ (t.status = EXITED → t2.status = EXITED)

/-- The state `s2` after a call that returned in state `s`: the same thread
runs, no allocation has been undone, and the blocks that exist keep the status
`EXITED`. -/
def exited_kept_state (s s2 : State) : Prop :=
  exited_kept s.brk s.heap s2.heap ∧ s2.running_thread = s.running_thread ∧ s.brk ≤ s2.brk

/-- The expression of a `return` statement that follows `interrupts_set
(enabled)`: a constant or the value of a local, or the field `tid` of the block
that a local points to, read when the statement is executed. -/
inductive ret_expr where
  | value (v : Int)
  | tid_of (p : Nat)
  deriving DecidableEq, Repr

/-- The value of the return expression in the state in which the `return`
statement is executed. -/
def ret_expr.eval (s : State) : ret_expr → Option Int
  | .value v => some v
  | .tid_of p => (s.heap p).map fun t => t.tid

/-- The function `thread_kill` up to and including `interrupts_set (enabled)`,
which is the statement before each of its `return` statements: the state in
which preemption is unmasked again, and the expression that is returned
(`THREAD_INVALID`, or `curr->tid` for the local `curr`). -/
def thread_kill_masked (MAX : Nat) (s0 : State) (tid : Int) : Option (State × ret_expr) := do
  let enabled := s0.interrupts
  let s := interrupts_off s0
  let invalid ←
    if tid < 0 ∨ tid ≥ MAX ∨ s.available_thr tid = none then some true
    else do
      let rp ← s.running_thread
      let rt ← s.heap rp
      some (decide (tid = rt.tid))
  if invalid then
    some (interrupts_set s enabled, .value THREAD_INVALID)
  else do
    let curr ← s.available_thr tid
    let ct ← s.heap curr
    some (interrupts_set
      { s with heap := Function.update s.heap curr (some { ct with status := EXITED }) } enabled,
      .tid_of curr)

/-- The steps of a preemption that comes after `thread_kill (1)` has unmasked
and before it returns, when the thread with tid 1 has been created and not yet
run.  Modelled from the spec: the handler of the preemption signal, which is
not among the sources, makes the interrupted thread yield.  The interrupted
thread calls `thread_yield (THREAD_ANY)`, the thread with tid 1 starts, calls
`thread_yield (THREAD_ANY)` and exits there, since it has been killed, and the
interrupted thread returns from its `thread_yield`. -/
def preempted_in_kill : List event :=
  [.call (.thread_yield THREAD_ANY), .resume, .call (.thread_yield THREAD_ANY), .resume]

/-- The steps `wait_queue_create ()` (the queue is at address 2), two calls of
`thread_create` (tids 1 and 2, at addresses 3 and 5), `thread_kill (1)` and
`thread_yield (THREAD_ANY)` by the first thread, the start of the killed thread
with tid 1, its `thread_sleep` on the queue, the start of the thread with tid
2, its `thread_wakeup` of the queue and its `thread_yield (THREAD_ANY)`, the
return of the first thread from `thread_yield`, its `thread_yield
(THREAD_ANY)`, and the return of the thread with tid 1 from `thread_sleep`. -/
def killed_thread_blocks : List event :=
  [.call .wait_queue_create, .call (.thread_create true), .call (.thread_create true),
    .call (.thread_kill 1), .call (.thread_yield THREAD_ANY), .resume,
    .call (.thread_sleep (some 2)), .resume, .call (.thread_wakeup (some 2) 1),
    .call (.thread_yield THREAD_ANY), .resume, .call (.thread_yield THREAD_ANY), .resume]

/-- The steps `thread_create (); thread_create (); thread_yield (2)` by the
first thread, the start of the thread with tid 2, and its `thread_exit (5)`. -/
def exit_after_yield_to_second : List event :=
  [.call (.thread_create true), .call (.thread_create true), .call (.thread_yield 2), .resume,
    .call (.thread_exit 5)]

/-- The steps `wait_queue_create ()` (the queue is at address 2),
`thread_create ()`, `thread_yield (THREAD_ANY)` by the first thread, the start
of the thread with tid 1, its `thread_sleep` on the queue, the return of the
first thread from `thread_yield`, three calls of `thread_create` (tids 2, 3, 4),
`thread_yield (1)` by the first thread, the return of the thread with tid 1
from `thread_sleep`, its `thread_wakeup` of one thread of the queue and its
`thread_exit (7)`, the start of the thread with tid 2, its `thread_exit (8)`,
the start of the thread with tid 3, its `thread_create ()` (which returns the
tid 1 again) and its `thread_yield (THREAD_SELF)`. -/
def yield_to_sleeper : List event :=
  [.call .wait_queue_create, .call (.thread_create true), .call (.thread_yield THREAD_ANY),
    .resume, .call (.thread_sleep (some 2)), .resume,
    .call (.thread_create true), .call (.thread_create true), .call (.thread_create true),
    .call (.thread_yield 1), .resume, .call (.thread_wakeup (some 2) 0),
    .call (.thread_exit 7), .resume, .call (.thread_exit 8), .resume,
    .call (.thread_create true), .call (.thread_yield THREAD_SELF)]

/-- The steps `wait_queue_create ()` (the queue is at address 2), two calls of
`thread_create` (tids 1 and 2, at addresses 3 and 5) and `thread_kill (1)`, all
by the first thread. -/
def kill_the_head : List event :=
  [.call .wait_queue_create, .call (.thread_create true), .call (.thread_create true),
    .call (.thread_kill 1)]

/-- The steps `lock_create ()` (the lock is at address 2, its wait queue at
address 3) and `lock_acquire` by the first thread, three calls of
`thread_create` (tids 1, 2, 3, at addresses 4, 6, 8), `thread_yield
(THREAD_ANY)`, the start of the threads with tids 1 and 2, each of which calls
`lock_acquire` and blocks, the start of the thread with tid 3, its
`thread_yield (THREAD_ANY)`, the return of the first thread from its
`thread_yield`, its `thread_yield (1)`, the return of the thread with tid 1 to
the loop of `lock_acquire`, where it blocks again, the return of the first
thread from `thread_yield (1)`, and its `lock_release`. -/
def yield_to_lock_waiter : List event :=
  [.call .lock_create, .call (.lock_acquire (some 2)),
    .call (.thread_create true), .call (.thread_create true), .call (.thread_create true),
    .call (.thread_yield THREAD_ANY), .resume, .call (.lock_acquire (some 2)), .resume,
    .call (.lock_acquire (some 2)), .resume, .call (.thread_yield THREAD_ANY), .resume,
    .call (.thread_yield 1), .resume, .resume, .call (.lock_release (some 2))]

end Threads

/-!
# Clock page replacement (`virtual-memory/clock.c`)

A shallow embedding of the clock algorithm of `src/virtual-memory/clock.c`.
The globals `clock_arr` and `curr` are the fields of `Clock.State`.  The
header `sim.h`, which declares the number of frames `memsize`, is not among the
sources: `memsize` is a parameter of the functions that use it.  An access
outside `clock_arr[0 .. memsize)`, an overflow of the hand, which is an `int`,
and a division by zero have no defined result (`none`); the `while` loop of
`clock_evict` runs on fuel.
-/

namespace Clock

/-- The largest value of the type `int`. -/
def INT_MAX : Int := 2147483647

/-- The globals of clock.c: the reference bits `clock_arr`, by frame, and the
hand `curr`. -/
structure State where
  clock_arr : Int → Int
  curr : Int

/-- The statements `curr++; curr %= memsize;`. -/
def advance (memsize : Nat) (s : State) : Option State :=
  if s.curr + 1 > INT_MAX ∨ memsize = 0 then none
  else some { s with curr := (s.curr + 1) % (memsize : Int) }

/-- The `while` loop of `clock_evict`; the first argument after `memsize`
bounds the number of evaluations of its condition. -/
def clock_loop (memsize : Nat) : Nat → State → Option State
  | 0, _ => none
  | n + 1, s =>
    if s.curr < 0 ∨ (memsize : Int) ≤ s.curr then none
    else if s.clock_arr s.curr ≠ 0 then
      (advance memsize { s with clock_arr := Function.update s.clock_arr s.curr 0 }).bind
        (clock_loop memsize n)
    else some s

/-- The function `clock_evict`: the new state and the frame returned. -/
def clock_evict (memsize fuel : Nat) (s : State) : Option (State × Int) := do
  let s1 ← clock_loop memsize fuel s
  let past := s1.curr
  let s2 ← advance memsize s1
  some (s2, past)

/-- The function `clock_ref`. -/
def clock_ref (memsize : Nat) (s : State) (frame : Int) : Option State :=
  if frame < 0 ∨ (memsize : Int) ≤ frame then none
  else some { s with clock_arr := Function.update s.clock_arr frame 1 }

/-- The function `clock_init`: the hand is at frame 0 and every reference bit
is 0.  The content of the array outside `[0, memsize)` is never read. -/
def clock_init : State :=
  { clock_arr := fun _ => 0, curr := 0 }

end Clock

namespace Threads

/-! ## Lemmas on the queue primitive and the sweep -/

theorem chain_congr {h h2 : Heap} : ∀ {l : List Nat} {p : Option Nat},
    (∀ a ∈ l, (h2 a).map (fun t => t.next) = (h a).map (fun t => t.next)) →
    chain h p l → chain h2 p l
  | [], _, _, hc => hc
  | a :: l, p, H, hc => by
    obtain ⟨hp, t, ht, hl⟩ := hc
    have ha := H a (List.mem_cons_self a l)
    rw [ht] at ha
    cases h2a : h2 a with
    | none => rw [h2a] at ha; simp at ha
    | some t2 =>
      rw [h2a] at ha
      simp at ha
      refine ⟨hp, t2, h2a, ?_⟩
      rw [ha]
      exact chain_congr (fun b hb => H b (List.mem_cons_of_mem a hb)) hl

theorem dequeue_head {h : Heap} {q : queue_t} {a : Nat} {l : List Nat} (fuel : Nat)
    (hq : isQueue h q (a :: l)) :
    ∃ q2, dequeue (fuel + 1) h q (some a) = some (set_next h a none, q2) ∧
      isQueue (set_next h a none) q2 l := by
  obtain ⟨hs, ⟨hh, t, ht, hl⟩, htl, hnd⟩ := hq
  have hsn : set_next h a none = Function.update h a (some { t with next := none }) := by
    simp [set_next, ht]
  have hframe : chain (set_next h a none) t.next l := by
    apply chain_congr _ hl
    intro b hb
    have : b ≠ a := by rintro rfl; exact (List.nodup_cons.1 hnd).1 hb
    simp [set_next, Function.update, this]
  have hnd2 := (List.nodup_cons.1 hnd).2
  cases l with
  | nil =>
    refine ⟨{ q with head := none, tail := none, size := 0 }, ?_, ?_⟩
    · simp [dequeue, hs, ht, hsn]
    · exact ⟨rfl, rfl, rfl, hnd2⟩
  | cons b l2 =>
    cases l2 with
    | nil =>
      refine ⟨{ q with head := t.next, tail := t.next, size := 1 }, ?_, ?_⟩
      · simp [dequeue, hs, ht, hsn, hh]
      · refine ⟨rfl, hframe, ?_, hnd2⟩
        obtain ⟨h1, _⟩ := hl
        simp [h1]
    | cons c l3 =>
      refine ⟨{ q with head := t.next, size := q.size - 1 }, ?_, ?_⟩
      · have h3 : q.size ≠ 1 := by rw [hs]; simp; omega
        have h4 : q.size ≠ 2 := by rw [hs]; simp; omega
        simp [dequeue, dequeue_scan, h3, h4, ht, hsn, hh]
      · refine ⟨?_, hframe, ?_, hnd2⟩
        · simp [hs]
        · simp [htl]

theorem chain_mem {h : Heap} : ∀ {l : List Nat} {p : Option Nat} {a : Nat},
    chain h p l → a ∈ l → ∃ t, h a = some t
  | b :: l, p, a, ⟨_, t, ht, hl⟩, ha => by
    rcases List.mem_cons.1 ha with rfl | ha2
    · exact ⟨t, ht⟩
    · exact chain_mem hl ha2

theorem set_next_ne {h : Heap} {a b : Nat} {nx : Option Nat} (hab : a ≠ b) :
    set_next h b nx a = h a := by
  simp [set_next, Function.update, hab]

theorem set_next_self {h : Heap} {b : Nat} {nx : Option Nat} {t : tcb_t} (ht : h b = some t) :
    set_next h b nx b = some { t with next := nx } := by
  simp [set_next, ht]

theorem chain_set_next_of_not_mem {h : Heap} {l : List Nat} {p : Option Nat} {b : Nat}
    {nx : Option Nat} (hb : b ∉ l) (hc : chain h p l) : chain (set_next h b nx) p l := by
  apply chain_congr _ hc
  intro a ha
  have : a ≠ b := by rintro rfl; exact hb ha
  rw [set_next_ne this]

theorem chain_snoc {h : Heap} {b x : Nat} {tx : tcb_t} (htx : h x = some tx)
    (hn : tx.next = none) : ∀ {l : List Nat} {p : Option Nat},
    chain h p (l ++ [b]) → (l ++ [b]).Nodup → x ∉ l ++ [b] →
    chain (set_next h b (some x)) p (l ++ [b] ++ [x])
  | [], p, ⟨hp, t, ht, hl⟩, _, hx => by
    have hxb : x ≠ b := by simpa using hx
    refine ⟨hp, _, set_next_self ht, rfl, tx, ?_, ?_⟩
    · rw [set_next_ne hxb]; exact htx
    · simpa [chain] using hn
  | a :: l, p, ⟨hp, t, ht, hl⟩, hnd, hx => by
    have hab : a ≠ b := by
      have := (List.nodup_cons.1 hnd).1
      intro e; apply this; simp [e]
    refine ⟨hp, t, ?_, ?_⟩
    · rw [set_next_ne hab]; exact ht
    · exact chain_snoc htx hn hl (List.nodup_cons.1 hnd).2
        (fun hm => hx (List.mem_cons_of_mem a hm))

theorem enqueue_spec {h : Heap} {q : queue_t} {l : List Nat} {x : Nat} {tx : tcb_t}
    (hq : isQueue h q l) (hx : x ∉ l) (htx : h x = some tx) (hn : tx.next = none) :
    ∃ q2, enqueue h q (some x) = some (link h l.getLast? x, q2) ∧
      isQueue (link h l.getLast? x) q2 (l ++ [x]) := by
  obtain ⟨hs, hl, htl, hnd⟩ := hq
  rcases List.eq_nil_or_concat l with rfl | ⟨L, b, hLb⟩
  · refine ⟨{ head := some x, tail := some x, size := 1 }, ?_, ?_⟩
    · simp [enqueue, hs, link]
    · refine ⟨rfl, ⟨rfl, tx, htx, ?_⟩, rfl, by simp⟩
      simpa [chain] using hn
  · rw [List.concat_eq_append] at hLb
    subst hLb
    obtain ⟨t, ht⟩ := chain_mem hl (List.mem_append_right L (List.mem_singleton_self b))
    have hlast : (L ++ [b]).getLast? = some b := by simp
    have hs0 : q.size ≠ 0 := by rw [hs]; simp; omega
    refine ⟨{ q with tail := some x, size := q.size + 1 }, ?_, ?_⟩
    · rw [hlast] at htl ⊢
      simp [enqueue, hs0, htl, ht, link, set_next]
    · rw [hlast]
      refine ⟨?_, chain_snoc htx hn hl hnd hx, by simp, ?_⟩
      · simp [hs]; ring
      · rw [List.nodup_append]
        refine ⟨hnd, by simp, ?_⟩
        intro a ha hax
        rw [List.mem_singleton] at hax
        exact hx (hax ▸ ha)

theorem isQueue_nil {h : Heap} {q : queue_t} (hq : isQueue h q []) : q = empty_queue := by
  obtain ⟨hs, hl, htl, _⟩ := hq
  cases q
  simp_all [chain, empty_queue]

theorem isQueue_congr {h h2 : Heap} {q : queue_t} {l : List Nat}
    (H : ∀ a ∈ l, (h2 a).map (fun t => t.next) = (h a).map (fun t => t.next))
    (hq : isQueue h q l) : isQueue h2 q l :=
  ⟨hq.size_eq, chain_congr H hq.links, hq.tail_eq, hq.nodup⟩

theorem wq_of_congr {h h2 : Heap} {Z : List Nat} (H : ∀ a ∈ Z, h2 a = h a) :
    wq_of h2 Z = wq_of h Z := by
  induction Z with
  | nil => rfl
  | cons z Z ih =>
    have hz := H z (List.mem_cons_self z Z)
    have ih2 := ih (fun a ha => H a (List.mem_cons_of_mem z ha))
    simp only [wq_of] at ih2 ⊢
    simp only [List.filterMap_cons, hz, ih2]

theorem free_queue_spec : ∀ (Z : List Nat) (n : Nat) (h : Heap) (w : WQs) (q : queue_t),
    Z.length ≤ n → isQueue h q Z → zombies_ok h w Z →
    free_queue (n + 1) h w q
      = some (erase_list h Z, erase_list w (wq_of h Z), empty_queue)
  | [], n, h, w, q, _, hq, _ => by
    have := isQueue_nil hq
    subst this
    have e1 : erase_list h [] = h := by funext a; simp [erase_list]
    have e2 : erase_list w (wq_of h []) = w := by funext a; simp [erase_list, wq_of]
    simp [free_queue, empty_queue, e1, e2]
  | z :: Z, n + 1, h, w, q, hn, hq, hz => by
    obtain ⟨q2, hd, hq2⟩ := dequeue_head n hq
    obtain ⟨hall, hnd⟩ := hz
    obtain ⟨t, ht, hw⟩ := hall z (List.mem_cons_self z Z)
    have hzZ : z ∉ Z := (List.nodup_cons.1 hq.nodup).1
    have hhead : q.head = some z := hq.links.1
    have hwq : wq_of h (z :: Z) = t.wait_queue :: wq_of h Z := by
      simp [wq_of, ht]
    rw [hwq] at hnd
    have hnd2 := List.nodup_cons.1 hnd
    set h1 := Function.update (set_next h z none) z none with h1def
    have hagree : ∀ a ∈ Z, h1 a = h a := by
      intro a ha
      have : a ≠ z := by rintro rfl; exact hzZ ha
      simp [h1def, Function.update, this, set_next]
    have hq3 : isQueue h1 q2 Z := by
      apply isQueue_congr _ hq2
      intro a ha
      have : a ≠ z := by rintro rfl; exact hzZ ha
      simp [h1def, Function.update, this]
    have hz3 : zombies_ok h1 (Function.update w t.wait_queue none) Z := by
      refine ⟨?_, ?_⟩
      · intro a ha
        obtain ⟨ta, hta, hwa⟩ := hall a (List.mem_cons_of_mem z ha)
        refine ⟨ta, by rw [hagree a ha]; exact hta, ?_⟩
        have : ta.wait_queue ≠ t.wait_queue := by
          intro e
          apply hnd2.1
          rw [← e]
          simp only [wq_of, List.mem_filterMap]
          exact ⟨a, ha, by simp [hta]⟩
        simp [Function.update, this, hwa]
      · rw [wq_of_congr hagree]; exact hnd2.2
    have ih := free_queue_spec Z n h1 (Function.update w t.wait_queue none) q2
      (by simpa using hn) hq3 hz3
    have hnest : free_queue (n + 1) (set_next h z none) w empty_queue
        = some (set_next h z none, w, empty_queue) := by
      simp [free_queue, empty_queue]
    have e1 : erase_list h1 Z = erase_list h (z :: Z) := by
      funext a
      by_cases haz : a = z
      · subst haz; simp [erase_list, h1def]
      · by_cases haZ : a ∈ Z
        · simp [erase_list, haZ]
        · simp [erase_list, haZ, haz, h1def, Function.update, set_next]
    have e2 : erase_list (Function.update w t.wait_queue none) (wq_of h1 Z)
        = erase_list w (t.wait_queue :: wq_of h Z) := by
      rw [wq_of_congr hagree]
      funext a
      by_cases haz : a = t.wait_queue
      · subst haz; simp [erase_list]
      · simp [erase_list, haz, Function.update]
    rw [hwq, ← e1, ← e2, ← ih]
    simp only [free_queue, hhead]
    simp [hd, set_next_self ht, hw, hnest, empty_queue, h1def]

theorem length_le_of_bound {l : List Nat} {n : Nat} (hnd : l.Nodup) (hb : ∀ a ∈ l, a < n) :
    l.length ≤ n := by
  have hsub : l ⊆ List.range n := fun a ha => List.mem_range.2 (hb a ha)
  simpa using (List.subperm_of_subset hnd hsub).length_le

theorem link_not_mem {h : Heap} {l : List Nat} {x a : Nat} (ha : a ∉ l) :
    link h l.getLast? x a = h a := by
  rcases List.eq_nil_or_concat l with rfl | ⟨L, b, hLb⟩
  · rfl
  · rw [List.concat_eq_append] at hLb
    subst hLb
    have hab : a ≠ b := by rintro rfl; exact ha (by simp)
    simp [link, set_next_ne hab]

theorem link_next {h : Heap} (last : Option Nat) (x a : Nat) :
    ∃ nx, link h last x a = (h a).map fun t => { t with next := nx } := by
  cases last with
  | none =>
    cases e : h a with
    | none => exact ⟨none, by simp [link, e]⟩
    | some t => exact ⟨t.next, by simp [link, e]⟩
  | some b =>
    by_cases hab : a = b
    · subst hab
      exact ⟨some x, by simp [link, set_next]⟩
    · cases e : h a with
      | none => exact ⟨none, by simp [link, set_next_ne hab, e]⟩
      | some t => exact ⟨t.next, by simp [link, set_next_ne hab, e]⟩

/-- The sweep on a well-formed zombie set frees the zombies and their wait queues. -/
theorem sweep_spec {s : State} {Z : List Nat} (hZ : isQueue s.heap s.exit_queue Z)
    (hok : zombies_ok s.heap s.wqs Z) (hb : ∀ a t, s.heap a = some t → a < s.brk) :
    sweep s = some { s with
      heap := erase_list s.heap Z
      wqs := erase_list s.wqs (wq_of s.heap Z)
      exit_queue := empty_queue } := by
  have hlen : Z.length ≤ s.brk := by
    apply length_le_of_bound hZ.nodup
    intro a ha
    obtain ⟨t, ht⟩ := chain_mem hZ.links ha
    exact hb a t ht
  simp [sweep, free_queue_spec Z s.brk s.heap s.wqs s.exit_queue hlen hZ hok]

theorem yield_switch_spec {s : State} {p r : Nat} {R : List Nat} {c : tcb_t} (enabled : Bool)
    (hrun : s.running_thread = some p) (hc : s.heap p = some c) (hn : c.next = none)
    (hR : isQueue s.heap s.ready_queue (r :: R)) (hp : p ∉ r :: R) :
    ∃ rt, s.heap r = some rt ∧ ∃ s2,
      yield_switch s enabled (some r) = some (.switch s2) ∧
      s2.running_thread = some r ∧
      isQueue s2.heap s2.ready_queue (R ++ [p]) ∧
      s2.heap p = some { c with status := READY, mycontext := .yield enabled rt.tid } ∧
      s2.heap r = some { rt with
        next := none, status := if rt.status = EXITED then EXITED else RUNNING } := by
  obtain ⟨q1, hd, hq1⟩ := dequeue_head s.brk hR
  have hpr : p ≠ r := fun e => hp (e ▸ List.mem_cons_self _ _)
  have hpR : p ∉ R := fun hm => hp (List.mem_cons_of_mem _ hm)
  obtain ⟨rt, hrt⟩ := chain_mem hR.links (List.mem_cons_self r R)
  have hrR : r ∉ R := (List.nodup_cons.1 hR.nodup).1
  have hp1 : set_next s.heap r none p = some c := by rw [set_next_ne hpr]; exact hc
  obtain ⟨q2, he, hq2⟩ := enqueue_spec hq1 hpR hp1 hn
  have h2p : link (set_next s.heap r none) R.getLast? p p = some c := by
    rw [link_not_mem hpR]; exact hp1
  have h2r : link (set_next s.heap r none) R.getLast? p r = some { rt with next := none } := by
    rw [link_not_mem hrR]; exact set_next_self hrt
  have hrp : r ≠ p := fun e => hpr e.symm
  refine ⟨rt, hrt, ?_⟩
  have hfr : ∀ a ∈ R ++ [p], a ≠ r := by
    intro a ha e
    subst e
    rcases List.mem_append.1 ha with h1 | h1
    · exact hrR h1
    · exact hrp (List.mem_singleton.1 h1)
  by_cases hst : rt.status = EXITED
  · simp [yield_switch, hrun, hd, he, h2p, h2r, Function.update, hpr, hrp, hst]
    apply isQueue_congr _ hq2
    intro a ha
    by_cases hap : a = p
    · subst hap; simp [h2p]
    · simp [hap]
  · simp [yield_switch, hrun, hd, he, h2p, h2r, Function.update, hpr, hrp, hst]
    apply isQueue_congr _ hq2
    intro a ha
    have har := hfr a ha
    by_cases hap : a = p
    · subst hap; simp [h2p]
    · simp [hap, har]

theorem erase_list_not_mem {α : Type} {h : Nat → Option α} {Z : List Nat} {a : Nat}
    (ha : a ∉ Z) : erase_list h Z a = h a := by
  simp [erase_list, ha]

@[simp] theorem interrupts_off_heap (s : State) : (interrupts_off s).heap = s.heap := rfl

@[simp] theorem interrupts_off_wqs (s : State) : (interrupts_off s).wqs = s.wqs := rfl

@[simp] theorem interrupts_off_brk (s : State) : (interrupts_off s).brk = s.brk := rfl

@[simp] theorem interrupts_off_running (s : State) :
    (interrupts_off s).running_thread = s.running_thread := rfl

@[simp] theorem interrupts_off_ready (s : State) :
    (interrupts_off s).ready_queue = s.ready_queue := rfl

@[simp] theorem interrupts_off_exit (s : State) :
    (interrupts_off s).exit_queue = s.exit_queue := rfl

@[simp] theorem interrupts_off_slots (s : State) :
    (interrupts_off s).available_thr = s.available_thr := rfl

@[simp] theorem interrupts_off_codes (s : State) :
    (interrupts_off s).exit_code_array = s.exit_code_array := rfl

theorem find_first_slot (P : Nat → Bool) (j : Nat) (hP : P j = true)
    (hmin : ∀ i < j, P i = false) : ∀ n, j < n → (List.range n).find? P = some j
  | n + 1, hj => by
    rw [List.range_succ, List.find?_append]
    rcases Nat.lt_succ_iff_lt_or_eq.1 hj with h | h
    · rw [find_first_slot P j hP hmin n h]; rfl
    · subst h
      have : (List.range j).find? P = none := by
        rw [List.find?_eq_none]
        intro x hx
        simp [hmin x (List.mem_range.1 hx)]
      rw [this]
      simp [hP]

theorem find_no_slot (P : Nat → Bool) (n : Nat) (h : ∀ i < n, P i = false) :
    (List.range n).find? P = none := by
  rw [List.find?_eq_none]
  intro x hx
  simp [h x (List.mem_range.1 hx)]

theorem chain_head {h : Heap} {p : Option Nat} {l : List Nat} (hc : chain h p l) :
    p = l.head? := by
  cases l with
  | nil => exact hc
  | cons a l => exact hc.1

theorem isQueue_set_next_of_not_mem {h : Heap} {q : queue_t} {l : List Nat} {b : Nat}
    {nx : Option Nat} (hb : b ∉ l) (hq : isQueue h q l) : isQueue (set_next h b nx) q l :=
  ⟨hq.size_eq, chain_set_next_of_not_mem hb hq.links, hq.tail_eq, hq.nodup⟩

theorem wakeup_loop_spec (all : Int) (hall : all ≠ 0) (w : Nat) (W : List Nat) :
    ∀ (n : Nat) (s : State) (wq : queue_t) (R : List Nat) (count : Int),
    W.length ≤ n → s.wqs w = some wq → isQueue s.heap wq W →
    isQueue s.heap s.ready_queue R → (∀ a ∈ W, a ∉ R) →
    ∃ h2 q2, wakeup_loop all w n s wq.head count = some ({ s with
        heap := h2
        wqs := Function.update s.wqs w (some empty_queue)
        ready_queue := q2 }, count + W.length) ∧
      isQueue h2 q2 (R ++ W) ∧
      (∀ a, a ∉ R → a ∉ W → h2 a = s.heap a) ∧
      (∀ a, same_thread (h2 a) (s.heap a)) ∧
      (∀ a ∈ R, (h2 a).map (fun t => t.status) = (s.heap a).map (fun t => t.status)) ∧
      (∀ a ∈ W, (h2 a).map (fun t => t.status)
        = (s.heap a).map (fun t => if t.status = EXITED then EXITED else READY)) := by
  induction W with
  | nil =>
    intro n s wq R count _ hw hq hR _
    have hwq := isQueue_nil hq
    subst hwq
    refine ⟨s.heap, s.ready_queue, ?_, by simpa using hR, fun _ _ _ => rfl, fun _ => rfl,
      fun _ _ => rfl, by simp⟩
    have hupd : Function.update s.wqs w (some empty_queue) = s.wqs := by
      rw [← hw]; exact Function.update_eq_self w s.wqs
    rw [hupd]
    simp [empty_queue, wakeup_loop]
  | cons a W ih =>
    intro n s wq R count hn hw hq hR hd
    obtain ⟨wq1, hdq, hq1⟩ := dequeue_head s.brk hq
    obtain ⟨hhead, t, ht, hl⟩ := hq.links
    have haR : a ∉ R := hd a (List.mem_cons_self a W)
    have haW : a ∉ W := (List.nodup_cons.1 hq.nodup).1
    have hR1 : isQueue (set_next s.heap a none) s.ready_queue R :=
      isQueue_set_next_of_not_mem haR hR
    obtain ⟨rq2, he, hrq2⟩ := enqueue_spec hR1 haR (set_next_self ht) rfl
    have h2a : link (set_next s.heap a none) R.getLast? a a = some { t with next := none } := by
      rw [link_not_mem haR]; exact set_next_self ht
    cases n with
    | zero => simp at hn
    | succ m =>
      have hlen : W.length ≤ m := by simpa using hn
      have hh3 : (if t.status ≠ EXITED then
            Function.update (link (set_next s.heap a none) R.getLast? a) a
              (some { t with next := none, status := READY })
          else link (set_next s.heap a none) R.getLast? a)
          = Function.update (link (set_next s.heap a none) R.getLast? a) a
              (some { t with
                next := none, status := if t.status = EXITED then EXITED else READY }) := by
        by_cases hst : t.status = EXITED
        · simp only [hst, ne_eq, not_true_eq_false, if_false, if_true]
          rw [← hst, ← h2a]
          exact (Function.update_eq_self a _).symm
        · simp [hst]
      have hne : ∀ b, b ≠ a → Function.update (link (set_next s.heap a none) R.getLast? a) a
          (some { t with next := none, status := if t.status = EXITED then EXITED else READY }) b
          = link (set_next s.heap a none) R.getLast? a b :=
        fun b hb => Function.update_noteq hb _ _
      have hq1b : isQueue (Function.update (link (set_next s.heap a none) R.getLast? a) a
          (some { t with next := none, status := if t.status = EXITED then EXITED else READY }))
          wq1 W := by
        apply isQueue_congr _ hq1
        intro b hb
        have hba : b ≠ a := by rintro rfl; exact haW hb
        have hbR : b ∉ R := hd b (List.mem_cons_of_mem a hb)
        rw [hne b hba, link_not_mem hbR]
      have hR1b : isQueue (Function.update (link (set_next s.heap a none) R.getLast? a) a
          (some { t with next := none, status := if t.status = EXITED then EXITED else READY }))
          rq2 (R ++ [a]) := by
        apply isQueue_congr _ hrq2
        intro b _
        by_cases hba : b = a
        · subst hba; simp [h2a]
        · rw [hne b hba]
      have hd1 : ∀ b ∈ W, b ∉ R ++ [a] := by
        intro b hb hm
        rcases List.mem_append.1 hm with h1 | h1
        · exact hd b (List.mem_cons_of_mem a hb) h1
        · exact haW (List.mem_singleton.1 h1 ▸ hb)
      obtain ⟨h2, q2, hloop, hq2, hfr, hsame, hstR, hstW⟩ := ih m
        { s with
          heap := Function.update (link (set_next s.heap a none) R.getLast? a) a
            (some { t with
              next := none, status := if t.status = EXITED then EXITED else READY })
          wqs := Function.update s.wqs w (some wq1)
          ready_queue := rq2 }
        wq1 (R ++ [a]) (count + 1) hlen (Function.update_same _ _ _) hq1b hR1b hd1
      have hnext : t.next = wq1.head := (chain_head hl).trans (chain_head hq1.links).symm
      have hlink : ∀ b, b ≠ a → same_thread (link (set_next s.heap a none) R.getLast? a b)
          (s.heap b) ∧ (link (set_next s.heap a none) R.getLast? a b).map (fun t => t.status)
            = (s.heap b).map (fun t => t.status) := by
        intro b hba
        obtain ⟨nx, hnx⟩ := link_next (h := set_next s.heap a none) R.getLast? a b
        rw [hnx, set_next_ne hba]
        cases s.heap b <;> simp [same_thread]
      refine ⟨h2, q2, ?_, by simpa using hq2, ?_, ?_, ?_, ?_⟩
      · simp only [wakeup_loop, hhead, ht, hw, hdq, he, h2a, Option.bind_eq_bind,
          Option.some_bind, hh3]
        simp only [hall, if_false, ← hnext] at hloop ⊢
        simp only [Function.update_idem] at hloop
        rw [hloop]
        simp
        ring
      · intro b hbR hbW
        have hba : b ≠ a := fun e => hbW (e ▸ List.mem_cons_self a W)
        have hbW2 : b ∉ W := fun hm => hbW (List.mem_cons_of_mem a hm)
        have hbRa : b ∉ R ++ [a] := by
          intro hm
          rcases List.mem_append.1 hm with h1 | h1
          · exact hbR h1
          · exact hba (List.mem_singleton.1 h1)
        rw [hfr b hbRa hbW2]
        dsimp only
        rw [hne b hba, link_not_mem hbR, set_next_ne hba]
      · intro b
        refine (hsame b).trans ?_
        dsimp only
        by_cases hba : b = a
        · subst hba; simp [ht]
        · rw [hne b hba]; exact (hlink b hba).1
      · intro b hb
        have hba : b ≠ a := by rintro rfl; exact haR hb
        rw [hstR b (List.mem_append_left _ hb)]
        dsimp only
        rw [hne b hba]; exact (hlink b hba).2
      · intro b hb
        rcases List.mem_cons.1 hb with rfl | hbW
        · rw [hstR b (List.mem_append_right _ (List.mem_singleton_self b))]
          simp [ht]
        · have hba : b ≠ a := by rintro rfl; exact haW hbW
          have hbR : b ∉ R := hd b hb
          rw [hstW b hbW]
          dsimp only
          rw [hne b hba, link_not_mem hbR, set_next_ne hba]


theorem thread_wakeup_all_spec {s : State} {w : Nat} {wq : queue_t} {W R : List Nat}
    (hw : s.wqs w = some wq) (hW : isQueue s.heap wq W) (hR : isQueue s.heap s.ready_queue R)
    (hd : ∀ a ∈ W, a ∉ R) (hb : ∀ a t, s.heap a = some t → a < s.brk) :
    ∃ h2 q2, thread_wakeup s (some w) 1 = some ({ s with
        heap := h2
        wqs := Function.update s.wqs w (some empty_queue)
        ready_queue := q2 }, (W.length : Int)) ∧
      isQueue h2 q2 (R ++ W) ∧
      (∀ a, a ∉ R → a ∉ W → h2 a = s.heap a) ∧
      (∀ a, same_thread (h2 a) (s.heap a)) ∧
      (∀ a ∈ R, (h2 a).map (fun t => t.status) = (s.heap a).map (fun t => t.status)) ∧
      (∀ a ∈ W, (h2 a).map (fun t => t.status)
        = (s.heap a).map (fun t => if t.status = EXITED then EXITED else READY)) := by
  have hlen : W.length ≤ s.brk + 1 := by
    have : W.length ≤ s.brk := by
      apply length_le_of_bound hW.nodup
      intro a ha
      obtain ⟨t, ht⟩ := chain_mem hW.links ha
      exact hb a t ht
    omega
  obtain ⟨h2, q2, hloop, hrest⟩ := wakeup_loop_spec 1 (by decide) w W (s.brk + 1)
    (interrupts_off s) wq R 0 hlen hw hW hR hd
  refine ⟨h2, q2, ?_, hrest⟩
  simp only [thread_wakeup, interrupts_off_wqs, hw, Option.bind_eq_bind, Option.some_bind,
    interrupts_off_brk, hloop]
  simp [interrupts_set, interrupts_off]


theorem thread_exit_spec (s : State) (code : Int) (p r : Nat) (R Z W T : List Nat) (c : tcb_t)
    (hs : Sched s p R Z) (hj : Joiners s p R Z W) (hc : s.heap p = some c)
    (hne : R ++ W = r :: T) :
    ∃ s2, thread_exit s code = some (.switch s2) ∧
      s2.running_thread = some r ∧
      isQueue s2.heap s2.ready_queue T ∧
      isQueue s2.heap s2.exit_queue (Z ++ [p]) ∧
      s2.heap p = some { c with status := EXITED, mycontext := .exit s.interrupts code } ∧
      s2.available_thr c.tid = none ∧
      s2.exit_code_array c.tid = code ∧
      s2.wqs c.wait_queue = some empty_queue ∧
      same_thread (s2.heap r) (s.heap r) ∧
      (s2.heap r).map (fun t => t.status)
        = (s.heap r).map (fun t => if t.status = EXITED then EXITED else RUNNING) ∧
      s2.brk = s.brk ∧ s2.locks = s.locks ∧ s2.cvs = s.cvs ∧ s2.mem = s.mem := by
  obtain ⟨c2, wq, hc2, hwq, hW⟩ := hj.wait
  rw [hc] at hc2
  cases hc2
  obtain ⟨c3, hc3, hn⟩ := hs.alloc
  rw [hc] at hc3
  cases hc3
  obtain ⟨h2, q2, hwake, hq2, hfr, hsame, hstR, hstW⟩ :=
    thread_wakeup_all_spec (s := interrupts_off s) hwq hW hs.ready hj.not_ready hs.bound
  rw [hne] at hq2
  simp only [interrupts_off_heap] at hfr hsame hstR hstW
  have hpR : p ∉ R := hs.not_ready
  have hpW : p ∉ W := hj.not_running
  have hrRW : r ∈ R ++ W := by rw [hne]; exact List.mem_cons_self r T
  have hmemRW : ∀ b ∈ r :: T, b ∈ R ++ W := by intro b hb; rw [hne]; exact hb
  have hZ' : ∀ b ∈ R ++ W, b ∉ Z := by
    intro b hb
    rcases List.mem_append.1 hb with h1 | h1
    · exact hs.disjoint b h1
    · exact hj.not_zombie b h1
  have hp' : ∀ b ∈ R ++ W, b ≠ p := by
    intro b hb e
    subst e
    rcases List.mem_append.1 hb with h1 | h1
    · exact hpR h1
    · exact hpW h1
  have h2p : h2 p = some c := by rw [hfr p hpR hpW]; exact hc
  have hlast : s.ready_queue.size = 0 → wq.size ≠ 0 := by
    intro hsz
    have hR0 : R = [] := by
      have := hs.ready.size_eq
      rw [hsz] at this
      exact List.length_eq_zero.1 (by exact_mod_cast this.symm)
    have hW0 : W ≠ [] := by
      intro e; rw [hR0, e] at hne; cases hne
    rw [hW.size_eq]
    intro e
    exact hW0 (List.length_eq_zero.1 (by exact_mod_cast e))
  -- the zombie queue after the status of the caller is set
  have hZ1 : isQueue (Function.update h2 p
      (some { c with status := EXITED, mycontext := .exit s.interrupts code }))
      s.exit_queue Z := by
    apply isQueue_congr _ hs.zombie
    intro b hb
    have hbp : b ≠ p := by rintro rfl; exact hs.not_zombie hb
    have hbR : b ∉ R := fun hm => hs.disjoint b hm hb
    have hbW : b ∉ W := fun hm => hj.not_zombie b hm hb
    rw [Function.update_noteq hbp, hfr b hbR hbW]
  obtain ⟨eq2, henq, heq2⟩ := enqueue_spec hZ1 hs.not_zombie (Function.update_same _ _ _) hn
  obtain ⟨rt2, hrt2⟩ := chain_mem hq2.links (List.mem_cons_self r T)
  have hrp : r ≠ p := hp' r hrRW
  have hrZ : r ∉ Z := hZ' r hrRW
  have hH2r : link (Function.update h2 p
      (some { c with status := EXITED, mycontext := .exit s.interrupts code }))
      Z.getLast? p r = some rt2 := by
    rw [link_not_mem hrZ, Function.update_noteq hrp]; exact hrt2
  have hh3 : (if rt2.status = EXITED then
        link (Function.update h2 p
          (some { c with status := EXITED, mycontext := .exit s.interrupts code }))
          Z.getLast? p
      else Function.update (link (Function.update h2 p
          (some { c with status := EXITED, mycontext := .exit s.interrupts code }))
          Z.getLast? p) r (some { rt2 with status := RUNNING }))
      = Function.update (link (Function.update h2 p
          (some { c with status := EXITED, mycontext := .exit s.interrupts code }))
          Z.getLast? p) r
          (some { rt2 with status := if rt2.status = EXITED then EXITED else RUNNING }) := by
    by_cases hst : rt2.status = EXITED
    · have e : ({ rt2 with status := EXITED } : tcb_t) = rt2 := by
        cases rt2; simp_all
      simp only [hst, if_true, e]
      rw [← hH2r]
      exact (Function.update_eq_self r _).symm
    · simp [hst]
  have hQ3 : isQueue (Function.update (link (Function.update h2 p
          (some { c with status := EXITED, mycontext := .exit s.interrupts code }))
          Z.getLast? p) r
          (some { rt2 with status := if rt2.status = EXITED then EXITED else RUNNING }))
      q2 (r :: T) := by
    apply isQueue_congr _ hq2
    intro b hb
    by_cases hbr : b = r
    · subst hbr; simp [hrt2]
    · rw [Function.update_noteq hbr, link_not_mem (hZ' b (hmemRW b hb)),
        Function.update_noteq (hp' b (hmemRW b hb))]
  obtain ⟨rq, hdq, hrq⟩ := dequeue_head s.brk hQ3
  have hhead : q2.head = some r := hq2.links.1
  have hrun := hs.running
  have hpr : p ≠ r := fun e => hrp e.symm
  have hfinal : ∀ b, b ≠ r → set_next (Function.update (link (Function.update h2 p
          (some { c with status := EXITED, mycontext := .exit s.interrupts code }))
          Z.getLast? p) r
          (some { rt2 with status := if rt2.status = EXITED then EXITED else RUNNING }))
          r none b = link (Function.update h2 p
          (some { c with status := EXITED, mycontext := .exit s.interrupts code }))
          Z.getLast? p b := by
    intro b hb
    rw [set_next_ne hb, Function.update_noteq hb]
  have hgoal : thread_exit s code = some (.switch
      { interrupts_off s with
        heap := set_next (Function.update (link (Function.update h2 p
          (some { c with status := EXITED, mycontext := .exit s.interrupts code }))
          Z.getLast? p) r
          (some { rt2 with status := if rt2.status = EXITED then EXITED else RUNNING }))
          r none
        wqs := Function.update s.wqs c.wait_queue (some empty_queue)
        running_thread := some r
        ready_queue := rq
        exit_queue := eq2
        available_thr := Function.update s.available_thr c.tid none
        exit_code_array := Function.update s.exit_code_array c.tid code }) := by
    simp only [thread_exit, interrupts_off_running, hrun, interrupts_off_heap, hc,
      interrupts_off_ready, interrupts_off_wqs, Option.bind_eq_bind, Option.some_bind]
    by_cases hsz : s.ready_queue.size = 0
    · simp [hsz, hwq, hlast hsz, hwake, h2p, henq, hhead, hH2r, hh3, hdq]
    · simp [hsz, hwake, h2p, henq, hhead, hH2r, hh3, hdq]
  refine ⟨_, hgoal, rfl, hrq, ?_, ?_, ?_, ?_, ?_, ?_, ?_, rfl, rfl, rfl, rfl⟩
  · apply isQueue_congr _ heq2
    intro b hb
    have hbr : b ≠ r := by
      rintro rfl
      rcases List.mem_append.1 hb with h1 | h1
      · exact hrZ h1
      · exact hrp (List.mem_singleton.1 h1)
    dsimp only
    rw [hfinal b hbr]
  · dsimp only
    rw [hfinal p hpr, link_not_mem hs.not_zombie, Function.update_same]
  · simp
  · simp
  · simp
  · dsimp only
    refine Eq.trans ?_ (hsame r)
    rw [hrt2]
    simp [set_next]
  · dsimp only
    have hst : (some rt2.status) = (s.heap r).map (fun t => t.status) ∨
        (some rt2.status) = (s.heap r).map
          (fun t => if t.status = EXITED then EXITED else READY) := by
      rcases List.mem_append.1 hrRW with h1 | h1
      · left; rw [← hstR r h1, hrt2]; rfl
      · right; rw [← hstW r h1, hrt2]; rfl
    cases hsr : s.heap r with
    | none => rw [hsr] at hst; simp at hst
    | some t0 =>
      rw [hsr] at hst
      simp only [Option.map_some', Option.some.injEq] at hst
      simp only [set_next, Function.update_same, Option.map_some', Option.some.injEq]
      rcases hst with h1 | h1
      · rw [h1]
      · rw [h1]
        by_cases h0 : t0.status = EXITED
        · simp [h0]
        · have : READY ≠ EXITED := by decide
          simp [h0, this]

/-- The dispatch of `thread_yield (THREAD_ANY)`: in a state that satisfies
`Sched` with ready set `r :: R`, whose running thread has not been killed, the
call sweeps the zombies and then runs the switch to the head `r`, in a state
that differs from the first one in the zombies only. -/
theorem thread_yield_any_dispatch (MAX : Nat) (s : State) (p r : Nat) (R Z : List Nat)
    (c : tcb_t) (hs : Sched s p (r :: R) Z) (hc : s.heap p = some c)
    (hk : c.status ≠ EXITED) :
    ∃ s1, thread_yield MAX s THREAD_ANY = yield_switch s1 s.interrupts (some r) ∧
      s1.running_thread = some p ∧ s1.heap p = some c ∧ c.next = none ∧
      isQueue s1.heap s1.ready_queue (r :: R) ∧ s1.heap r = s.heap r := by
  obtain ⟨c2, hc2, hn⟩ := hs.alloc
  rw [hc] at hc2
  cases hc2
  have hsw := sweep_spec (s := interrupts_off s) hs.zombie hs.zok hs.bound
  have hp1 : erase_list s.heap Z p = some c := by
    rw [erase_list_not_mem hs.not_zombie]; exact hc
  have hR1 : isQueue (erase_list s.heap Z) s.ready_queue (r :: R) := by
    apply isQueue_congr _ hs.ready
    intro a ha
    rw [erase_list_not_mem (hs.disjoint a ha)]
  have hsz : s.ready_queue.size ≠ 0 := by
    rw [hs.ready.size_eq]; simp; omega
  have hhead : s.ready_queue.head = some r := hs.ready.links.1
  have hany : (THREAD_ANY : Int) = -1 := rfl
  have hself : (THREAD_SELF : Int) = -2 := rfl
  have hmax : (-1 : Int) < (MAX : Int) := by omega
  have hrun := hs.running
  refine ⟨{ interrupts_off s with
      heap := erase_list s.heap Z
      wqs := erase_list s.wqs (wq_of s.heap Z)
      exit_queue := empty_queue }, ?_, hs.running, hp1, hn, hR1,
    erase_list_not_mem (hs.disjoint r (List.mem_cons_self r R))⟩
  simp only [thread_yield, hsw, Option.bind_eq_bind, Option.some_bind]
  simp [hk, hany, hself, hsz, hhead, hrun, hp1, hmax]


theorem free_queue_empty (n : Nat) (h : Heap) (w : WQs) :
    free_queue (n + 1) h w empty_queue = some (h, w, empty_queue) := by
  simp [free_queue, empty_queue]

/-- The terminating branch of `thread_exit`: in a state that satisfies `Sched`
with an empty ready set, where no thread is blocked on the wait queue of the
caller and no zombie shares that wait queue, `thread_exit (code)` ends in
`exit (code)`. -/
theorem thread_exit_last (s : State) (code : Int) (p : Nat) (Z : List Nat) (c : tcb_t)
    (hs : Sched s p [] Z) (hj : Joiners s p [] Z []) (hc : s.heap p = some c)
    (hwz : c.wait_queue ∉ wq_of s.heap Z) :
    ∃ s2, thread_exit s code = some (.exit s2 code) := by
  obtain ⟨c2, wq, hc2, hwq, hW⟩ := hj.wait
  rw [hc] at hc2
  cases hc2
  have hwq0 := isQueue_nil hW
  subst hwq0
  have hrq := isQueue_nil hs.ready
  have hlen : Z.length ≤ s.brk := by
    apply length_le_of_bound hs.zombie.nodup
    intro a ha
    obtain ⟨t, ht⟩ := chain_mem hs.zombie.links ha
    exact hs.bound a t ht
  have hagree : ∀ a ∈ Z, Function.update s.heap p none a = s.heap a := by
    intro a ha
    have : a ≠ p := by rintro rfl; exact hs.not_zombie ha
    exact Function.update_noteq this _ _
  have hZ2 : isQueue (Function.update s.heap p none) s.exit_queue Z := by
    apply isQueue_congr _ hs.zombie
    intro a ha
    rw [hagree a ha]
  have hok2 : zombies_ok (Function.update s.heap p none)
      (Function.update s.wqs c.wait_queue none) Z := by
    refine ⟨?_, ?_⟩
    · intro z hz
      obtain ⟨t, ht, hw⟩ := hs.zok.1 z hz
      refine ⟨t, by rw [hagree z hz]; exact ht, ?_⟩
      have : t.wait_queue ≠ c.wait_queue := by
        intro e
        apply hwz
        rw [← e]
        simp only [wq_of, List.mem_filterMap]
        exact ⟨z, hz, by simp [ht]⟩
      rw [Function.update_noteq this]; exact hw
    · rw [wq_of_congr hagree]; exact hs.zok.2
  have hfz := free_queue_spec Z s.brk _ _ s.exit_queue hlen hZ2 hok2
  have hrun := hs.running
  simp only [thread_exit, interrupts_off_running, hrun, interrupts_off_heap, hc,
    interrupts_off_ready, interrupts_off_wqs, Option.bind_eq_bind, Option.some_bind, hrq, hwq,
    wait_queue_destroy, interrupts_off_brk, interrupts_off_exit]
  have hfe : ∀ (h : Heap) (w : WQs),
      free_queue (s.brk + 1) h w { head := none, tail := none, size := 0 }
        = some (h, w, { head := none, tail := none, size := 0 }) :=
    fun h w => free_queue_empty s.brk h w
  simp [empty_queue, hfe, hfz]

theorem thread_sleep_spec (s : State) (w : Nat) (k : caller) (p r : Nat) (R Z W : List Nat)
    (c : tcb_t) (hs : Sched s p (r :: R) Z) (hw : WaitSet s p (r :: R) Z w W)
    (hc : s.heap p = some c) :
    ∃ rt wq2 h2 q2, s.heap r = some rt ∧
      thread_sleep s (some w) k = some (.switch { interrupts_off s with
        heap := h2
        wqs := Function.update s.wqs w (some wq2)
        running_thread := some r
        ready_queue := q2 }) ∧
      isQueue h2 wq2 (W ++ [p]) ∧
      isQueue h2 q2 R ∧
      isQueue h2 s.exit_queue Z ∧
      h2 p = some { c with mycontext := .sleep s.interrupts k, status := BLOCKED } ∧
      h2 r = some { rt with next := none, status := RUNNING } ∧
      (∀ a, a ≠ p → a ≠ r → a ∉ W → h2 a = s.heap a) ∧
      (∀ a, a ≠ p → a ≠ r → ∃ nx, h2 a = (s.heap a).map fun t => { t with next := nx }) := by
  obtain ⟨wq, hwq, hW⟩ := hw.queue
  obtain ⟨c2, hc2, hn⟩ := hs.alloc
  rw [hc] at hc2
  cases hc2
  have hpW : p ∉ W := hw.not_running
  have hpr : p ≠ r := fun e => hs.not_ready (e ▸ List.mem_cons_self r R)
  have hrp : r ≠ p := fun e => hpr e.symm
  have hrW : r ∉ W := fun hm => hw.not_ready r hm (List.mem_cons_self r R)
  have hrR : r ∉ R := (List.nodup_cons.1 hs.ready.nodup).1
  obtain ⟨rt, hrt⟩ := chain_mem hs.ready.links (List.mem_cons_self r R)
  have hhead : s.ready_queue.head = some r := hs.ready.links.1
  -- the wait queue after the caller is marked
  have hW0 : isQueue (Function.update s.heap p
      (some { c with mycontext := .sleep s.interrupts k, status := BLOCKED })) wq W := by
    apply isQueue_congr _ hW
    intro b hb
    have : b ≠ p := by rintro rfl; exact hpW hb
    rw [Function.update_noteq this]
  obtain ⟨wq2, henq, hwq2⟩ := enqueue_spec hW0 hpW (Function.update_same _ _ _) hn
  have h1r : link (Function.update s.heap p
      (some { c with mycontext := .sleep s.interrupts k, status := BLOCKED }))
      W.getLast? p r = some rt := by
    rw [link_not_mem hrW, Function.update_noteq hrp]; exact hrt
  have hR2 : isQueue (Function.update (link (Function.update s.heap p
      (some { c with mycontext := .sleep s.interrupts k, status := BLOCKED }))
      W.getLast? p) r (some { rt with status := RUNNING })) s.ready_queue (r :: R) := by
    apply isQueue_congr _ hs.ready
    intro b hb
    have hbW : b ∉ W := fun hm => hw.not_ready b hm hb
    have hbp : b ≠ p := by rintro rfl; exact hs.not_ready hb
    by_cases hbr : b = r
    · subst hbr; simp [hrt]
    · rw [Function.update_noteq hbr, link_not_mem hbW, Function.update_noteq hbp]
  obtain ⟨q2, hdq, hq2⟩ := dequeue_head s.brk hR2
  have hfinal : ∀ b, b ≠ r → set_next (Function.update (link (Function.update s.heap p
      (some { c with mycontext := .sleep s.interrupts k, status := BLOCKED }))
      W.getLast? p) r (some { rt with status := RUNNING })) r none b
      = link (Function.update s.heap p
      (some { c with mycontext := .sleep s.interrupts k, status := BLOCKED }))
      W.getLast? p b := by
    intro b hb
    rw [set_next_ne hb, Function.update_noteq hb]
  have hrun := hs.running
  refine ⟨rt, wq2, _, q2, hrt, ?_, ?_, hq2, ?_, ?_, ?_, ?_, ?_⟩
  · simp only [thread_sleep, interrupts_off_ready, hhead, interrupts_off_running, hrun,
      interrupts_off_heap, hc, interrupts_off_wqs, hwq, Option.bind_eq_bind, Option.some_bind,
      henq, h1r, interrupts_off_brk, hdq]
    simp
  · apply isQueue_congr _ hwq2
    intro b hb
    have hbr : b ≠ r := by
      rintro rfl
      rcases List.mem_append.1 hb with h1 | h1
      · exact hrW h1
      · exact hrp (List.mem_singleton.1 h1)
    rw [hfinal b hbr]
  · apply isQueue_congr _ hs.zombie
    intro b hb
    have hbr : b ≠ r := by rintro rfl; exact hs.disjoint b (List.mem_cons_self b R) hb
    have hbW : b ∉ W := fun hm => hw.not_zombie b hm hb
    have hbp : b ≠ p := by rintro rfl; exact hs.not_zombie hb
    rw [hfinal b hbr, link_not_mem hbW, Function.update_noteq hbp]
  · rw [hfinal p hpr, link_not_mem hpW, Function.update_same]
  · simp [set_next]
  · intro a hap har haW
    rw [hfinal a har, link_not_mem haW, Function.update_noteq hap]
  · intro a hap har
    rw [hfinal a har]
    obtain ⟨nx, hnx⟩ := link_next (h := Function.update s.heap p
      (some { c with mycontext := .sleep s.interrupts k, status := BLOCKED })) W.getLast? p a
    exact ⟨nx, by rw [hnx, Function.update_noteq hap]⟩


theorem thread_wakeup_one_spec {s : State} {w : Nat} {wq : queue_t} {a : Nat} {W R : List Nat}
    (hw : s.wqs w = some wq) (hW : isQueue s.heap wq (a :: W))
    (hR : isQueue s.heap s.ready_queue R) (hd : ∀ b ∈ a :: W, b ∉ R) :
    ∃ t h2 wq2 q2, s.heap a = some t ∧
      thread_wakeup s (some w) 0 = some ({ s with
        heap := h2
        wqs := Function.update s.wqs w (some wq2)
        ready_queue := q2 }, 1) ∧
      isQueue h2 wq2 W ∧
      isQueue h2 q2 (R ++ [a]) ∧
      h2 a = some { t with
        next := none, status := if t.status = EXITED then EXITED else READY } ∧
      (∀ b, b ≠ a → b ∉ R → h2 b = s.heap b) ∧
      (∀ b, b ≠ a → ∃ nx, h2 b = (s.heap b).map fun x => { x with next := nx }) := by
  obtain ⟨wq1, hdq, hq1⟩ := dequeue_head s.brk hW
  obtain ⟨hhead, t, ht, hl⟩ := hW.links
  have haR : a ∉ R := hd a (List.mem_cons_self a W)
  have haW : a ∉ W := (List.nodup_cons.1 hW.nodup).1
  have hR1 : isQueue (set_next s.heap a none) s.ready_queue R :=
    isQueue_set_next_of_not_mem haR hR
  obtain ⟨rq2, he, hrq2⟩ := enqueue_spec hR1 haR (set_next_self ht) rfl
  have h2a : link (set_next s.heap a none) R.getLast? a a = some { t with next := none } := by
    rw [link_not_mem haR]; exact set_next_self ht
  have hh3 : (if t.status = EXITED then link (set_next s.heap a none) R.getLast? a
      else Function.update (link (set_next s.heap a none) R.getLast? a) a
          (some { t with next := none, status := READY }))
      = Function.update (link (set_next s.heap a none) R.getLast? a) a
          (some { t with
            next := none, status := if t.status = EXITED then EXITED else READY }) := by
    by_cases hst : t.status = EXITED
    · have e : ({ t with next := none, status := EXITED } : tcb_t) = { t with next := none } := by
        cases t; simp_all
      simp only [hst, if_true, e]
      rw [← h2a]
      exact (Function.update_eq_self a _).symm
    · simp [hst]
  have hne : ∀ b, b ≠ a → Function.update (link (set_next s.heap a none) R.getLast? a) a
      (some { t with next := none, status := if t.status = EXITED then EXITED else READY }) b
      = link (set_next s.heap a none) R.getLast? a b :=
    fun b hb => Function.update_noteq hb _ _
  refine ⟨t, Function.update (link (set_next s.heap a none) R.getLast? a) a
    (some { t with next := none, status := if t.status = EXITED then EXITED else READY }),
    wq1, rq2, ht, ?_, ?_, ?_, Function.update_same _ _ _, ?_, ?_⟩
  · simp only [thread_wakeup, interrupts_off_wqs, hw, Option.bind_eq_bind, Option.some_bind,
      hhead, wakeup_loop, interrupts_off_heap, ht, interrupts_off_brk, hdq,
      interrupts_off_ready, he, h2a]
    simp [hh3, interrupts_set, interrupts_off]
  · apply isQueue_congr _ hq1
    intro b hb
    have hba : b ≠ a := by rintro rfl; exact haW hb
    have hbR : b ∉ R := hd b (List.mem_cons_of_mem a hb)
    rw [hne b hba, link_not_mem hbR]
  · apply isQueue_congr _ hrq2
    intro b _
    by_cases hba : b = a
    · subst hba; simp [h2a]
    · rw [hne b hba]
  · intro b hba hbR
    rw [hne b hba, link_not_mem hbR, set_next_ne hba]
  · intro b hba
    obtain ⟨nx, hnx⟩ := link_next (h := set_next s.heap a none) R.getLast? a b
    exact ⟨nx, by rw [hne b hba, hnx, set_next_ne hba]⟩

theorem wakeup_times_spec (w : Nat) (W1 : List Nat) :
    ∀ (s : State) (wq : queue_t) (W2 R : List Nat), s.wqs w = some wq →
      isQueue s.heap wq (W1 ++ W2) → isQueue s.heap s.ready_queue R →
      (∀ b ∈ W1 ++ W2, b ∉ R) →
      ∃ s2 wq2, wakeup_times w W1.length s = some s2 ∧ s2.wqs w = some wq2 ∧
        isQueue s2.heap wq2 W2 ∧ isQueue s2.heap s2.ready_queue (R ++ W1) := by
  induction W1 with
  | nil =>
    intro s wq W2 R hw hW hR _
    exact ⟨s, wq, rfl, hw, hW, by simpa using hR⟩
  | cons a W1 ih =>
    intro s wq W2 R hw hW hR hd
    obtain ⟨t, h2, wq2, q2, _, hwk, hW2, hR2, _, _, _⟩ := thread_wakeup_one_spec hw hW hR hd
    have hnd : (a :: (W1 ++ W2)).Nodup := hW.nodup
    have hd2 : ∀ b ∈ W1 ++ W2, b ∉ R ++ [a] := by
      intro b hb hm
      rcases List.mem_append.1 hm with h1 | h1
      · exact hd b (List.mem_cons_of_mem a hb) h1
      · exact (List.nodup_cons.1 hnd).1 (List.mem_singleton.1 h1 ▸ hb)
    obtain ⟨s3, wq3, h3, hw3, hW3, hR3⟩ := ih
      { s with heap := h2, wqs := Function.update s.wqs w (some wq2), ready_queue := q2 }
      wq2 W2 (R ++ [a]) (Function.update_same _ _ _) hW2 hR2 hd2
    refine ⟨s3, wq3, ?_, hw3, hW3, by simpa using hR3⟩
    simp only [List.length_cons, wakeup_times, hwk, Option.bind_eq_bind, Option.some_bind]
    simpa using h3


theorem thread_wait_invalid_dispatch (MAX : Nat) (s : State) (t : Int) (ec : Option Nat)
    (ttid0 : Int) (p : Nat) (c : tcb_t) (hr : s.running_thread = some p)
    (hp : s.heap p = some c)
    (h : t = c.tid ∨ t < 0 ∨ t ≥ MAX ∨ s.available_thr t = none) :
    thread_wait MAX s t ec ttid0 = some (.ret s THREAD_INVALID) := by
  simp only [thread_wait, interrupts_off_running, hr, interrupts_off_heap, hp,
    Option.bind_eq_bind, Option.some_bind, interrupts_off_slots, if_pos h]
  simp [interrupts_set, interrupts_off]

@[simp] theorem interrupts_off_locks (s : State) : (interrupts_off s).locks = s.locks := rfl

/-- The loop of `lock_acquire` does not return to its caller from a state in
which the lock is held. -/
theorem acquire_loop_held_no_ret (s : State) (enabled : Bool) (l : Nat) (cv : Option Bool)
    (lk : lock_t) (hl : s.locks l = some lk) (h : lk.state ≠ 0) (s4 : State) (v : Int) :
    acquire_loop s enabled l cv ≠ some (.ret s4 v) := by
  simp only [acquire_loop, hl, Option.bind_eq_bind, Option.some_bind, ne_eq, h,
    not_false_eq_true, if_true]
  generalize thread_sleep _ _ _ = o
  cases o with
  | none => simp
  | some r3 => cases r3 <;> simp


theorem sched_interrupts_off {s : State} {p : Nat} {R Z : List Nat} (hs : Sched s p R Z) :
    Sched (interrupts_off s) p R Z :=
  ⟨hs.running, hs.alloc, hs.ready, hs.zombie, hs.zok, hs.not_ready, hs.not_zombie,
    hs.disjoint, hs.bound⟩

/-- The zombie sweep in a state that satisfies `Sched`. -/
theorem sweep_swept {s : State} {p : Nat} {R Z : List Nat} (hs : Sched s p R Z) :
    sweep s = some (swept s Z) :=
  sweep_spec hs.zombie hs.zok hs.bound

/-- The sweep keeps the invariant, with an empty zombie set. -/
theorem swept_sched {s : State} {p : Nat} {R Z : List Nat} (hs : Sched s p R Z) :
    Sched (swept s Z) p R [] where
  running := hs.running
  alloc := by
    obtain ⟨c, hc, hn⟩ := hs.alloc
    exact ⟨c, by show erase_list s.heap Z p = some c; rw [erase_list_not_mem hs.not_zombie, hc],
      hn⟩
  ready := by
    show isQueue (erase_list s.heap Z) s.ready_queue R
    apply isQueue_congr _ hs.ready
    intro a ha
    rw [erase_list_not_mem (hs.disjoint a ha)]
  zombie := ⟨rfl, rfl, rfl, List.nodup_nil⟩
  zok := ⟨by simp, by simp [wq_of]⟩
  not_ready := hs.not_ready
  not_zombie := by simp
  disjoint := by simp
  bound := by
    intro a t h
    have h1 : erase_list s.heap Z a = some t := h
    by_cases ha : a ∈ Z
    · simp [erase_list, ha] at h1
    · rw [erase_list_not_mem ha] at h1
      exact hs.bound a t h1

/-- The sweep keeps the wait set of the running thread, when no zombie shares
its wait queue. -/
theorem swept_joiners {s : State} {p : Nat} {R Z W : List Nat} {c : tcb_t}
    (hs : Sched s p R Z) (hj : Joiners s p R Z W) (hc : s.heap p = some c)
    (hwz : c.wait_queue ∉ wq_of s.heap Z) : Joiners (swept s Z) p R [] W where
  wait := by
    obtain ⟨c2, wq, hc2, hwq, hW⟩ := hj.wait
    rw [hc] at hc2
    cases hc2
    refine ⟨c, wq, ?_, ?_, ?_⟩
    · show erase_list s.heap Z p = some c
      rw [erase_list_not_mem hs.not_zombie, hc]
    · show erase_list s.wqs (wq_of s.heap Z) c.wait_queue = some wq
      rw [erase_list_not_mem hwz, hwq]
    · show isQueue (erase_list s.heap Z) wq W
      apply isQueue_congr _ hW
      intro a ha
      rw [erase_list_not_mem (hj.not_zombie a ha)]
  not_ready := hj.not_ready
  not_zombie := by simp
  not_running := hj.not_running

/-- The start of `thread_yield` in a state that satisfies `Sched`: the zombies
are swept, and the call goes on in the swept state. -/
theorem thread_yield_after_sweep (MAX : Nat) (s : State) (want_tid : Int) (p : Nat)
    (R Z : List Nat) (c : tcb_t) (hs : Sched s p R Z) (hc : s.heap p = some c) :
    thread_yield MAX s want_tid =
      if c.status = EXITED then
        thread_exit (interrupts_off (swept s Z)) 0
      else if want_tid < 0 ∧ want_tid = THREAD_ANY ∧ s.ready_queue.size = 0 then
        some (.ret (swept s Z) THREAD_NONE)
      else if want_tid < 0 ∧ want_tid = THREAD_SELF then
        some (.ret (swept s Z) c.tid)
      else if want_tid ≥ -1 ∧ want_tid < MAX then
        if want_tid = THREAD_ANY then
          yield_switch (interrupts_off (swept s Z)) s.interrupts s.ready_queue.head
        else if want_tid = c.tid then
          some (.ret (swept s Z) c.tid)
        else if s.available_thr want_tid = none then
          some (.ret (swept s Z) THREAD_INVALID)
        else
          yield_switch (interrupts_off (swept s Z)) s.interrupts (s.available_thr want_tid)
      else
        some (.ret (swept s Z) THREAD_INVALID) := by
  have hsw : sweep (interrupts_off s) = some (interrupts_off (swept s Z)) :=
    sweep_swept (sched_interrupts_off hs)
  have hp1 : (interrupts_off (swept s Z)).heap p = some c := by
    show erase_list s.heap Z p = some c
    rw [erase_list_not_mem hs.not_zombie, hc]
  have hrun : (interrupts_off (swept s Z)).running_thread = some p := hs.running
  simp only [thread_yield, hsw, Option.bind_eq_bind, Option.some_bind, hrun, hp1]
  rfl

@[simp] theorem interrupts_off_cvs (s : State) : (interrupts_off s).cvs = s.cvs := rfl

/-- The function `thread_wakeup` on a wait queue without threads changes nothing. -/
theorem thread_wakeup_empty {s : State} {w : Nat} {wq : queue_t} (all : Int)
    (hw : s.wqs w = some wq) (hh : wq.head = none) :
    thread_wakeup s (some w) all = some (s, 0) := by
  simp only [thread_wakeup, interrupts_off_wqs, hw, Option.bind_eq_bind, Option.some_bind,
    hh, wakeup_loop]
  rfl

/-- The loop of `lock_acquire` returns to its caller only with the lock held. -/
theorem acquire_loop_ret_held (s : State) (enabled : Bool) (l : Nat) (cv : Option Bool)
    (s4 : State) (v : Int) (h : acquire_loop s enabled l cv = some (.ret s4 v)) :
    ∃ lk4, s4.locks l = some lk4 ∧ lk4.state = 1 := by
  cases hl : s.locks l with
  | none => simp [acquire_loop, hl] at h
  | some lk =>
    by_cases h0 : lk.state = 0
    · simp only [acquire_loop, hl, Option.bind_eq_bind, Option.some_bind, h0, ne_eq,
        not_true_eq_false, if_false] at h
      cases cv with
      | none =>
        simp only [Option.some.injEq, result.ret.injEq] at h
        rw [← h.1]
        exact ⟨_, Function.update_same _ _ _, rfl⟩
      | some e =>
        simp only [Option.some.injEq, result.ret.injEq] at h
        rw [← h.1]
        exact ⟨_, Function.update_same _ _ _, rfl⟩
    · exact absurd h (acquire_loop_held_no_ret s enabled l cv lk hl h0 s4 v)

/-- The loop of `lock_acquire` on a free lock returns at once with the lock
held. -/
theorem acquire_loop_free (s : State) (enabled : Bool) (l : Nat) (cv : Option Bool)
    (lk : lock_t) (hl : s.locks l = some lk) (h0 : lk.state = 0) :
    acquire_loop s enabled l cv = some (.ret
      { s with
        locks := Function.update s.locks l (some { lk with state := 1 })
        interrupts := cv.getD enabled } 0) := by
  simp only [acquire_loop, hl, Option.bind_eq_bind, Option.some_bind, h0, ne_eq,
    not_true_eq_false, if_false]
  cases cv <;> rfl

/-- The loop of `lock_acquire` on a held lock, in a state that satisfies `Sched`
with a non-empty ready set: the caller blocks at the tail of the wait set of the
lock. -/
theorem acquire_loop_held (s : State) (enabled : Bool) (l : Nat) (cv : Option Bool)
    (lk : lock_t) (p r : Nat) (R Z W : List Nat) (c : tcb_t) (hl : s.locks l = some lk)
    (h1 : lk.state ≠ 0) (hs : Sched s p (r :: R) Z)
    (hw : WaitSet s p (r :: R) Z lk.wait_queue W) (hc : s.heap p = some c) :
    ∃ s2 wq2, acquire_loop s enabled l cv = some (.switch s2) ∧
      s2.locks l = some { lk with state := 1 } ∧
      s2.running_thread = some r ∧
      isQueue s2.heap s2.ready_queue R ∧
      s2.wqs lk.wait_queue = some wq2 ∧
      isQueue s2.heap wq2 (W ++ [p]) ∧
      s2.heap p = some { c with mycontext := .sleep s.interrupts (.acquire enabled l cv),
                                status := BLOCKED } := by
  have hs1 : Sched { s with
      locks := Function.update s.locks l (some { lk with state := 1 }) } p (r :: R) Z :=
    ⟨hs.running, hs.alloc, hs.ready, hs.zombie, hs.zok, hs.not_ready, hs.not_zombie,
      hs.disjoint, hs.bound⟩
  have hw1 : WaitSet { s with
      locks := Function.update s.locks l (some { lk with state := 1 }) } p (r :: R) Z
      lk.wait_queue W :=
    ⟨hw.queue, hw.not_ready, hw.not_zombie, hw.not_running⟩
  obtain ⟨rt, wq2, h2, q2, _, hsl, hW2, hR2, _, hp2, _⟩ :=
    thread_sleep_spec _ lk.wait_queue (.acquire enabled l cv) p r R Z W c hs1 hw1 hc
  have hcall : acquire_loop s enabled l cv = some (.switch
      { interrupts_off { s with
          locks := Function.update s.locks l (some { lk with state := 1 }) } with
        heap := h2
        wqs := Function.update s.wqs lk.wait_queue (some wq2)
        running_thread := some r
        ready_queue := q2 }) := by
    simp only [acquire_loop, hl, Option.bind_eq_bind, Option.some_bind, ne_eq, h1,
      not_false_eq_true, if_true]
    erw [hsl]
    rfl
  exact ⟨_, wq2, hcall, Function.update_same _ _ _, rfl, hR2, Function.update_same _ _ _,
    hW2, hp2⟩

/-- The function `lock_release` on a held lock: every waiter is moved to the
ready set and the lock is free. -/
theorem lock_release_spec {s : State} {l : Nat} {lk : lock_t} {wq : queue_t} {W R : List Nat}
    (hl : s.locks l = some lk) (h1 : lk.state = 1) (hw : s.wqs lk.wait_queue = some wq)
    (hW : isQueue s.heap wq W) (hR : isQueue s.heap s.ready_queue R)
    (hd : ∀ a ∈ W, a ∉ R) (hb : ∀ a t, s.heap a = some t → a < s.brk) :
    ∃ h2 q2, lock_release s (some l) = some (.ret
        { s with
          heap := h2
          wqs := Function.update s.wqs lk.wait_queue (some empty_queue)
          ready_queue := q2
          locks := Function.update s.locks l (some { lk with state := 0 }) } 0) ∧
      isQueue h2 q2 (R ++ W) ∧
      (∀ a, a ∉ R → a ∉ W → h2 a = s.heap a) ∧
      (∀ a, same_thread (h2 a) (s.heap a)) := by
  obtain ⟨h2, q2, hwk, hq2, hfr, hsame, _⟩ :=
    thread_wakeup_all_spec (s := interrupts_off s) hw hW hR hd hb
  refine ⟨h2, q2, ?_, hq2, hfr, hsame⟩
  simp only [lock_release, interrupts_off_locks, hl, Option.bind_eq_bind, Option.some_bind,
    h1, if_true, hwk]
  rfl

/-- The function `cv_wait` called with the lock held, in a state that satisfies
`Sched` and in which some thread is ready or blocked on the lock: the lock is
released, its waiters `Wl` are moved to the ready set, and the caller blocks at
the tail of the wait set `Wc` of the condition variable. -/
theorem cv_wait_blocks_spec (s : State) (cp l : Nat) (lk : lock_t) (cvv : cv_t) (p r : Nat)
    (R Z Wl Wc T : List Nat) (c : tcb_t) (hl : s.locks l = some lk)
    (hcv : s.cvs cp = some cvv) (h1 : lk.state = 1) (hs : Sched s p R Z)
    (hwl : WaitSet s p R Z lk.wait_queue Wl) (hwc : WaitSet s p R Z cvv.wait_queue Wc)
    (hne : lk.wait_queue ≠ cvv.wait_queue) (hdis : ∀ a ∈ Wl, a ∉ Wc)
    (hc : s.heap p = some c) (hrt : R ++ Wl = r :: T) :
    ∃ s2 wq2, cv_wait s (some cp) (some l) = some (.switch s2) ∧
      s2.locks l = some { lk with state := 0 } ∧
      s2.wqs cvv.wait_queue = some wq2 ∧
      isQueue s2.heap wq2 (Wc ++ [p]) ∧
      s2.heap p = some { c with mycontext := .sleep false (.cv_wait s.interrupts l),
                                status := BLOCKED } ∧
      s2.running_thread = some r ∧
      isQueue s2.heap s2.ready_queue T ∧
      s2.wqs lk.wait_queue = some empty_queue := by
  obtain ⟨lq, hlq, hWl⟩ := hwl.queue
  obtain ⟨cq, hcq, hWc⟩ := hwc.queue
  obtain ⟨c2, hc2, hn⟩ := hs.alloc
  rw [hc] at hc2
  cases hc2
  obtain ⟨h2, q2, hrel, hq2, hfr, hsame⟩ :=
    lock_release_spec (s := interrupts_off s) hl h1 hlq hWl hs.ready hwl.not_ready hs.bound
  rw [hrt] at hq2
  simp only [interrupts_off_heap] at hfr hsame
  have hmem : ∀ a, a ∈ r :: T → a ∈ R ∨ a ∈ Wl := by
    intro a ha
    rw [← hrt] at ha
    exact List.mem_append.1 ha
  have hpRW : p ∉ r :: T := by
    intro hm
    rcases hmem p hm with h | h
    · exact hs.not_ready h
    · exact hwl.not_running h
  have h2p : h2 p = some c := by
    rw [hfr p hs.not_ready hwl.not_running]; exact hc
  have hagree : ∀ a ∈ Z, h2 a = s.heap a := fun a ha =>
    hfr a (fun hm => hs.disjoint a hm ha) (fun hm => hwl.not_zombie a hm ha)
  have hZ2 : isQueue h2 s.exit_queue Z := by
    apply isQueue_congr _ hs.zombie
    intro a ha
    rw [hagree a ha]
  have hzok : zombies_ok h2 (Function.update s.wqs lk.wait_queue (some empty_queue)) Z := by
    refine ⟨?_, ?_⟩
    · intro z hz
      obtain ⟨t, ht, hwz⟩ := hs.zok.1 z hz
      refine ⟨t, by rw [hagree z hz]; exact ht, ?_⟩
      by_cases e : t.wait_queue = lk.wait_queue
      · rw [e, Function.update_same]
      · rw [Function.update_noteq e]; exact hwz
    · rw [wq_of_congr hagree]; exact hs.zok.2
  have hdisj : ∀ a ∈ r :: T, a ∉ Z := by
    intro a ha hz
    rcases hmem a ha with h | h
    · exact hs.disjoint a h hz
    · exact hwl.not_zombie a h hz
  have hbound : ∀ a t, h2 a = some t → a < s.brk := by
    intro a t ht
    have := hsame a
    cases e : s.heap a with
    | none => rw [e, ht] at this; simp [same_thread] at this
    | some t0 => exact hs.bound a t0 e
  have hWc2 : isQueue h2 cq Wc := by
    apply isQueue_congr _ hWc
    intro a ha
    rw [hfr a (hwc.not_ready a ha) (fun hm => hdis a hm ha)]
  have hcq2 : Function.update s.wqs lk.wait_queue (some empty_queue) cvv.wait_queue
      = some cq := by
    rw [Function.update_noteq (Ne.symm hne)]; exact hcq
  have hnr : ∀ a ∈ Wc, a ∉ r :: T := by
    intro a ha hm
    rcases hmem a hm with h | h
    · exact hwc.not_ready a ha h
    · exact hdis a h ha
  have hs1 : Sched { interrupts_off s with
      heap := h2
      wqs := Function.update s.wqs lk.wait_queue (some empty_queue)
      ready_queue := q2
      locks := Function.update s.locks l (some { lk with state := 0 }) } p (r :: T) Z :=
    ⟨hs.running, ⟨c, h2p, hn⟩, hq2, hZ2, hzok, hpRW, hs.not_zombie, hdisj, hbound⟩
  have hw1 : WaitSet { interrupts_off s with
      heap := h2
      wqs := Function.update s.wqs lk.wait_queue (some empty_queue)
      ready_queue := q2
      locks := Function.update s.locks l (some { lk with state := 0 }) } p (r :: T) Z
      cvv.wait_queue Wc :=
    ⟨⟨cq, hcq2, hWc2⟩, hnr, hwc.not_zombie, hwc.not_running⟩
  obtain ⟨rt, wq2, h3, q3, _, hsl, hW3, hR3, _, hp3, _⟩ :=
    thread_sleep_spec _ cvv.wait_queue (.cv_wait s.interrupts l) p r T Z Wc c hs1 hw1 h2p
  have hcall : cv_wait s (some cp) (some l) = some (.switch
      { interrupts_off s with
        heap := h3
        wqs := Function.update (Function.update s.wqs lk.wait_queue (some empty_queue))
          cvv.wait_queue (some wq2)
        running_thread := some r
        ready_queue := q3
        locks := Function.update s.locks l (some { lk with state := 0 }) }) := by
    simp only [cv_wait, interrupts_off_locks, hl, Option.bind_eq_bind, Option.some_bind, h1,
      if_true, hrel]
    simp only [interrupts_off_cvs, hcv, Option.some_bind]
    erw [hsl]
    rfl
  refine ⟨_, wq2, hcall, Function.update_same _ _ _, Function.update_same _ _ _, hW3, hp3, rfl,
    hR3, ?_⟩
  show Function.update (Function.update s.wqs lk.wait_queue (some empty_queue))
    cvv.wait_queue (some wq2) lk.wait_queue = some empty_queue
  rw [Function.update_noteq hne, Function.update_same]

/-- The function `lock_release` returns to its caller whenever it ends. -/
theorem lock_release_rets (s : State) (lock : Option Nat) (r : result)
    (h : lock_release s lock = some r) : ∃ s1 v, r = .ret s1 v := by
  cases lock with
  | none => simp [lock_release] at h
  | some l =>
    cases hl : s.locks l with
    | none => simp [lock_release, hl] at h
    | some lk =>
      by_cases h1 : lk.state = 1
      · simp only [lock_release, interrupts_off_locks, hl, Option.bind_eq_bind,
          Option.some_bind, h1, if_true] at h
        cases hw : thread_wakeup (interrupts_off s) (some lk.wait_queue) 1 with
        | none => simp [hw] at h
        | some sv =>
          obtain ⟨s1, n⟩ := sv
          cases hl1 : s1.locks l with
          | none => simp [hw, hl1] at h
          | some l1 =>
            simp only [hw, Option.some_bind, hl1, Option.some.injEq] at h
            exact ⟨_, _, h.symm⟩
      · simp only [lock_release, interrupts_off_locks, hl, Option.bind_eq_bind,
          Option.some_bind, h1, if_false, Option.some.injEq] at h
        exact ⟨_, _, h.symm⟩

/-- The function `thread_sleep` ends in a return or in a switch. -/
theorem thread_sleep_ret_or_switch (s : State) (queue : Option Nat) (k : caller) (r : result)
    (h : thread_sleep s queue k = some r) :
    (∃ s1 v, r = .ret s1 v) ∨ ∃ s1, r = .switch s1 := by
  cases queue with
  | none =>
    simp only [thread_sleep, Option.some.injEq] at h
    exact Or.inl ⟨_, _, h.symm⟩
  | some w =>
    by_cases hh : (interrupts_off s).ready_queue.head = none
    · simp only [thread_sleep, hh, if_true, Option.some.injEq] at h
      exact Or.inl ⟨_, _, h.symm⟩
    · simp only [thread_sleep, hh, if_false, Option.bind_eq_bind, Option.bind_eq_some] at h
      obtain ⟨_, _, _, _, _, _, _, _, _, _, _, _, _, _, h⟩ := h
      simp only [Option.some.injEq] at h
      exact Or.inr ⟨_, h.symm⟩

/-- The function `cv_wait`, called with the lock held, returns to its caller only
with the lock held. -/
theorem cv_wait_ret_held (s : State) (cp l : Nat) (lk : lock_t) (hl : s.locks l = some lk)
    (h1 : lk.state = 1) (s2 : State) (v : Int)
    (h : cv_wait s (some cp) (some l) = some (.ret s2 v)) :
    ∃ lk2, s2.locks l = some lk2 ∧ lk2.state = 1 := by
  simp only [cv_wait, interrupts_off_locks, hl, Option.bind_eq_bind, Option.some_bind, h1,
    if_true] at h
  cases hrel : lock_release (interrupts_off s) (some l) with
  | none => simp [hrel] at h
  | some r1 =>
    obtain ⟨s1, v1, hr1⟩ := lock_release_rets _ _ _ hrel
    subst hr1
    simp only [hrel, Option.some_bind] at h
    cases hcv : s1.cvs cp with
    | none => simp [hcv] at h
    | some cvv =>
      simp only [hcv, Option.some_bind] at h
      cases hsl : thread_sleep s1 (some cvv.wait_queue) (.cv_wait s.interrupts l) with
      | none => simp [hsl] at h
      | some r2 =>
        rcases thread_sleep_ret_or_switch _ _ _ _ hsl with ⟨s3, v3, hr2⟩ | ⟨s3, hr2⟩
        · subst hr2
          simp only [hsl, Option.some_bind] at h
          exact acquire_loop_ret_held _ _ l _ s2 v h
        · subst hr2
          simp [hsl] at h

/-- The function `cv_wait` called with the lock held while no thread is ready
and none is blocked on the lock: `thread_sleep` returns at once, the caller is
not blocked and `cv_wait` returns with the lock held. -/
theorem cv_wait_nothing_ready (s : State) (cp l : Nat) (lk : lock_t) (cvv : cv_t)
    (lq : queue_t) (hl : s.locks l = some lk) (hcv : s.cvs cp = some cvv)
    (h1 : lk.state = 1) (hlq : s.wqs lk.wait_queue = some lq) (hlh : lq.head = none)
    (hrh : s.ready_queue.head = none) :
    cv_wait s (some cp) (some l) = some (.ret
      { s with
        locks := Function.update (Function.update s.locks l (some { lk with state := 0 })) l
          (some { lk with state := 1 }) } 0) := by
  have hwk := thread_wakeup_empty (s := interrupts_off (interrupts_off s)) 1 hlq hlh
  have hrel : lock_release (interrupts_off s) (some l) = some (.ret
      { interrupts_off s with
        locks := Function.update s.locks l (some { lk with state := 0 }) } 0) := by
    simp only [lock_release, interrupts_off_locks, hl, Option.bind_eq_bind, Option.some_bind,
      h1, if_true, hwk]
    rfl
  have hsl : thread_sleep { interrupts_off s with
        locks := Function.update s.locks l (some { lk with state := 0 }) }
      (some cvv.wait_queue) (.cv_wait s.interrupts l)
      = some (.ret { interrupts_off s with
        locks := Function.update s.locks l (some { lk with state := 0 }) } THREAD_NONE) := by
    have hh : (interrupts_off { interrupts_off s with
        locks := Function.update s.locks l (some { lk with state := 0 }) }).ready_queue.head
        = none := hrh
    simp only [thread_sleep, hh, if_true]
    rfl
  simp only [cv_wait, interrupts_off_locks, hl, Option.bind_eq_bind, Option.some_bind, h1,
    if_true, hrel]
  simp only [interrupts_off_cvs, hcv, Option.some_bind]
  erw [hsl]
  simp only [Option.some_bind]
  rw [acquire_loop_free _ _ l (some s.interrupts) { lk with state := 0 }
    (Function.update_same _ _ _) rfl]
  rfl

/-- The continuation of a thread that blocked in `cv_wait`, either on the wait
set of the condition variable or, afterwards, on the wait set of the lock: when
its saved context is resumed, it runs the loop of `lock_acquire`. -/
theorem resume_cv_wait (s3 : State) (p : Nat) (t3 : tcb_t) (e : Bool) (l : Nat)
    (hr : s3.running_thread = some p) (ht : s3.heap p = some t3)
    (hctx : t3.mycontext = .sleep false (.cv_wait e l) ∨
      t3.mycontext = .sleep false (.acquire false l (some e))) :
    resume s3 = acquire_loop (interrupts_set s3 false) false l (some e) := by
  rcases hctx with h | h
  · simp only [resume, hr, ht, h, return_from_sleep, Option.bind_eq_bind, Option.some_bind]
    rfl
  · simp only [resume, hr, ht, h, return_from_sleep, Option.bind_eq_bind, Option.some_bind]

/-! ## The claims -/

/-- C1: in a state that satisfies the invariant `Sched` with a non-empty ready
set `r :: R`, whose running thread `p` has not been killed,
`thread_yield (THREAD_ANY)` switches to the head `r` of the ready set: `r` is
the running thread and is no longer in the ready set, the new ready set is
`R ++ [p]`, the caller `p` has status `READY`, and when `p` is resumed later
(in a state `s3` whose zombies can be swept) its call returns the tid of `r`,
the value of the local `ret` of its frame. -/
theorem thread_yield_any_switches (MAX : Nat) (s : State) (p r : Nat) (R Z : List Nat)
    (c : tcb_t) (hs : Sched s p (r :: R) Z) (hc : s.heap p = some c)
    (hk : c.status ≠ EXITED) :
    ∃ rt, s.heap r = some rt ∧ ∃ s2,
      thread_yield MAX s THREAD_ANY = some (.switch s2) ∧
      s2.running_thread = some r ∧
      r ∉ R ++ [p] ∧
      isQueue s2.heap s2.ready_queue (R ++ [p]) ∧
      s2.heap p = some { c with status := READY, mycontext := .yield s.interrupts rt.tid } ∧
      s2.heap r = some { rt with
        next := none, status := if rt.status = EXITED then EXITED else RUNNING } ∧
      ∀ (s3 : State) (Z3 : List Nat), s3.running_thread = some p → s3.heap p = s2.heap p →
        isQueue s3.heap s3.exit_queue Z3 → zombies_ok s3.heap s3.wqs Z3 →
        (∀ a t, s3.heap a = some t → a < s3.brk) →
        ∃ s4, resume s3 = some (.ret s4 rt.tid) := by
  obtain ⟨s1, hd, hrun1, hp1, hn, hR1, hr1⟩ := thread_yield_any_dispatch MAX s p r R Z c hs hc hk
  obtain ⟨rt, hrt, s2, hy, h1, h2, h3, h4⟩ :=
    yield_switch_spec s.interrupts hrun1 hp1 hn hR1 hs.not_ready
  have hrR : r ∉ R := (List.nodup_cons.1 hs.ready.nodup).1
  refine ⟨rt, hr1 ▸ hrt, s2, hd.trans hy, h1, ?_, h2, h3, h4, ?_⟩
  · intro hm
    rcases List.mem_append.1 hm with h5 | h5
    · exact hrR h5
    · exact hs.not_ready (by rw [← List.mem_singleton.1 h5]; exact List.mem_cons_self r R)
  · intro s3 Z3 hr3 hh3 hZ3 hok3 hb3
    rw [h3] at hh3
    simp [resume, hr3, hh3, sweep_spec hZ3 hok3 hb3]

theorem two_ready_sched : Sched two_ready 0 [2, 4] [] where
  running := rfl
  alloc := ⟨_, rfl, rfl⟩
  ready := ⟨rfl, ⟨rfl, _, rfl, rfl, _, rfl, rfl⟩, rfl, by decide⟩
  zombie := ⟨rfl, rfl, rfl, by decide⟩
  zok := ⟨by simp, by simp [wq_of]⟩
  not_ready := by decide
  not_zombie := by simp
  disjoint := by simp
  bound := by
    intro a t h
    show a < 6
    simp only [two_ready] at h
    split_ifs at h
    · omega
    · omega
    · omega

/-- Witness of C1: `thread_yield (THREAD_ANY)` in the state `two_ready`. -/
theorem thread_yield_any_switches_witness :
    ∃ rt, two_ready.heap 2 = some rt ∧ ∃ s2,
      thread_yield 4 two_ready THREAD_ANY = some (.switch s2) ∧
      s2.running_thread = some 2 ∧
      2 ∉ [4] ++ [0] ∧
      isQueue s2.heap s2.ready_queue ([4] ++ [0]) ∧
      s2.heap 0 = some
        { tid := 0, next := none, mycontext := .yield true rt.tid, status := READY,
          wait_queue := 1 } ∧
      s2.heap 2 = some { rt with
        next := none, status := if rt.status = EXITED then EXITED else RUNNING } ∧
      ∀ (s3 : State) (Z3 : List Nat), s3.running_thread = some 0 → s3.heap 0 = s2.heap 0 →
        isQueue s3.heap s3.exit_queue Z3 → zombies_ok s3.heap s3.wqs Z3 →
        (∀ a t, s3.heap a = some t → a < s3.brk) →
        ∃ s4, resume s3 = some (.ret s4 rt.tid) :=
  thread_yield_any_switches 4 two_ready 0 2 [4] []
    { tid := 0, next := none, mycontext := .init, status := RUNNING, wait_queue := 1 }
    two_ready_sched rfl (by decide)

/-- The trace `init_two` ends in a state with the content of `two_ready`: the
first thread runs, the threads at addresses 2 and 4, with tids 1 and 2, are the
ready set in this order, and the slots 0, 1 and 2 are taken. -/
theorem init_two_summary :
    (init_two 4).map (fun s => (s.running_thread, s.ready_queue,
      walk s.heap 8 s.ready_queue.head, s.heap 0, s.heap 2, s.heap 4, s.brk,
      (List.range 4).map fun i : Nat => s.available_thr i))
      = some (two_ready.running_thread, two_ready.ready_queue,
        [2, 4], two_ready.heap 0, two_ready.heap 2, two_ready.heap 4, two_ready.brk,
        (List.range 4).map fun i : Nat => two_ready.available_thr i) := by
  rfl

/-- C2, the code at the failing input: after `thread_init` and two creates the
ready set is the threads with tids 1 and 2 (addresses 2 and 4).  Then
`thread_yield (2)` switches to the thread with tid 2 and records 2 as the value
to return, but the ready set it leaves is that same thread followed by the
caller (addresses 4 and 0), of size 2: the target was not removed and the thread
with tid 1 is no longer in the ready set. -/
theorem thread_yield_tid_two_of_two :
    ((init_two 4).bind fun s => thread_yield 4 s 2).map
      (fun r => (r.state.running_thread, walk r.state.heap 8 r.state.ready_queue.head,
        r.state.ready_queue.size, (r.state.heap 0).map fun t => t.mycontext))
      = some (some 4, [4, 0], 2, some (.yield true 2)) := by
  decide

/-- C3: in a state that satisfies `Sched` and whose smallest empty slot is `j`,
below `THREAD_MAX_THREADS`, `thread_create` (its allocations succeeding) returns
`j`, fills slot `j` with a new thread (at the address `brk`) that has tid `j`
and status `READY`, and appends it to the ready set, whose other threads keep
their order; the running thread, the zombie set, every other slot and every
thread outside the ready set are unchanged. -/
theorem thread_create_appends (MAX : Nat) (s : State) (p : Nat) (R Z : List Nat) (j : Nat)
    (hs : Sched s p R Z) (hj : j < MAX) (hfree : s.available_thr j = none)
    (hmin : ∀ i : Nat, i < j → s.available_thr i ≠ none) :
    ∃ s2, thread_create MAX s true = some (.ret s2 j) ∧
      s2.available_thr j = some s.brk ∧
      s2.heap s.brk = some
        { tid := j, next := none, mycontext := .stub, status := READY, wait_queue := s.brk + 1 } ∧
      isQueue s2.heap s2.ready_queue (R ++ [s.brk]) ∧
      s.brk ∉ R ∧
      s2.running_thread = s.running_thread ∧
      s2.heap p = s.heap p ∧
      s2.exit_queue = s.exit_queue ∧
      isQueue s2.heap s2.exit_queue Z ∧
      (∀ i : Int, i ≠ j → s2.available_thr i = s.available_thr i) ∧
      (∀ a, a ∉ R → a ≠ s.brk → s2.heap a = s.heap a) := by
  have hbR : s.brk ∉ R := by
    intro hm
    obtain ⟨t, ht⟩ := chain_mem hs.ready.links hm
    exact absurd (hs.bound _ t ht) (lt_irrefl _)
  have hbZ : s.brk ∉ Z := by
    intro hm
    obtain ⟨t, ht⟩ := chain_mem hs.zombie.links hm
    exact absurd (hs.bound _ t ht) (lt_irrefl _)
  have hbp : p ≠ s.brk := by
    obtain ⟨c, hc, _⟩ := hs.alloc
    intro e
    exact absurd (hs.bound _ c hc) (by rw [e]; exact lt_irrefl _)
  have hfind : (List.range MAX).find? (fun j : Nat => (s.available_thr (j : Int)).isNone) = some j := by
    apply find_first_slot _ j (by simp [hfree]) _ MAX hj
    intro i hi
    have := hmin i hi
    cases e : s.available_thr (i : Int) with
    | none => exact absurd e this
    | some x => rfl
  have hR1 : isQueue (Function.update s.heap s.brk (some
      { tid := j, next := none, mycontext := .stub, status := READY, wait_queue := s.brk + 1 }))
      s.ready_queue R := by
    apply isQueue_congr _ hs.ready
    intro a ha
    have : a ≠ s.brk := by rintro rfl; exact hbR ha
    simp [Function.update, this]
  obtain ⟨q2, he, hq2⟩ := enqueue_spec hR1 hbR (Function.update_same _ _ _) rfl
  simp [thread_create, hfind, he, link_not_mem hbR, interrupts_set, interrupts_off]
  have hfr : ∀ a, a ∉ R → a ≠ s.brk → link (Function.update s.heap s.brk (some
      { tid := j, next := none, mycontext := .stub, status := READY, wait_queue := s.brk + 1 }))
      R.getLast? s.brk a = s.heap a := by
    intro a haR hab
    rw [link_not_mem haR, Function.update_noteq hab]
  refine ⟨hq2, hbR, hfr p hs.not_ready hbp, ?_, ?_, hfr⟩
  · apply isQueue_congr _ hs.zombie
    intro a ha
    have haR : a ∉ R := fun hm => hs.disjoint a hm ha
    have hab : a ≠ s.brk := by rintro rfl; exact hbZ ha
    rw [hfr a haR hab]
  · intro i hi
    exact Function.update_noteq hi _ _

/-- Witness of C3: `thread_create` in the state `two_ready`, where slot 3 is the
smallest empty one. -/
theorem thread_create_appends_witness :
    ∃ s2, thread_create 4 two_ready true = some (.ret s2 (3 : Nat)) ∧
      s2.available_thr (3 : Nat) = some two_ready.brk ∧
      s2.heap two_ready.brk = some
        { tid := (3 : Nat), next := none, mycontext := .stub, status := READY,
          wait_queue := two_ready.brk + 1 } ∧
      isQueue s2.heap s2.ready_queue ([2, 4] ++ [two_ready.brk]) ∧
      two_ready.brk ∉ [2, 4] ∧
      s2.running_thread = two_ready.running_thread ∧
      s2.heap 0 = two_ready.heap 0 ∧
      s2.exit_queue = two_ready.exit_queue ∧
      isQueue s2.heap s2.exit_queue [] ∧
      (∀ i : Int, i ≠ (3 : Nat) → s2.available_thr i = two_ready.available_thr i) ∧
      (∀ a, a ∉ [2, 4] → a ≠ two_ready.brk → s2.heap a = two_ready.heap a) :=
  thread_create_appends 4 two_ready 0 [2, 4] [] 3 two_ready_sched (by decide) rfl
    (by intro i hi; interval_cases i <;> simp [two_ready])

/-- A released tid is handed out again: the thread with tid 1 is created,
switched to and exits; the first thread resumes (its sweep frees the zombie) and
the next `thread_create` returns 1. -/
theorem tid_reused :
    ((((((thread_create 4 (thread_init none) true).bind fun r1 =>
      thread_yield 4 r1.state 1).bind fun r2 =>
      resume r2.state).bind fun r3 =>
      thread_exit r3.state 0).bind fun r4 =>
      resume r4.state).bind fun r5 =>
      (thread_create 4 r5.state true).map fun r6 => (r5.outcome, r6.outcome))
      = some (.returned 1, .returned 1) := by
  decide

/-- C4 as stated fails: in the state `two_ready` with `THREAD_MAX_THREADS = 3`
no slot is empty, and a `thread_create` whose allocation fails returns
`THREAD_NOMEMORY`, not `THREAD_NOMORE`. -/
theorem thread_create_full_nomemory :
    (∀ i : Nat, i < 3 → two_ready.available_thr i ≠ none) ∧
      (thread_create 3 two_ready false).map result.outcome
        = some (.returned THREAD_NOMEMORY) ∧
      THREAD_NOMEMORY ≠ THREAD_NOMORE := by
  refine ⟨?_, by decide, by decide⟩
  intro i hi
  interval_cases i <;> simp [two_ready]

/-- C4, amended: in every state in which no slot below `THREAD_MAX_THREADS`
(at least 1) is empty, `thread_create` returns `THREAD_NOMORE` when its allocations succeed and
`THREAD_NOMEMORY` when they fail, and in both cases the slot table, the ready
set, the thread control blocks and the running thread are unchanged. -/
theorem thread_create_full (MAX : Nat) (s : State) (malloc_ok : Bool) (hmax : 0 < MAX)
    (hfull : ∀ i : Nat, i < MAX → s.available_thr i ≠ none) :
    ∃ s2, thread_create MAX s malloc_ok
        = some (.ret s2 (if malloc_ok then THREAD_NOMORE else THREAD_NOMEMORY)) ∧
      s2.available_thr = s.available_thr ∧
      s2.ready_queue = s.ready_queue ∧
      s2.heap = s.heap ∧
      s2.running_thread = s.running_thread ∧
      s2.interrupts = s.interrupts := by
  have hfind : (List.range MAX).find? (fun j : Nat => (s.available_thr (j : Int)).isNone)
      = none := by
    apply find_no_slot
    intro i hi
    cases e : s.available_thr (i : Int) with
    | none => exact absurd e (hfull i hi)
    | some x => rfl
  have hmax2 : MAX ≠ 0 := by omega
  cases malloc_ok <;> simp [thread_create, hfind, interrupts_set, interrupts_off, hmax2]

/-- Witness of C4, amended: the state `two_ready` with `THREAD_MAX_THREADS = 3`,
that is after `THREAD_MAX_THREADS - 1` successful creates. -/
theorem thread_create_full_witness :
    ∃ s2, thread_create 3 two_ready true
        = some (.ret s2 (if true then THREAD_NOMORE else THREAD_NOMEMORY)) ∧
      s2.available_thr = two_ready.available_thr ∧
      s2.ready_queue = two_ready.ready_queue ∧
      s2.heap = two_ready.heap ∧
      s2.running_thread = two_ready.running_thread ∧
      s2.interrupts = two_ready.interrupts :=
  thread_create_full 3 two_ready true (by decide)
    (by intro i hi; interval_cases i <;> simp [two_ready])

/-- From the initial state with `THREAD_MAX_THREADS = 3`, two creates succeed
(tids 1 and 2) and the next one returns `THREAD_NOMORE`. -/
theorem create_until_full :
    ((init_two 3).bind fun s => thread_create 3 s true).map result.outcome
      = some (.returned THREAD_NOMORE) := by
  decide

theorem two_ready_joiners : Joiners two_ready 0 [2, 4] [] [] where
  wait := ⟨_, _, rfl, rfl, ⟨rfl, rfl, rfl, by decide⟩⟩
  not_ready := by simp
  not_zombie := by simp
  not_running := by simp

theorem joined_sched : Sched joined 2 [] [] where
  running := rfl
  alloc := ⟨_, rfl, rfl⟩
  ready := ⟨rfl, rfl, rfl, by decide⟩
  zombie := ⟨rfl, rfl, rfl, by decide⟩
  zok := ⟨by simp, by simp [wq_of]⟩
  not_ready := by simp
  not_zombie := by simp
  disjoint := by simp
  bound := by
    intro a t h
    show a < 4
    simp only [joined] at h
    split_ifs at h
    · omega
    · omega

theorem joined_joiners : Joiners joined 2 [] [] [0] where
  wait := ⟨_, _, rfl, rfl, ⟨rfl, ⟨rfl, _, rfl, rfl⟩, rfl, by decide⟩⟩
  not_ready := by simp
  not_zombie := by simp
  not_running := by decide

/-- The trace `init_joined` ends in a state with the content of `joined`. -/
theorem init_joined_summary :
    (init_joined 4).map (fun s => (s.running_thread, s.ready_queue, s.exit_queue,
      s.heap 0, s.heap 2, s.wqs 1, s.wqs 3, s.brk,
      (List.range 4).map fun i : Nat => s.available_thr i))
      = some (joined.running_thread, joined.ready_queue, joined.exit_queue,
        joined.heap 0, joined.heap 2, joined.wqs 1, joined.wqs 3, joined.brk,
        (List.range 4).map fun i : Nat => joined.available_thr i) := by
  rfl

/-- C5: in a state that satisfies `Sched` and `Joiners` and in which
`thread_exit (code)` does not terminate the process (the ready set `R` and the
wait set `W` of the caller are not both empty), `thread_exit` ends in a switch,
and then the slot of the caller is empty, `code` is recorded for its tid, and
the caller `p` is still allocated, has status `EXITED` and is the last element
of the zombie set. -/
theorem thread_exit_makes_zombie (s : State) (code : Int) (p r : Nat) (R Z W T : List Nat)
    (c : tcb_t) (hs : Sched s p R Z) (hj : Joiners s p R Z W) (hc : s.heap p = some c)
    (hne : R ++ W = r :: T) :
    ∃ s2, thread_exit s code = some (.switch s2) ∧
      s2.available_thr c.tid = none ∧
      s2.exit_code_array c.tid = code ∧
      s2.heap p = some { c with status := EXITED, mycontext := .exit s.interrupts code } ∧
      isQueue s2.heap s2.exit_queue (Z ++ [p]) := by
  obtain ⟨s2, h1, _, _, h4, h5, h6, h7, _, _, _⟩ :=
    thread_exit_spec s code p r R Z W T c hs hj hc hne
  exact ⟨s2, h1, h6, h7, h5, h4⟩

/-- Witness of C5: `thread_exit (7)` by the first thread in the state `two_ready`. -/
theorem thread_exit_makes_zombie_witness :
    ∃ s2, thread_exit two_ready 7 = some (.switch s2) ∧
      s2.available_thr 0 = none ∧
      s2.exit_code_array 0 = 7 ∧
      s2.heap 0 = some
        { tid := 0, next := none, mycontext := .exit true 7, status := EXITED,
          wait_queue := 1 } ∧
      isQueue s2.heap s2.exit_queue ([] ++ [0]) :=
  thread_exit_makes_zombie two_ready 7 0 2 [2, 4] [] [] [4]
    { tid := 0, next := none, mycontext := .init, status := RUNNING, wait_queue := 1 }
    two_ready_sched two_ready_joiners rfl rfl

/-- C6: in a state that satisfies `Sched` and `Joiners` and in which
`thread_exit` does not terminate the process, the threads `W` blocked on the
private wait set of the caller are appended, in their order, to the ready set
`R`; the wait set of the caller is left empty; the head `r` of `R ++ W` is the
thread that runs next, and the ready set that is left is the rest `T` of
`R ++ W`, which does not contain `r`. -/
theorem thread_exit_wakes_joiners (s : State) (code : Int) (p r : Nat) (R Z W T : List Nat)
    (c : tcb_t) (hs : Sched s p R Z) (hj : Joiners s p R Z W) (hc : s.heap p = some c)
    (hne : R ++ W = r :: T) :
    ∃ s2, thread_exit s code = some (.switch s2) ∧
      s2.wqs c.wait_queue = some empty_queue ∧
      s2.running_thread = some r ∧
      isQueue s2.heap s2.ready_queue T ∧
      r ∉ T ∧
      (R ≠ [] → R.head? = some r) ∧
      (R = [] → W.head? = some r) ∧
      same_thread (s2.heap r) (s.heap r) := by
  obtain ⟨s2, h1, h2, h3, _, _, _, _, h8, h9, _⟩ :=
    thread_exit_spec s code p r R Z W T c hs hj hc hne
  have hR1 : R ≠ [] → R.head? = some r := by
    intro h0
    cases R with
    | nil => exact absurd rfl h0
    | cons a R2 =>
      simp only [List.cons_append, List.cons.injEq] at hne
      simp [hne.1]
  have hR2 : R = [] → W.head? = some r := by
    intro h0
    rw [h0, List.nil_append] at hne
    simp [hne]
  refine ⟨s2, h1, h8, h2, h3, ?_, hR1, hR2, h9⟩
  obtain ⟨c2, wq, _, _, hW⟩ := hj.wait
  have hnd : (R ++ W).Nodup := by
    rw [List.nodup_append]
    exact ⟨hs.ready.nodup, hW.nodup, fun a ha hb => hj.not_ready a hb ha⟩
  rw [hne] at hnd
  exact (List.nodup_cons.1 hnd).1

/-- Witness of C6: `thread_exit (7)` in the state `joined`, where the ready set
is empty and the first thread is blocked on the wait set of the caller. -/
theorem thread_exit_wakes_joiners_witness :
    ∃ s2, thread_exit joined 7 = some (.switch s2) ∧
      s2.wqs 3 = some empty_queue ∧
      s2.running_thread = some 0 ∧
      isQueue s2.heap s2.ready_queue [] ∧
      0 ∉ ([] : List Nat) ∧
      (([] : List Nat) ≠ [] → ([] : List Nat).head? = some 0) ∧
      (([] : List Nat) = [] → [0].head? = some 0) ∧
      same_thread (s2.heap 0) (joined.heap 0) :=
  thread_exit_wakes_joiners joined 7 2 0 [] [] [0] []
    { tid := 1, next := none, mycontext := .stub, status := RUNNING, wait_queue := 3 }
    joined_sched joined_joiners rfl rfl

/-- C7, the code at the failing input: after `thread_init`, two creates and
`thread_yield (2)` the thread with tid 2 (address 4) runs while the ready set
holds two threads, the running thread itself and the first thread (addresses 4
and 0).  Its call `thread_exit (5)` does not take the branch that terminates,
switches to the caller itself, and the context it resumes is the one
`thread_exit` has just saved: the sweep frees the caller and `exit (5)` ends the
process, with a thread left in the ready set. -/
theorem thread_exit_terminates_with_ready :
    ((((init_two 4).bind fun s => thread_yield 4 s 2).bind fun r1 => resume r1.state).bind
      fun r2 => (thread_exit r2.state 5).bind fun r3 => (resume r3.state).map fun r4 =>
        (r2.outcome, r2.state.running_thread, r2.state.ready_queue.size,
          walk r2.state.heap 8 r2.state.ready_queue.head,
          r3.outcome, r3.state.running_thread, r4.outcome,
          walk r4.state.heap 8 r4.state.ready_queue.head, r4.state.heap 4))
      = some (.started, some 4, 2, [4, 0], .switched, some 4, .exited 5, [0], none) := by
  rfl

/-- The slot table is consistent: an occupied slot `i` points to an allocated
thread whose tid is `i`. -/
theorem two_ready_slots :
    ∀ (i : Int) (q : Nat), two_ready.available_thr i = some q →
      ∃ tq, two_ready.heap q = some tq ∧ tq.tid = i := by
  intro i q h
  simp only [two_ready] at h
  split_ifs at h with h0 h1 h2
  · cases h; exact ⟨_, rfl, h0.symm⟩
  · cases h; exact ⟨_, rfl, h1.symm⟩
  · cases h; exact ⟨_, rfl, h2.symm⟩

/-- C8: in a state whose running thread `p` is allocated and whose occupied
slots point to allocated threads carrying the tid of the slot, `thread_kill (t)`
returns; it returns `THREAD_INVALID` with the state unchanged if and only if
`t` is outside `[0, THREAD_MAX_THREADS)`, or slot `t` is empty, or `t` is the
tid of the caller; in every other case it returns `t`. -/
theorem thread_kill_invalid_iff (MAX : Nat) (s : State) (t : Int) (p : Nat) (c : tcb_t)
    (hrun : s.running_thread = some p) (hc : s.heap p = some c)
    (hslots : ∀ (i : Int) (q : Nat), s.available_thr i = some q →
      ∃ tq, s.heap q = some tq ∧ tq.tid = i) :
    ∃ s2 v, thread_kill MAX s t = some (.ret s2 v) ∧
      ((v = THREAD_INVALID ∧ s2 = s) ↔
        (t < 0 ∨ t ≥ MAX ∨ s.available_thr t = none ∨ t = c.tid)) ∧
      (¬ (t < 0 ∨ t ≥ MAX ∨ s.available_thr t = none ∨ t = c.tid) → v = t) := by
  by_cases h1 : t < 0 ∨ t ≥ MAX ∨ s.available_thr t = none
  · refine ⟨s, THREAD_INVALID, ?_, ?_, ?_⟩
    · simp only [thread_kill, interrupts_off_slots, h1, if_true, Option.bind_eq_bind,
        Option.some_bind]
      rfl
    · have hc2 : t < 0 ∨ t ≥ MAX ∨ s.available_thr t = none ∨ t = c.tid := by tauto
      simp [hc2]
    · intro hn; exact absurd (by tauto) hn
  · by_cases h2 : t = c.tid
    · refine ⟨s, THREAD_INVALID, ?_, ?_, ?_⟩
      · simp only [thread_kill, interrupts_off_slots, h1, if_false, Option.bind_eq_bind,
          Option.some_bind, interrupts_off_running, hrun, interrupts_off_heap, hc, h2]
        simp
        rfl
      · simp [h2]
      · intro hn; exact absurd (by tauto) hn
    · have h3 : ¬ (t < 0 ∨ t ≥ MAX ∨ s.available_thr t = none ∨ t = c.tid) := by tauto
      have h4 : 0 ≤ t := by
        by_contra h; exact h1 (Or.inl (by omega))
      cases hq : s.available_thr t with
      | none => exact absurd (Or.inr (Or.inr hq)) h1
      | some q =>
        obtain ⟨tq, htq, htid⟩ := hslots t q hq
        have h5 : ¬ (t < 0 ∨ (MAX : Int) ≤ t) := fun h => h1 (by tauto)
        have h6 : t ≠ THREAD_INVALID := by
          intro e; rw [e] at h4; exact absurd h4 (by decide)
        refine ⟨{ s with heap := Function.update s.heap q (some { tq with status := EXITED }) },
          t, ?_, ?_, fun _ => rfl⟩
        · simp only [thread_kill, interrupts_off_slots, Option.bind_eq_bind,
            Option.some_bind, interrupts_off_running, hrun, interrupts_off_heap, hc, hq,
            htq]
          simp [h5, h2, htid]
          rfl
        · simp [h6, h5, h2]

/-- Witness of C8: `thread_kill (1)` in the state `two_ready`. -/
theorem thread_kill_invalid_iff_witness :
    ∃ s2 v, thread_kill 4 two_ready 1 = some (.ret s2 v) ∧
      ((v = THREAD_INVALID ∧ s2 = two_ready) ↔
        ((1 : Int) < 0 ∨ (1 : Int) ≥ (4 : Nat) ∨ two_ready.available_thr 1 = none ∨
          (1 : Int) = (0 : Int))) ∧
      (¬ ((1 : Int) < 0 ∨ (1 : Int) ≥ (4 : Nat) ∨ two_ready.available_thr 1 = none ∨
          (1 : Int) = (0 : Int)) → v = 1) :=
  thread_kill_invalid_iff 4 two_ready 1 0
    { tid := 0, next := none, mycontext := .init, status := RUNNING, wait_queue := 1 }
    rfl rfl two_ready_slots

/-- C9: a successful `thread_kill (t)` only sets the status of the target (the
thread `q` of slot `t`) to `EXITED`: its other fields, every other thread, the
slot table, the running thread, the queue headers, the wait queues and the
recorded exit codes are unchanged, so every queue holds the same threads in the
same order. -/
theorem thread_kill_frame (MAX : Nat) (s : State) (t : Int) (p : Nat) (c : tcb_t)
    (hrun : s.running_thread = some p) (hc : s.heap p = some c)
    (hslots : ∀ (i : Int) (q : Nat), s.available_thr i = some q →
      ∃ tq, s.heap q = some tq ∧ tq.tid = i)
    (hvalid : ¬ (t < 0 ∨ t ≥ MAX ∨ s.available_thr t = none ∨ t = c.tid)) :
    ∃ s2 q tq, thread_kill MAX s t = some (.ret s2 t) ∧
      s.available_thr t = some q ∧ s.heap q = some tq ∧
      s2.heap q = some { tq with status := EXITED } ∧
      (∀ a, a ≠ q → s2.heap a = s.heap a) ∧
      s2.available_thr = s.available_thr ∧
      s2.running_thread = s.running_thread ∧
      s2.ready_queue = s.ready_queue ∧
      s2.exit_queue = s.exit_queue ∧
      s2.wqs = s.wqs ∧
      s2.exit_code_array = s.exit_code_array ∧
      (∀ (hdr : queue_t) (l : List Nat), isQueue s2.heap hdr l ↔ isQueue s.heap hdr l) := by
  have h1 : ¬ (t < 0 ∨ t ≥ MAX ∨ s.available_thr t = none) := fun h => hvalid (by tauto)
  have h2 : ¬ t = c.tid := fun h => hvalid (by tauto)
  cases hq : s.available_thr t with
  | none => exact absurd (Or.inr (Or.inr hq)) h1
  | some q =>
    obtain ⟨tq, htq, htid⟩ := hslots t q hq
    have h5 : ¬ (t < 0 ∨ (MAX : Int) ≤ t) := fun h => h1 (by tauto)
    have hnext : ∀ a, (Function.update s.heap q (some { tq with status := EXITED }) a).map
        (fun x => x.next) = (s.heap a).map (fun x => x.next) := by
      intro a
      by_cases haq : a = q
      · subst haq; simp [htq]
      · rw [Function.update_noteq haq]
    refine ⟨{ s with heap := Function.update s.heap q (some { tq with status := EXITED }) },
      q, tq, ?_, rfl, htq, Function.update_same _ _ _,
      fun a ha => Function.update_noteq ha _ _, rfl, rfl, rfl, rfl, rfl, rfl, ?_⟩
    · simp only [thread_kill, interrupts_off_slots, Option.bind_eq_bind,
        Option.some_bind, interrupts_off_running, hrun, interrupts_off_heap, hc, hq,
        htq]
      simp [h5, h2, htid]
      rfl
    · intro hdr l
      exact ⟨isQueue_congr (fun a _ => (hnext a).symm), isQueue_congr (fun a _ => hnext a)⟩

/-- Witness of C9: `thread_kill (2)` in the state `two_ready`. -/
theorem thread_kill_frame_witness :
    ∃ s2 q tq, thread_kill 4 two_ready 2 = some (.ret s2 2) ∧
      two_ready.available_thr 2 = some q ∧ two_ready.heap q = some tq ∧
      s2.heap q = some { tq with status := EXITED } ∧
      (∀ a, a ≠ q → s2.heap a = two_ready.heap a) ∧
      s2.available_thr = two_ready.available_thr ∧
      s2.running_thread = two_ready.running_thread ∧
      s2.ready_queue = two_ready.ready_queue ∧
      s2.exit_queue = two_ready.exit_queue ∧
      s2.wqs = two_ready.wqs ∧
      s2.exit_code_array = two_ready.exit_code_array ∧
      (∀ (hdr : queue_t) (l : List Nat), isQueue s2.heap hdr l ↔ isQueue two_ready.heap hdr l) :=
  thread_kill_frame 4 two_ready 2 0
    { tid := 0, next := none, mycontext := .init, status := RUNNING, wait_queue := 1 }
    rfl rfl two_ready_slots (by decide)

/-- C10 as stated fails: after `thread_init`, one create and `thread_kill (1)`,
the head of the ready set has status `EXITED`; `thread_yield (THREAD_ANY)`
switches to it, it is the running thread (address 2, status still `EXITED`),
and its context is resumed: `thread_stub` calls `thread_main`, application
code. -/
theorem killed_thread_runs :
    ((thread_create 4 (thread_init none) true).bind fun r1 =>
      (thread_kill 4 r1.state 1).bind fun r2 =>
      (thread_yield 4 r2.state THREAD_ANY).bind fun r3 =>
      (resume r3.state).map fun r4 =>
        (r2.outcome, (r2.state.heap 2).map fun t => t.status, r2.state.ready_queue.head,
          r3.outcome, r3.state.running_thread, (r3.state.heap 2).map fun t => t.status,
          r4.outcome, r4.state.running_thread))
      = some (.returned 1, some EXITED, some 2, .switched, some 2, some EXITED,
          .started, some 2) := by
  rfl

theorem joined_waitset : WaitSet joined 2 [] [] 3 [0] where
  queue := ⟨_, rfl, ⟨rfl, ⟨rfl, _, rfl, rfl⟩, rfl, by decide⟩⟩
  not_ready := by simp
  not_zombie := by simp
  not_running := by decide

theorem two_ready_waitset : WaitSet two_ready 0 [2, 4] [] 1 [] where
  queue := ⟨_, rfl, ⟨rfl, rfl, rfl, by decide⟩⟩
  not_ready := by simp
  not_zombie := by simp
  not_running := by simp

/-- C11: in a state that satisfies `Sched` with a non-empty ready set `r :: R`,
for a wait set at address `w` that holds the threads `W` (`WaitSet`),
`thread_sleep` ends in a switch: the caller `p` has status `BLOCKED` and is the
last element of the wait set, after the threads `W`; the old head `r` of the
ready set is the running thread and the ready set is `R`, without `r`; the
caller is neither in the ready set nor in the zombie set, the other wait queue
headers are unchanged, and every queue that contained neither the caller, nor
`r`, nor a thread of `W` holds the same threads as before. -/
theorem thread_sleep_blocks (s : State) (w : Nat) (k : caller) (p r : Nat) (R Z W : List Nat)
    (c : tcb_t) (hs : Sched s p (r :: R) Z) (hw : WaitSet s p (r :: R) Z w W)
    (hc : s.heap p = some c) :
    ∃ s2 wq2, thread_sleep s (some w) k = some (.switch s2) ∧
      s2.wqs w = some wq2 ∧ isQueue s2.heap wq2 (W ++ [p]) ∧
      (s2.heap p).map (fun t => t.status) = some BLOCKED ∧
      s2.running_thread = some r ∧
      isQueue s2.heap s2.ready_queue R ∧ r ∉ R ∧ p ∉ R ∧
      isQueue s2.heap s2.exit_queue Z ∧ p ∉ Z ∧
      (∀ v, v ≠ w → s2.wqs v = s.wqs v) ∧
      (∀ (hdr : queue_t) (l : List Nat), isQueue s.heap hdr l → p ∉ l → r ∉ l →
        (∀ a ∈ l, a ∉ W) → isQueue s2.heap hdr l) := by
  obtain ⟨rt, wq2, h2, q2, _, hsl, hW2, hR2, hZ2, hp2, _, hfr, _⟩ :=
    thread_sleep_spec s w k p r R Z W c hs hw hc
  refine ⟨_, wq2, hsl, Function.update_same _ _ _, hW2, by simp [hp2], rfl, hR2,
    (List.nodup_cons.1 hs.ready.nodup).1, fun hm => hs.not_ready (List.mem_cons_of_mem r hm),
    hZ2, hs.not_zombie, fun v hv => Function.update_noteq hv _ _, ?_⟩
  intro hdr l hl hpl hrl hlW
  apply isQueue_congr _ hl
  intro a ha
  have hap : a ≠ p := by rintro rfl; exact hpl ha
  have har : a ≠ r := by rintro rfl; exact hrl ha
  show (h2 a).map _ = _
  rw [hfr a hap har (hlW a ha)]

/-- Witness of C11: `thread_sleep` on the wait queue at address 1 (empty) in the
state `two_ready`. -/
theorem thread_sleep_blocks_witness :
    ∃ s2 wq2, thread_sleep two_ready (some 1) .app = some (.switch s2) ∧
      s2.wqs 1 = some wq2 ∧ isQueue s2.heap wq2 ([] ++ [0]) ∧
      (s2.heap 0).map (fun t => t.status) = some BLOCKED ∧
      s2.running_thread = some 2 ∧
      isQueue s2.heap s2.ready_queue [4] ∧ 2 ∉ [4] ∧ 0 ∉ [4] ∧
      isQueue s2.heap s2.exit_queue [] ∧ 0 ∉ ([] : List Nat) ∧
      (∀ v, v ≠ 1 → s2.wqs v = two_ready.wqs v) ∧
      (∀ (hdr : queue_t) (l : List Nat), isQueue two_ready.heap hdr l → 0 ∉ l → 2 ∉ l →
        (∀ a ∈ l, a ∉ ([] : List Nat)) → isQueue s2.heap hdr l) :=
  thread_sleep_blocks two_ready 1 .app 0 2 [4] [] []
    { tid := 0, next := none, mycontext := .init, status := RUNNING, wait_queue := 1 }
    two_ready_sched two_ready_waitset rfl

/-- C12: `thread_sleep` on a null wait set returns `THREAD_INVALID`, and on a
non-null wait set with an empty ready set it returns `THREAD_NONE`; in both
cases it returns in the state it was called in, so the caller is still the
running thread, its status is unchanged and no queue is modified. -/
theorem thread_sleep_returns_at_once (s : State) (w : Nat) (k : caller) :
    thread_sleep s none k = some (.ret s THREAD_INVALID) ∧
      (isQueue s.heap s.ready_queue [] →
        thread_sleep s (some w) k = some (.ret s THREAD_NONE)) := by
  refine ⟨rfl, ?_⟩
  intro hR
  have hhead : s.ready_queue.head = none := hR.links
  simp only [thread_sleep, interrupts_off_ready, hhead, if_true]
  rfl

/-- Witness of C12: `thread_sleep` in the state `joined`, whose ready set is
empty. -/
theorem thread_sleep_returns_at_once_witness :
    thread_sleep joined none .app = some (.ret joined THREAD_INVALID) ∧
      (isQueue joined.heap joined.ready_queue [] →
        thread_sleep joined (some 1) .app = some (.ret joined THREAD_NONE)) ∧
      isQueue joined.heap joined.ready_queue [] :=
  ⟨(thread_sleep_returns_at_once joined 1 .app).1,
    (thread_sleep_returns_at_once joined 1 .app).2, joined_sched.ready⟩

/-- C13 as stated fails: the first thread (tid 0) creates a wait queue and a
thread (tid 1) and sleeps on the queue; the thread with tid 1 runs, wakes it
with `thread_wakeup` and yields; the resumed `thread_sleep` of the first thread
returns 0, its own tid, not the tid 1 of the thread that woke it. -/
theorem thread_sleep_returns_not_waker :
    ((thread_create 4 (wait_queue_create (thread_init none)).state true).bind fun r2 =>
      (thread_sleep r2.state (some 2) .app).bind fun r3 =>
      (resume r3.state).bind fun r4 =>
      (thread_wakeup r4.state (some 2) 0).bind fun r5 =>
      (thread_yield 4 r5.1 THREAD_ANY).bind fun r6 =>
      (resume r6.state).map fun r7 =>
        (r3.outcome, r4.outcome, (r4.state.running_thread.bind r4.state.heap).map fun t => t.tid,
          r5.2, r6.outcome, r7.outcome,
          (r7.state.running_thread.bind r7.state.heap).map fun t => t.tid))
      = some (.switched, .started, some 1, 1, .switched, .returned 0, some 0) := by
  rfl

/-- C13, amended: in a state that satisfies `Sched` with a non-empty ready set,
`thread_sleep` called by application code on a wait set (`WaitSet`) switches
away with the return point saved in the context of the caller `p`; whenever `p`
is the running thread again and that context is resumed, `thread_sleep` returns
the tid of `p` itself, whichever thread woke it. -/
theorem thread_sleep_returns_own_tid (s : State) (w : Nat) (p r : Nat) (R Z W : List Nat)
    (c : tcb_t) (hs : Sched s p (r :: R) Z) (hw : WaitSet s p (r :: R) Z w W)
    (hc : s.heap p = some c) :
    ∃ s2, thread_sleep s (some w) .app = some (.switch s2) ∧
      s2.heap p = some { c with mycontext := .sleep s.interrupts .app, status := BLOCKED } ∧
      ∀ (s3 : State) (t3 : tcb_t), s3.running_thread = some p → s3.heap p = some t3 →
        t3.mycontext = .sleep s.interrupts .app → t3.tid = c.tid →
        resume s3 = some (.ret (interrupts_set s3 s.interrupts) c.tid) := by
  obtain ⟨rt, wq2, h2, q2, _, hsl, _, _, _, hp2, _⟩ :=
    thread_sleep_spec s w .app p r R Z W c hs hw hc
  refine ⟨_, hsl, hp2, ?_⟩
  intro s3 t3 hr3 ht3 hctx htid
  simp [resume, hr3, ht3, hctx, return_from_sleep, htid]

/-- Witness of C13, amended: `thread_sleep` in the state `two_ready`. -/
theorem thread_sleep_returns_own_tid_witness :
    ∃ s2, thread_sleep two_ready (some 1) .app = some (.switch s2) ∧
      s2.heap 0 = some
        { tid := 0, next := none, mycontext := .sleep true .app, status := BLOCKED,
          wait_queue := 1 } ∧
      ∀ (s3 : State) (t3 : tcb_t), s3.running_thread = some 0 → s3.heap 0 = some t3 →
        t3.mycontext = .sleep true .app → t3.tid = 0 →
        resume s3 = some (.ret (interrupts_set s3 true) 0) :=
  thread_sleep_returns_own_tid two_ready 1 0 2 [4] [] []
    { tid := 0, next := none, mycontext := .init, status := RUNNING, wait_queue := 1 }
    two_ready_sched two_ready_waitset rfl

/-- The trace `init_three_waiting` ends in a state with the content of
`three_waiting`. -/
theorem init_three_waiting_summary :
    init_three_waiting.map (fun s => (s.running_thread, s.ready_queue, s.exit_queue,
      s.heap 0, s.heap 3, s.heap 5, s.heap 7, s.wqs 2, s.brk,
      (List.range 5).map fun i : Nat => s.available_thr i))
      = some (three_waiting.running_thread, three_waiting.ready_queue,
        three_waiting.exit_queue, three_waiting.heap 0, three_waiting.heap 3,
        three_waiting.heap 5, three_waiting.heap 7, three_waiting.wqs 2, three_waiting.brk,
        (List.range 5).map fun i : Nat => three_waiting.available_thr i) := by
  rfl

theorem three_waiting_queue :
    isQueue three_waiting.heap { head := some 3, tail := some 7, size := 3 } [3, 5, 7] :=
  ⟨rfl, ⟨rfl, _, rfl, rfl, _, rfl, rfl, _, rfl, rfl⟩, rfl, by decide⟩

theorem three_waiting_bound : ∀ a t, three_waiting.heap a = some t → a < three_waiting.brk := by
  intro a t h
  show a < 9
  simp only [three_waiting] at h
  split_ifs at h
  · omega
  · omega
  · omega
  · omega

/-- C14: for a wait set at address `w` that holds the threads `a :: W`, in a
state whose ready set `R` is well-formed and disjoint from it,
`thread_wakeup (w, 0)` returns 1, removes exactly the head `a` of the wait set,
whose other threads `W` keep their order, and appends `a` at the tail of the
ready set; the running thread and the zombie set are unchanged.  Hence
successive calls release the waiters in their waiting order: for every split
`W1 ++ W2` of the wait set, after as many calls as `W1` has threads, each
returning 1, the wait set is `W2` and the ready set is `R ++ W1`. -/
theorem thread_wakeup_releases_head (s : State) (w : Nat) (wq : queue_t) (a : Nat)
    (W R : List Nat) (hw : s.wqs w = some wq) (hW : isQueue s.heap wq (a :: W))
    (hR : isQueue s.heap s.ready_queue R) (hd : ∀ b ∈ a :: W, b ∉ R) :
    (∃ s2 wq2, thread_wakeup s (some w) 0 = some (s2, 1) ∧
      s2.wqs w = some wq2 ∧ isQueue s2.heap wq2 W ∧ a ∉ W ∧
      isQueue s2.heap s2.ready_queue (R ++ [a]) ∧
      s2.running_thread = s.running_thread ∧ s2.exit_queue = s.exit_queue ∧
      (∀ b, b ≠ a → b ∉ R → s2.heap b = s.heap b)) ∧
    (∀ W1 W2 : List Nat, a :: W = W1 ++ W2 →
      ∃ s3 wq3, wakeup_times w W1.length s = some s3 ∧ s3.wqs w = some wq3 ∧
        isQueue s3.heap wq3 W2 ∧ isQueue s3.heap s3.ready_queue (R ++ W1)) := by
  refine ⟨?_, ?_⟩
  · obtain ⟨t, h2, wq2, q2, _, hwk, hW2, hR2, _, hfr, _⟩ := thread_wakeup_one_spec hw hW hR hd
    exact ⟨_, wq2, hwk, Function.update_same _ _ _, hW2, (List.nodup_cons.1 hW.nodup).1, hR2,
      rfl, rfl, hfr⟩
  · intro W1 W2 hsplit
    rw [hsplit] at hW hd
    exact wakeup_times_spec w W1 s wq W2 R hw hW hR hd

/-- Witness of C14: the state `three_waiting`, where the threads at addresses 3,
5 and 7 wait in this order. -/
theorem thread_wakeup_releases_head_witness :
    (∃ s2 wq2, thread_wakeup three_waiting (some 2) 0 = some (s2, 1) ∧
      s2.wqs 2 = some wq2 ∧ isQueue s2.heap wq2 [5, 7] ∧ 3 ∉ [5, 7] ∧
      isQueue s2.heap s2.ready_queue ([] ++ [3]) ∧
      s2.running_thread = three_waiting.running_thread ∧
      s2.exit_queue = three_waiting.exit_queue ∧
      (∀ b, b ≠ 3 → b ∉ ([] : List Nat) → s2.heap b = three_waiting.heap b)) ∧
    (∀ W1 W2 : List Nat, 3 :: [5, 7] = W1 ++ W2 →
      ∃ s3 wq3, wakeup_times 2 W1.length three_waiting = some s3 ∧ s3.wqs 2 = some wq3 ∧
        isQueue s3.heap wq3 W2 ∧ isQueue s3.heap s3.ready_queue ([] ++ W1)) :=
  thread_wakeup_releases_head three_waiting 2 _ 3 [5, 7] [] rfl three_waiting_queue
    ⟨rfl, rfl, rfl, by decide⟩ (by simp)

/-- Three calls of `thread_wakeup (2, 0)` in the state `three_waiting` release
the three waiters in their waiting order. -/
theorem wakeup_order_abc :
    (wakeup_times 2 3 three_waiting).map (fun s =>
      (walk s.heap 9 s.ready_queue.head, (s.wqs 2).map fun q => walk s.heap 9 q.head))
      = some ([3, 5, 7], some []) := by
  rfl

/-- C15: `thread_wakeup` returns the number of threads it moved.  For a wait set
at address `w` that holds the threads `W`, in a state whose ready set `R` is
well-formed and disjoint from it, `thread_wakeup (w, 1)` returns the size of the
wait set, leaves it empty and appends the threads `W`, in their order, to the
ready set.  When the wait set is empty, or the argument is `NULL`, the result is
0 for every value of `all` and the state is unchanged. -/
theorem thread_wakeup_count (s : State) (w : Nat) (wq : queue_t) (W R : List Nat) (all : Int)
    (hw : s.wqs w = some wq) (hW : isQueue s.heap wq W)
    (hR : isQueue s.heap s.ready_queue R) (hd : ∀ b ∈ W, b ∉ R)
    (hb : ∀ a t, s.heap a = some t → a < s.brk) :
    (∃ s2, thread_wakeup s (some w) 1 = some (s2, wq.size) ∧
      wq.size = W.length ∧
      s2.wqs w = some empty_queue ∧
      isQueue s2.heap s2.ready_queue (R ++ W) ∧
      s2.running_thread = s.running_thread ∧ s2.exit_queue = s.exit_queue) ∧
    (W = [] → thread_wakeup s (some w) all = some (s, 0)) ∧
    thread_wakeup s none all = some (s, 0) := by
  refine ⟨?_, ?_, rfl⟩
  · obtain ⟨h2, q2, hwk, hq2, _⟩ := thread_wakeup_all_spec hw hW hR hd hb
    rw [hW.size_eq]
    exact ⟨_, hwk, rfl, Function.update_same _ _ _, hq2, rfl, rfl⟩
  · intro h0
    subst h0
    have hhead : wq.head = none := hW.links
    simp only [thread_wakeup, interrupts_off_wqs, hw, Option.bind_eq_bind, Option.some_bind,
      hhead, wakeup_loop]
    rfl

/-- Witness of C15: `thread_wakeup (2, 1)` in the state `three_waiting`. -/
theorem thread_wakeup_count_witness :
    (∃ s2, thread_wakeup three_waiting (some 2) 1 = some (s2, 3) ∧
      (3 : Int) = ([3, 5, 7] : List Nat).length ∧
      s2.wqs 2 = some empty_queue ∧
      isQueue s2.heap s2.ready_queue ([] ++ [3, 5, 7]) ∧
      s2.running_thread = three_waiting.running_thread ∧
      s2.exit_queue = three_waiting.exit_queue) ∧
    ([3, 5, 7] = ([] : List Nat) → thread_wakeup three_waiting (some 2) 0
      = some (three_waiting, 0)) ∧
    thread_wakeup three_waiting none 0 = some (three_waiting, 0) :=
  thread_wakeup_count three_waiting 2 _ [3, 5, 7] [] 0 rfl three_waiting_queue
    ⟨rfl, rfl, rfl, by decide⟩ (by simp) three_waiting_bound

/-- C16 as stated fails: the first thread creates a thread (tid 1) and yields to
it; that thread exits with code 7 through `thread_exit`, and the first thread
runs again.  The code 7 is recorded for tid 1 and the tid has not been reused
(slot 1 is empty), yet `thread_wait (1, &code)` by the first thread returns
`THREAD_INVALID` and stores nothing in `code` (cell 0 of the memory), whereas
the wait started before the exit returns 1 and stores 7. -/
theorem thread_wait_after_exit_invalid :
    (((thread_create 4 (thread_init none) true).bind fun r1 =>
      (thread_yield 4 r1.state 1).bind fun r2 =>
      (resume r2.state).bind fun r3 =>
      (thread_exit r3.state 7).bind fun r4 =>
      (resume r4.state).bind fun r5 =>
      (thread_wait 4 r5.state 1 (some 0) 0).map fun r6 =>
        (r1.outcome, r3.outcome, r4.outcome, r5.outcome, r5.state.exit_code_array 1,
          r5.state.available_thr 1, r6.outcome, r6.state.mem 0))
      = some (.returned 1, .started, .switched, .returned 1, 7, none,
          .returned THREAD_INVALID, 0)) ∧
    (((thread_create 4 (thread_init none) true).bind fun r1 =>
      (thread_wait 4 r1.state 1 (some 0) 0).bind fun r2 =>
      (resume r2.state).bind fun r3 =>
      (thread_exit r3.state 7).bind fun r4 =>
      (resume r4.state).map fun r5 =>
        (r1.outcome, r2.outcome, r3.outcome, r4.outcome, r5.outcome, r5.state.mem 0))
      = some (.returned 1, .switched, .started, .switched, .returned 1, 7)) := by
  constructor <;> rfl

/-- C16, amended: a thread that exits through `thread_exit` with a code, in a
state that satisfies `Sched` and `Joiners` and in which the exit does not
terminate the process, leaves its slot empty with the code recorded for its
tid; and in every later state in which that slot is still empty (the tid has not
been reused), `thread_wait (t, &code)` called by a running thread returns
`THREAD_INVALID` at once and changes nothing: nothing is stored in `code`. -/
theorem thread_wait_after_exit (MAX : Nat) (s : State) (code : Int) (p r : Nat)
    (R Z W T : List Nat) (c : tcb_t) (hs : Sched s p R Z) (hj : Joiners s p R Z W)
    (hc : s.heap p = some c) (hne : R ++ W = r :: T) :
    ∃ s2, thread_exit s code = some (.switch s2) ∧
      s2.available_thr c.tid = none ∧
      s2.exit_code_array c.tid = code ∧
      ∀ (s3 : State) (q : Nat) (x : tcb_t) (ec : Option Nat) (ttid0 : Int),
        s3.running_thread = some q → s3.heap q = some x → s3.available_thr c.tid = none →
        thread_wait MAX s3 c.tid ec ttid0 = some (.ret s3 THREAD_INVALID) := by
  obtain ⟨s2, h1, _, _, _, _, h6, h7, _⟩ := thread_exit_spec s code p r R Z W T c hs hj hc hne
  exact ⟨s2, h1, h6, h7, fun s3 q x ec ttid0 hr hx hslot =>
    thread_wait_invalid_dispatch MAX s3 c.tid ec ttid0 q x hr hx (Or.inr (Or.inr (Or.inr hslot)))⟩

/-- Witness of C16, amended: `thread_exit (7)` by the first thread in the state
`two_ready`. -/
theorem thread_wait_after_exit_witness :
    ∃ s2, thread_exit two_ready 7 = some (.switch s2) ∧
      s2.available_thr 0 = none ∧
      s2.exit_code_array 0 = 7 ∧
      ∀ (s3 : State) (q : Nat) (x : tcb_t) (ec : Option Nat) (ttid0 : Int),
        s3.running_thread = some q → s3.heap q = some x → s3.available_thr 0 = none →
        thread_wait 4 s3 0 ec ttid0 = some (.ret s3 THREAD_INVALID) :=
  thread_wait_after_exit 4 two_ready 7 0 2 [2, 4] [] [] [4]
    { tid := 0, next := none, mycontext := .init, status := RUNNING, wait_queue := 1 }
    two_ready_sched two_ready_joiners rfl rfl


/-- C18: in a state with an allocated running thread, `thread_wait (t, &code)`
returns `THREAD_INVALID` at once, in the state in which it was called (no
queue, thread status or memory cell has changed, and the caller still runs),
when `t` is the tid of the caller, when `t` is negative, when `t` is at least
`THREAD_MAX_THREADS`, and when the slot of `t` is empty, as it is for a tid
that has never denoted a thread. -/
theorem thread_wait_invalid_target (MAX : Nat) (s : State) (t : Int) (ec : Option Nat)
    (ttid0 : Int) (p : Nat) (c : tcb_t) (hr : s.running_thread = some p)
    (hp : s.heap p = some c)
    (h : t = c.tid ∨ t < 0 ∨ t ≥ MAX ∨ s.available_thr t = none) :
    thread_wait MAX s t ec ttid0 = some (.ret s THREAD_INVALID) ∧
    ∀ (next0 : Option Nat) (i : Int), i ≠ 0 → (thread_init next0).available_thr i = none :=
  ⟨thread_wait_invalid_dispatch MAX s t ec ttid0 p c hr hp h, fun _ i hi => by
    simp [thread_init, hi]⟩

/-- Witness of C18: the first thread waits for itself in the state `two_ready`. -/
theorem thread_wait_invalid_target_witness :
    thread_wait 4 two_ready 0 (some 0) 0 = some (.ret two_ready THREAD_INVALID) ∧
    ∀ (next0 : Option Nat) (i : Int), i ≠ 0 → (thread_init next0).available_thr i = none :=
  thread_wait_invalid_target 4 two_ready 0 (some 0) 0 0
    { tid := 0, next := none, mycontext := .init, status := RUNNING, wait_queue := 1 }
    rfl rfl (Or.inl rfl)

theorem init_lock_held_summary : init_lock_held.map summary = some (summary lock_held) := by
  rfl

theorem init_lock_contended_summary :
    init_lock_contended.map summary = some (summary lock_contended) := by
  rfl

theorem lock_held_sched : Sched lock_held 0 [4, 6] [] where
  running := rfl
  alloc := ⟨_, rfl, rfl⟩
  ready := ⟨rfl, ⟨rfl, _, rfl, rfl, _, rfl, rfl⟩, rfl, by decide⟩
  zombie := ⟨rfl, rfl, rfl, by decide⟩
  zok := ⟨by simp, by simp [wq_of]⟩
  not_ready := by decide
  not_zombie := by decide
  disjoint := by simp
  bound := by
    intro a t h
    show a < 8
    simp only [lock_held] at h
    split_ifs at h
    · omega
    · omega
    · omega

theorem lock_held_waitset : WaitSet lock_held 0 [4, 6] [] 3 [] :=
  ⟨⟨empty_queue, rfl, rfl, rfl, rfl, by decide⟩, by simp, by simp, by simp⟩

theorem lock_contended_queue :
    isQueue lock_contended.heap { head := some 4, tail := some 6, size := 2 } [4, 6] :=
  ⟨rfl, ⟨rfl, _, rfl, rfl, _, rfl, rfl⟩, rfl, by decide⟩

theorem lock_contended_bound :
    ∀ a t, lock_contended.heap a = some t → a < lock_contended.brk := by
  intro a t h
  show a < 8
  simp only [lock_contended] at h
  split_ifs at h
  · omega
  · omega
  · omega

/-- C19 as stated fails: the first thread creates a lock (at address 2, wait
queue at address 3) and acquires it; no other thread exists.  A second
`lock_acquire` on the held lock does not block the caller: the `thread_sleep`
of its loop returns `THREAD_NONE` at once, the caller keeps status `RUNNING` and
stays the running thread, the wait set of the lock stays empty, and the loop
never ends (no result). -/
theorem lock_acquire_held_no_ready :
    ((lock_acquire (lock_create (thread_init none)).state (some 2)).map fun r1 =>
      (r1.outcome, r1.state.locks 2, r1.state.ready_queue,
        (thread_sleep (interrupts_off r1.state) (some 3) (.acquire true 2 none)).map fun r2 =>
          (r2.outcome, r2.state.running_thread, r2.state.heap 0, r2.state.wqs 3,
            r2.state.locks 2),
        (lock_acquire r1.state (some 2)).map result.outcome))
      = some (.returned 0, some { state := 1, wait_queue := 3 }, empty_queue,
          some (.returned THREAD_NONE, some 0,
            some { tid := 0, next := none, mycontext := .init, status := RUNNING,
                   wait_queue := 1 },
            some empty_queue, some { state := 1, wait_queue := 3 }),
          none) := by
  rfl

/-- C19, amended: `lock_acquire` on a free lock (state 0) returns at once with
the lock held and nothing else changed.  On a held lock, in a state that
satisfies `Sched` with a non-empty ready set `r :: R` and in which the wait set
of the lock holds the threads `W` (`WaitSet`), it leaves the lock held and
switches to `r`, with the caller `p`, with status `BLOCKED`, at the tail of the
wait set of the lock.  Whenever the caller is the running thread again and its
saved context is resumed, the loop tests and sets the lock again:
`lock_acquire` returns, with the lock held, when that test finds the lock free,
and does not return when it finds the lock held. -/
theorem lock_acquire_free_or_blocks (s : State) (l : Nat) (lk : lock_t)
    (hl : s.locks l = some lk) :
    (lk.state = 0 → lock_acquire s (some l)
      = some (.ret { s with locks := Function.update s.locks l (some { lk with state := 1 }) }
          0)) ∧
    (lk.state ≠ 0 → ∀ (p r : Nat) (R Z W : List Nat) (c : tcb_t), Sched s p (r :: R) Z →
      WaitSet s p (r :: R) Z lk.wait_queue W → s.heap p = some c →
      ∃ s2 wq2, lock_acquire s (some l) = some (.switch s2) ∧
        s2.locks l = some { lk with state := 1 } ∧
        s2.running_thread = some r ∧
        isQueue s2.heap s2.ready_queue R ∧
        s2.wqs lk.wait_queue = some wq2 ∧
        isQueue s2.heap wq2 (W ++ [p]) ∧
        s2.heap p = some { c with mycontext := .sleep false (.acquire s.interrupts l none),
                                  status := BLOCKED } ∧
        ∀ (s3 : State) (t3 : tcb_t) (lk3 : lock_t), s3.running_thread = some p →
          s3.heap p = some t3 → t3.mycontext = .sleep false (.acquire s.interrupts l none) →
          s3.locks l = some lk3 →
          (lk3.state = 0 → resume s3 = some (.ret
            { s3 with
              locks := Function.update s3.locks l (some { lk3 with state := 1 })
              interrupts := s.interrupts } 0)) ∧
          (lk3.state ≠ 0 → ∀ (s4 : State) (v : Int), resume s3 ≠ some (.ret s4 v))) := by
  refine ⟨?_, ?_⟩
  · intro h0
    simp only [lock_acquire, acquire_loop, interrupts_off_locks, hl, Option.bind_eq_bind,
      Option.some_bind, h0, ne_eq, not_true_eq_false, if_false]
    rfl
  · intro h1 p r R Z W c hs hw hc
    have hs1 : Sched { interrupts_off s with
        locks := Function.update s.locks l (some { lk with state := 1 }) } p (r :: R) Z :=
      ⟨hs.running, hs.alloc, hs.ready, hs.zombie, hs.zok, hs.not_ready, hs.not_zombie,
        hs.disjoint, hs.bound⟩
    have hw1 : WaitSet { interrupts_off s with
        locks := Function.update s.locks l (some { lk with state := 1 }) } p (r :: R) Z
        lk.wait_queue W :=
      ⟨hw.queue, hw.not_ready, hw.not_zombie, hw.not_running⟩
    obtain ⟨rt, wq2, h2, q2, _, hsl, hW2, hR2, _, hp2, _⟩ :=
      thread_sleep_spec _ lk.wait_queue (.acquire s.interrupts l none) p r R Z W c hs1 hw1 hc
    have hcall : lock_acquire s (some l) = some (.switch
        { interrupts_off { interrupts_off s with
            locks := Function.update s.locks l (some { lk with state := 1 }) } with
          heap := h2
          wqs := Function.update s.wqs lk.wait_queue (some wq2)
          running_thread := some r
          ready_queue := q2 }) := by
      simp only [lock_acquire, acquire_loop, interrupts_off_locks, hl, Option.bind_eq_bind,
        Option.some_bind, ne_eq, h1, not_false_eq_true, if_true]
      erw [hsl]
      rfl
    refine ⟨_, wq2, hcall, Function.update_same _ _ _, rfl, hR2, Function.update_same _ _ _,
      hW2, hp2, ?_⟩
    intro s3 t3 lk3 hr3 ht3 hctx hl3
    refine ⟨?_, ?_⟩
    · intro h0
      simp only [resume, hr3, ht3, hctx, return_from_sleep, acquire_loop, Option.bind_eq_bind,
        Option.some_bind, interrupts_set, hl3, h0, ne_eq, not_true_eq_false, if_false]
    · intro hne s4 v
      have hres : resume s3 = acquire_loop (interrupts_set s3 false) s.interrupts l none := by
        simp only [resume, hr3, ht3, hctx, return_from_sleep, Option.bind_eq_bind,
          Option.some_bind]
      rw [hres]
      exact acquire_loop_held_no_ret (interrupts_set s3 false) s.interrupts l none lk3 hl3 hne s4 v

/-- Witness of C19, amended: the free lock just created, and the held lock of
the state `lock_held`, in which two threads are ready. -/
theorem lock_acquire_free_or_blocks_witness :
    lock_acquire (lock_create (thread_init none)).state (some 2)
      = some (.ret { (lock_create (thread_init none)).state with
          locks := Function.update (lock_create (thread_init none)).state.locks 2
            (some { state := 1, wait_queue := 3 }) } 0) ∧
    ∃ s2 wq2, lock_acquire lock_held (some 2) = some (.switch s2) ∧
      s2.locks 2 = some { state := 1, wait_queue := 3 } ∧
      s2.running_thread = some 4 ∧
      isQueue s2.heap s2.ready_queue [6] ∧
      s2.wqs 3 = some wq2 ∧
      isQueue s2.heap wq2 ([] ++ [0]) ∧
      s2.heap 0 = some
        { tid := 0, next := none, mycontext := .sleep false (.acquire true 2 none),
          status := BLOCKED, wait_queue := 1 } ∧
      ∀ (s3 : State) (t3 : tcb_t) (lk3 : lock_t), s3.running_thread = some 0 →
        s3.heap 0 = some t3 → t3.mycontext = .sleep false (.acquire true 2 none) →
        s3.locks 2 = some lk3 →
        (lk3.state = 0 → resume s3 = some (.ret
          { s3 with
            locks := Function.update s3.locks 2 (some { lk3 with state := 1 })
            interrupts := true } 0)) ∧
        (lk3.state ≠ 0 → ∀ (s4 : State) (v : Int), resume s3 ≠ some (.ret s4 v)) :=
  ⟨(lock_acquire_free_or_blocks (lock_create (thread_init none)).state 2
      { state := 0, wait_queue := 3 } rfl).1 rfl,
    (lock_acquire_free_or_blocks lock_held 2 { state := 1, wait_queue := 3 } rfl).2
      (by decide) 0 4 [6] [] []
      { tid := 0, next := none, mycontext := .init, status := RUNNING, wait_queue := 1 }
      lock_held_sched lock_held_waitset rfl⟩

/-- C20 as stated fails: in the state at the end of `init_lock_contended` the
first thread holds the lock at address 2 and the threads at addresses 4 and 6
are blocked, in this order, on its wait set; `lock_release` moves both of them
to the ready set, leaves the wait set empty and sets the lock free. -/
theorem lock_release_wakes_both :
    (init_lock_contended.bind fun s =>
      (lock_release s (some 2)).map fun r =>
        ((s.locks 2, (s.wqs 3).map fun q => walk s.heap 9 q.head,
            walk s.heap 9 s.ready_queue.head),
          (r.outcome, r.state.locks 2, (r.state.wqs 3).map fun q => walk r.state.heap 9 q.head,
            walk r.state.heap 9 r.state.ready_queue.head)))
      = some ((some { state := 1, wait_queue := 3 }, some [4, 6], []),
          (.returned 0, some { state := 0, wait_queue := 3 }, some [], [4, 6])) := by
  rfl

/-- C20, amended: `lock_release` on a held lock (state 1) whose wait set holds
the threads `W`, in a state whose ready set `R` is well-formed and disjoint from
`W`, moves every waiter, in waiting order, to the tail of the ready set, leaves
the wait set of the lock empty and sets the lock free, with the running thread
and the zombie set unchanged; on a lock that is not held it changes nothing. -/
theorem lock_release_wakes_all (s : State) (l : Nat) (lk : lock_t)
    (hl : s.locks l = some lk) :
    (lk.state = 1 → ∀ (wq : queue_t) (W R : List Nat), s.wqs lk.wait_queue = some wq →
      isQueue s.heap wq W → isQueue s.heap s.ready_queue R → (∀ b ∈ W, b ∉ R) →
      (∀ a t, s.heap a = some t → a < s.brk) →
      ∃ s2, lock_release s (some l) = some (.ret s2 0) ∧
        s2.locks l = some { lk with state := 0 } ∧
        s2.wqs lk.wait_queue = some empty_queue ∧
        isQueue s2.heap s2.ready_queue (R ++ W) ∧
        s2.running_thread = s.running_thread ∧
        s2.exit_queue = s.exit_queue) ∧
    (lk.state ≠ 1 → lock_release s (some l) = some (.ret s 0)) := by
  refine ⟨?_, ?_⟩
  · intro h1 wq W R hw hW hR hd hb
    obtain ⟨h2, q2, hwk, hq2, _⟩ :=
      thread_wakeup_all_spec (s := interrupts_off s) hw hW hR hd hb
    have hcall : lock_release s (some l) = some (.ret
        { s with
          heap := h2
          wqs := Function.update s.wqs lk.wait_queue (some empty_queue)
          ready_queue := q2
          locks := Function.update s.locks l (some { lk with state := 0 }) } 0) := by
      simp only [lock_release, interrupts_off_locks, hl, Option.bind_eq_bind, Option.some_bind,
        h1, if_true, hwk]
      rfl
    exact ⟨_, hcall, Function.update_same _ _ _, Function.update_same _ _ _, hq2, rfl, rfl⟩
  · intro h1
    simp only [lock_release, interrupts_off_locks, hl, Option.bind_eq_bind, Option.some_bind,
      h1, if_false]
    rfl

/-- Witness of C20, amended: `lock_release` in the state `lock_contended`, where
two threads are blocked on the held lock, and on the free lock just created. -/
theorem lock_release_wakes_all_witness :
    (∃ s2, lock_release lock_contended (some 2) = some (.ret s2 0) ∧
      s2.locks 2 = some { state := 0, wait_queue := 3 } ∧
      s2.wqs 3 = some empty_queue ∧
      isQueue s2.heap s2.ready_queue ([] ++ [4, 6]) ∧
      s2.running_thread = lock_contended.running_thread ∧
      s2.exit_queue = lock_contended.exit_queue) ∧
    lock_release (lock_create (thread_init none)).state (some 2)
      = some (.ret (lock_create (thread_init none)).state 0) :=
  ⟨(lock_release_wakes_all lock_contended 2 { state := 1, wait_queue := 3 } rfl).1 rfl _
      [4, 6] [] rfl lock_contended_queue ⟨rfl, rfl, rfl, by decide⟩ (by simp)
      lock_contended_bound,
    (lock_release_wakes_all (lock_create (thread_init none)).state 2
      { state := 0, wait_queue := 3 } rfl).2 (by decide)⟩

theorem init_holder_running_summary :
    init_holder_running.map summary_cv = some (summary_cv holder_running) := by
  rfl

theorem init_cv_two_waiting_summary :
    init_cv_two_waiting.map summary_cv = some (summary_cv cv_two_waiting) := by
  rfl

theorem cv_two_waiting_queue :
    isQueue cv_two_waiting.heap { head := some 6, tail := some 8, size := 2 } [6, 8] :=
  ⟨rfl, ⟨rfl, _, rfl, rfl, _, rfl, rfl⟩, rfl, by decide⟩

theorem cv_two_waiting_bound :
    ∀ a t, cv_two_waiting.heap a = some t → a < cv_two_waiting.brk := by
  intro a t h
  show a < 10
  simp only [cv_two_waiting] at h
  split_ifs at h
  · omega
  · omega
  · omega

theorem holder_running_sched : Sched holder_running 6 [8, 0] [] where
  running := rfl
  alloc := ⟨_, rfl, rfl⟩
  ready := ⟨rfl, ⟨rfl, _, rfl, rfl, _, rfl, rfl⟩, rfl, by decide⟩
  zombie := ⟨rfl, rfl, rfl, by decide⟩
  zok := ⟨by simp, by simp [wq_of]⟩
  not_ready := by decide
  not_zombie := by decide
  disjoint := by simp
  bound := by
    intro a t h
    show a < 10
    simp only [holder_running] at h
    split_ifs at h
    · omega
    · omega
    · omega

theorem holder_running_lock_waitset : WaitSet holder_running 6 [8, 0] [] 3 [] :=
  ⟨⟨empty_queue, rfl, rfl, rfl, rfl, by decide⟩, by simp, by simp, by simp⟩

theorem holder_running_cv_waitset : WaitSet holder_running 6 [8, 0] [] 5 [] :=
  ⟨⟨empty_queue, rfl, rfl, rfl, rfl, by decide⟩, by simp, by simp, by simp⟩

/-- C22: let `cv_wait (cv, lock)` be called with the lock held (state 1).  In a
state that satisfies `Sched`, in which the wait sets of the lock (`Wl`) and of
the condition variable (`Wc`) are well-formed and disjoint, and in which some
thread is ready or blocked on the lock, the call ends in a switch, and there the
lock is free and the caller `p` is blocked at the tail of the wait set of the
condition variable: the lock is released before the caller blocks.  Whenever
`cv_wait` returns, the lock is held: this holds for a return of the call itself
and for every return reached when the saved context of the caller is resumed,
be it the context saved on the wait set of the condition variable or a context
saved later on the wait set of the lock.  A resumption that finds the lock free
returns with the lock held; one that finds it held blocks the caller again, on
the wait set of the lock, with a context of the second kind. -/
theorem cv_wait_releases_and_reacquires (s : State) (cp l : Nat) (lk : lock_t) (cvv : cv_t)
    (hl : s.locks l = some lk) (hcv : s.cvs cp = some cvv) (h1 : lk.state = 1) :
    (∀ (p r : Nat) (R Z Wl Wc T : List Nat) (c : tcb_t), Sched s p R Z →
      WaitSet s p R Z lk.wait_queue Wl → WaitSet s p R Z cvv.wait_queue Wc →
      lk.wait_queue ≠ cvv.wait_queue → (∀ a ∈ Wl, a ∉ Wc) → s.heap p = some c →
      R ++ Wl = r :: T →
      ∃ s2 wq2, cv_wait s (some cp) (some l) = some (.switch s2) ∧
        s2.locks l = some { lk with state := 0 } ∧
        s2.wqs cvv.wait_queue = some wq2 ∧
        isQueue s2.heap wq2 (Wc ++ [p]) ∧
        s2.heap p = some { c with mycontext := .sleep false (.cv_wait s.interrupts l),
                                  status := BLOCKED } ∧
        s2.running_thread = some r ∧
        isQueue s2.heap s2.ready_queue T) ∧
    (∀ (s2 : State) (v : Int), cv_wait s (some cp) (some l) = some (.ret s2 v) →
      ∃ lk2, s2.locks l = some lk2 ∧ lk2.state = 1) ∧
    (∀ (s3 : State) (p : Nat) (t3 : tcb_t) (e : Bool), s3.running_thread = some p →
      s3.heap p = some t3 →
      (t3.mycontext = .sleep false (.cv_wait e l) ∨
        t3.mycontext = .sleep false (.acquire false l (some e))) →
      (∀ (s4 : State) (v : Int), resume s3 = some (.ret s4 v) →
        ∃ lk4, s4.locks l = some lk4 ∧ lk4.state = 1) ∧
      (∀ lk3 : lock_t, s3.locks l = some lk3 → lk3.state = 0 →
        resume s3 = some (.ret
          { s3 with
            locks := Function.update s3.locks l (some { lk3 with state := 1 })
            interrupts := e } 0)) ∧
      (∀ (lk3 : lock_t) (r3 : Nat) (R3 Z3 W3 : List Nat), s3.locks l = some lk3 →
        lk3.state ≠ 0 → Sched s3 p (r3 :: R3) Z3 →
        WaitSet s3 p (r3 :: R3) Z3 lk3.wait_queue W3 →
        ∃ s5 wq5, resume s3 = some (.switch s5) ∧
          s5.locks l = some { lk3 with state := 1 } ∧
          s5.wqs lk3.wait_queue = some wq5 ∧
          isQueue s5.heap wq5 (W3 ++ [p]) ∧
          s5.heap p = some { t3 with
            mycontext := .sleep false (.acquire false l (some e)), status := BLOCKED })) := by
  refine ⟨?_, ?_, ?_⟩
  · intro p r R Z Wl Wc T c hs hwl hwc hne hdis hc hrt
    obtain ⟨s2, wq2, h2, h3, h4, h5, h6, h7, h8, _⟩ :=
      cv_wait_blocks_spec s cp l lk cvv p r R Z Wl Wc T c hl hcv h1 hs hwl hwc hne hdis hc hrt
    exact ⟨s2, wq2, h2, h3, h4, h5, h6, h7, h8⟩
  · intro s2 v h
    exact cv_wait_ret_held s cp l lk hl h1 s2 v h
  · intro s3 p t3 e hr ht hctx
    have hres := resume_cv_wait s3 p t3 e l hr ht hctx
    refine ⟨?_, ?_, ?_⟩
    · intro s4 v h
      rw [hres] at h
      exact acquire_loop_ret_held _ _ l _ s4 v h
    · intro lk3 hl3 h0
      rw [hres, acquire_loop_free (interrupts_set s3 false) false l (some e) lk3 hl3 h0]
      rfl
    · intro lk3 r3 R3 Z3 W3 hl3 h0 hs3 hw3
      have hs4 : Sched (interrupts_set s3 false) p (r3 :: R3) Z3 :=
        ⟨hs3.running, hs3.alloc, hs3.ready, hs3.zombie, hs3.zok, hs3.not_ready,
          hs3.not_zombie, hs3.disjoint, hs3.bound⟩
      have hw4 : WaitSet (interrupts_set s3 false) p (r3 :: R3) Z3 lk3.wait_queue W3 :=
        ⟨hw3.queue, hw3.not_ready, hw3.not_zombie, hw3.not_running⟩
      obtain ⟨s5, wq5, h2, h3, _, _, h6, h7, h8⟩ :=
        acquire_loop_held (interrupts_set s3 false) false l (some e) lk3 p r3 R3 Z3 W3 t3 hl3
          h0 hs4 hw4 ht
      exact ⟨s5, wq5, hres.trans h2, h3, h6, h7, h8⟩

/-- Witness of C22: `cv_wait` by the running thread of the state
`holder_running`, which holds the lock while two threads are ready. -/
theorem cv_wait_releases_and_reacquires_witness :
    ∃ s2 wq2, cv_wait holder_running (some 4) (some 2) = some (.switch s2) ∧
      s2.locks 2 = some { state := 0, wait_queue := 3 } ∧
      s2.wqs 5 = some wq2 ∧
      isQueue s2.heap wq2 ([] ++ [6]) ∧
      s2.heap 6 = some
        { tid := 1, next := none, mycontext := .sleep false (.cv_wait true 2),
          status := BLOCKED, wait_queue := 7 } ∧
      s2.running_thread = some 8 ∧
      isQueue s2.heap s2.ready_queue [0] :=
  (cv_wait_releases_and_reacquires holder_running 4 2 { state := 1, wait_queue := 3 }
    { wait_queue := 5 } rfl rfl rfl).1 6 8 [8, 0] [] [] [] [0]
    { tid := 1, next := none, mycontext := .stub, status := RUNNING, wait_queue := 7 }
    holder_running_sched holder_running_lock_waitset holder_running_cv_waitset (by decide)
    (by simp) rfl rfl

/-- C23: for a lock and a condition variable whose wait set holds the threads
`W`, in a state whose ready set `R` is well-formed and disjoint from `W`: with
the lock held (state 1), `cv_signal` changes nothing when `W` is empty and else
moves exactly the head of `W` to the tail of the ready set, leaving the rest of
`W` in its order, and `cv_broadcast` moves all of `W`, in its order, to the tail
of the ready set and leaves the wait set empty; neither changes the locks, the
running thread or the zombie set.  With the lock not held, both return in the
state of the call. -/
theorem cv_signal_broadcast (s : State) (cp l : Nat) (lk : lock_t) (cvv : cv_t)
    (hl : s.locks l = some lk) (hcv : s.cvs cp = some cvv) :
    (lk.state = 1 → ∀ (wq : queue_t) (W R : List Nat), s.wqs cvv.wait_queue = some wq →
      isQueue s.heap wq W → isQueue s.heap s.ready_queue R → (∀ b ∈ W, b ∉ R) →
      (∀ a t, s.heap a = some t → a < s.brk) →
      (W = [] → cv_signal s (some cp) (some l) = some (.ret s 0)) ∧
      (∀ (a : Nat) (W2 : List Nat), W = a :: W2 →
        ∃ s2 wq2, cv_signal s (some cp) (some l) = some (.ret s2 0) ∧
          s2.wqs cvv.wait_queue = some wq2 ∧
          isQueue s2.heap wq2 W2 ∧
          isQueue s2.heap s2.ready_queue (R ++ [a]) ∧
          s2.locks = s.locks ∧ s2.running_thread = s.running_thread ∧
          s2.exit_queue = s.exit_queue) ∧
      (∃ s2, cv_broadcast s (some cp) (some l) = some (.ret s2 0) ∧
        s2.wqs cvv.wait_queue = some empty_queue ∧
        isQueue s2.heap s2.ready_queue (R ++ W) ∧
        s2.locks = s.locks ∧ s2.running_thread = s.running_thread ∧
        s2.exit_queue = s.exit_queue)) ∧
    (lk.state ≠ 1 → cv_signal s (some cp) (some l) = some (.ret s 0) ∧
      cv_broadcast s (some cp) (some l) = some (.ret s 0)) := by
  refine ⟨?_, ?_⟩
  · intro h1 wq W R hw hW hR hd hb
    refine ⟨?_, ?_, ?_⟩
    · intro h0
      subst h0
      have hhead : wq.head = none := hW.links
      simp only [cv_signal, interrupts_off_locks, hl, Option.bind_eq_bind, Option.some_bind, h1,
        if_true, interrupts_off_cvs, hcv, thread_wakeup, interrupts_off_wqs, hw, hhead,
        wakeup_loop]
      rfl
    · intro a W2 hcons
      subst hcons
      obtain ⟨t, h2, wq2, q2, _, hwk, hW2, hR2, _⟩ :=
        thread_wakeup_one_spec (s := interrupts_off s) hw hW hR hd
      have hcall : cv_signal s (some cp) (some l) = some (.ret
          { s with
            heap := h2
            wqs := Function.update s.wqs cvv.wait_queue (some wq2)
            ready_queue := q2 } 0) := by
        simp only [cv_signal, interrupts_off_locks, hl, Option.bind_eq_bind, Option.some_bind,
          h1, if_true, interrupts_off_cvs, hcv, hwk]
        rfl
      exact ⟨_, wq2, hcall, Function.update_same _ _ _, hW2, hR2, rfl, rfl, rfl⟩
    · obtain ⟨h2, q2, hwk, hq2, _⟩ :=
        thread_wakeup_all_spec (s := interrupts_off s) hw hW hR hd hb
      have hcall : cv_broadcast s (some cp) (some l) = some (.ret
          { s with
            heap := h2
            wqs := Function.update s.wqs cvv.wait_queue (some empty_queue)
            ready_queue := q2 } 0) := by
        simp only [cv_broadcast, interrupts_off_locks, hl, Option.bind_eq_bind,
          Option.some_bind, h1, if_true, interrupts_off_cvs, hcv, hwk]
        rfl
      exact ⟨_, hcall, Function.update_same _ _ _, hq2, rfl, rfl, rfl⟩
  · intro h1
    refine ⟨?_, ?_⟩
    · simp only [cv_signal, interrupts_off_locks, hl, Option.bind_eq_bind, Option.some_bind, h1,
        if_false]
      rfl
    · simp only [cv_broadcast, interrupts_off_locks, hl, Option.bind_eq_bind, Option.some_bind,
        h1, if_false]
      rfl

/-- Witness of C23: `cv_signal` and `cv_broadcast` in the state `cv_two_waiting`,
where the lock is held and two threads wait on the condition variable, and with
the free lock of the state just after `lock_create` and `cv_create`. -/
theorem cv_signal_broadcast_witness :
    ((∃ s2 wq2, cv_signal cv_two_waiting (some 4) (some 2) = some (.ret s2 0) ∧
        s2.wqs 5 = some wq2 ∧
        isQueue s2.heap wq2 [8] ∧
        isQueue s2.heap s2.ready_queue ([] ++ [6]) ∧
        s2.locks = cv_two_waiting.locks ∧ s2.running_thread = cv_two_waiting.running_thread ∧
        s2.exit_queue = cv_two_waiting.exit_queue) ∧
      (∃ s2, cv_broadcast cv_two_waiting (some 4) (some 2) = some (.ret s2 0) ∧
        s2.wqs 5 = some empty_queue ∧
        isQueue s2.heap s2.ready_queue ([] ++ [6, 8]) ∧
        s2.locks = cv_two_waiting.locks ∧ s2.running_thread = cv_two_waiting.running_thread ∧
        s2.exit_queue = cv_two_waiting.exit_queue)) ∧
    (cv_signal (cv_create (lock_create (thread_init none)).state).state (some 4) (some 2)
        = some (.ret (cv_create (lock_create (thread_init none)).state).state 0) ∧
      cv_broadcast (cv_create (lock_create (thread_init none)).state).state (some 4) (some 2)
        = some (.ret (cv_create (lock_create (thread_init none)).state).state 0)) :=
  ⟨⟨((cv_signal_broadcast cv_two_waiting 4 2 { state := 1, wait_queue := 3 }
        { wait_queue := 5 } rfl rfl).1 rfl _ [6, 8] [] rfl cv_two_waiting_queue
        ⟨rfl, rfl, rfl, by decide⟩ (by simp) cv_two_waiting_bound).2.1 6 [8] rfl,
      ((cv_signal_broadcast cv_two_waiting 4 2 { state := 1, wait_queue := 3 }
        { wait_queue := 5 } rfl rfl).1 rfl _ [6, 8] [] rfl cv_two_waiting_queue
        ⟨rfl, rfl, rfl, by decide⟩ (by simp) cv_two_waiting_bound).2.2⟩,
    (cv_signal_broadcast (cv_create (lock_create (thread_init none)).state).state 4 2
      { state := 0, wait_queue := 3 } { wait_queue := 5 } rfl rfl).2 (by decide)⟩

/-- C24 as stated fails: the first thread creates a lock (address 2) and a
condition variable (address 4, wait queue at address 5) and acquires the lock,
which gives the state `s1`; no other thread exists.  It calls `cv_signal` while
nobody waits, which returns in the state `s1`.  Its later `cv_wait` does not
block: it returns at once, the caller is still the running thread with status
`RUNNING`, the wait set of the condition variable is still empty and the lock
is held, although no `cv_signal` or `cv_broadcast` followed. -/
theorem cv_wait_returns_unsignalled :
    ∃ s1, lock_acquire (cv_create (lock_create (thread_init none)).state).state (some 2)
        = some (.ret s1 0) ∧
      cv_signal s1 (some 4) (some 2) = some (.ret s1 0) ∧
      (cv_wait s1 (some 4) (some 2)).map (fun r3 =>
        (r3.outcome, r3.state.running_thread, (r3.state.heap 0).map fun t => t.status,
          r3.state.wqs 5, r3.state.locks 2))
        = some (.returned 0, some 0, some RUNNING, some empty_queue,
            some { state := 1, wait_queue := 3 }) :=
  ⟨_, rfl, rfl, rfl⟩


/-- C24, amended: for a lock and a condition variable of a state `s`.  While the
wait set of the condition variable is empty, `cv_signal` and `cv_broadcast`
return in the state `s` itself: they leave no trace.  A `cv_wait` with the lock
held, in a state that satisfies `Sched`, in which the wait sets of the lock
(`Wl`) and of the condition variable (`Wc`) are well-formed and disjoint and in
which some thread is ready or blocked on the lock, blocks: it ends in a switch
to another thread `r`, with the caller `p`, with status `BLOCKED`, at the tail
of the wait set of the condition variable and not in the ready set.  In a later
state in which the lock is held and that wait set holds `p :: W3`, `cv_signal`
moves `p` to the tail of the ready set, and in one in which it holds `W3` with
`p` in it, `cv_broadcast` moves `p` to the ready set with all of `W3`.  When no
thread is ready and none is blocked on the lock, `cv_wait` with the lock held
does not block: it returns at once, with the lock held, the caller running and
the wait sets unchanged. -/
theorem cv_signal_then_wait (s : State) (cp l : Nat) (lk : lock_t) (cvv : cv_t)
    (hl : s.locks l = some lk) (hcv : s.cvs cp = some cvv) :
    (∀ cq : queue_t, s.wqs cvv.wait_queue = some cq → cq.head = none →
      cv_signal s (some cp) (some l) = some (.ret s 0) ∧
      cv_broadcast s (some cp) (some l) = some (.ret s 0)) ∧
    (lk.state = 1 → ∀ (p r : Nat) (R Z Wl Wc T : List Nat) (c : tcb_t), Sched s p R Z →
      WaitSet s p R Z lk.wait_queue Wl → WaitSet s p R Z cvv.wait_queue Wc →
      lk.wait_queue ≠ cvv.wait_queue → (∀ a ∈ Wl, a ∉ Wc) → s.heap p = some c →
      R ++ Wl = r :: T →
      ∃ s2 wq2, cv_wait s (some cp) (some l) = some (.switch s2) ∧
        s2.wqs cvv.wait_queue = some wq2 ∧
        isQueue s2.heap wq2 (Wc ++ [p]) ∧
        (s2.heap p).map (fun t => t.status) = some BLOCKED ∧
        s2.running_thread = some r ∧ r ≠ p ∧
        isQueue s2.heap s2.ready_queue T ∧ p ∉ T) ∧
    (∀ (s3 : State) (lk3 : lock_t) (cq3 : queue_t) (p : Nat) (W3 R3 : List Nat),
      s3.locks l = some lk3 → lk3.state = 1 → s3.cvs cp = some cvv →
      s3.wqs cvv.wait_queue = some cq3 → isQueue s3.heap s3.ready_queue R3 →
      (isQueue s3.heap cq3 (p :: W3) → (∀ b ∈ p :: W3, b ∉ R3) →
        ∃ s4 wq4, cv_signal s3 (some cp) (some l) = some (.ret s4 0) ∧
          s4.wqs cvv.wait_queue = some wq4 ∧ isQueue s4.heap wq4 W3 ∧ p ∉ W3 ∧
          isQueue s4.heap s4.ready_queue (R3 ++ [p])) ∧
      (isQueue s3.heap cq3 W3 → p ∈ W3 → (∀ b ∈ W3, b ∉ R3) →
        (∀ a t, s3.heap a = some t → a < s3.brk) →
        ∃ s4, cv_broadcast s3 (some cp) (some l) = some (.ret s4 0) ∧
          s4.wqs cvv.wait_queue = some empty_queue ∧
          isQueue s4.heap s4.ready_queue (R3 ++ W3) ∧ p ∈ R3 ++ W3)) ∧
    (lk.state = 1 → ∀ lq : queue_t, s.wqs lk.wait_queue = some lq → lq.head = none →
      s.ready_queue.head = none →
      ∃ s2, cv_wait s (some cp) (some l) = some (.ret s2 0) ∧
        s2.locks l = some { lk with state := 1 } ∧
        s2.running_thread = s.running_thread ∧ s2.heap = s.heap ∧ s2.wqs = s.wqs ∧
        s2.ready_queue = s.ready_queue) := by
  refine ⟨?_, ?_, ?_, ?_⟩
  · intro cq hcq hh
    have hwk0 := thread_wakeup_empty (s := interrupts_off s) 0 hcq hh
    have hwk1 := thread_wakeup_empty (s := interrupts_off s) 1 hcq hh
    by_cases h1 : lk.state = 1
    · refine ⟨?_, ?_⟩
      · simp only [cv_signal, interrupts_off_locks, hl, Option.bind_eq_bind, Option.some_bind,
          h1, if_true, interrupts_off_cvs, hcv, hwk0]
        rfl
      · simp only [cv_broadcast, interrupts_off_locks, hl, Option.bind_eq_bind,
          Option.some_bind, h1, if_true, interrupts_off_cvs, hcv, hwk1]
        rfl
    · refine ⟨?_, ?_⟩
      · simp only [cv_signal, interrupts_off_locks, hl, Option.bind_eq_bind, Option.some_bind,
          h1, if_false]
        rfl
      · simp only [cv_broadcast, interrupts_off_locks, hl, Option.bind_eq_bind,
          Option.some_bind, h1, if_false]
        rfl
  · intro h1 p r R Z Wl Wc T c hs hwl hwc hne hdis hc hrt
    obtain ⟨s2, wq2, h2, _, h4, h5, h6, h7, h8, _⟩ :=
      cv_wait_blocks_spec s cp l lk cvv p r R Z Wl Wc T c hl hcv h1 hs hwl hwc hne hdis hc hrt
    have hrRW : r ∈ R ++ Wl := by rw [hrt]; exact List.mem_cons_self r T
    have hpRW : p ∉ R ++ Wl := by
      intro hm
      rcases List.mem_append.1 hm with h | h
      · exact hs.not_ready h
      · exact hwl.not_running h
    have hrp : r ≠ p := by
      rintro rfl
      exact hpRW hrRW
    have hpT : p ∉ T := by
      intro hm
      apply hpRW
      rw [hrt]
      exact List.mem_cons_of_mem r hm
    exact ⟨s2, wq2, h2, h4, h5, by rw [h6]; rfl, h7, hrp, h8, hpT⟩
  · intro s3 lk3 cq3 p W3 R3 hl3 h13 hcv3 hcq3 hR3
    refine ⟨?_, ?_⟩
    · intro hW3 hd3
      obtain ⟨t, h2, wq2, q2, _, hwk, hW2, hR2, _⟩ :=
        thread_wakeup_one_spec (s := interrupts_off s3) hcq3 hW3 hR3 hd3
      have hcall : cv_signal s3 (some cp) (some l) = some (.ret
          { s3 with
            heap := h2
            wqs := Function.update s3.wqs cvv.wait_queue (some wq2)
            ready_queue := q2 } 0) := by
        simp only [cv_signal, interrupts_off_locks, hl3, Option.bind_eq_bind, Option.some_bind,
          h13, if_true, interrupts_off_cvs, hcv3, hwk]
        rfl
      exact ⟨_, wq2, hcall, Function.update_same _ _ _, hW2, (List.nodup_cons.1 hW3.nodup).1,
        hR2⟩
    · intro hW3 hp3 hd3 hb3
      obtain ⟨h2, q2, hwk, hq2, _⟩ :=
        thread_wakeup_all_spec (s := interrupts_off s3) hcq3 hW3 hR3 hd3 hb3
      have hcall : cv_broadcast s3 (some cp) (some l) = some (.ret
          { s3 with
            heap := h2
            wqs := Function.update s3.wqs cvv.wait_queue (some empty_queue)
            ready_queue := q2 } 0) := by
        simp only [cv_broadcast, interrupts_off_locks, hl3, Option.bind_eq_bind,
          Option.some_bind, h13, if_true, interrupts_off_cvs, hcv3, hwk]
        rfl
      exact ⟨_, hcall, Function.update_same _ _ _, hq2, List.mem_append_right R3 hp3⟩
  · intro h1 lq hlq hlh hrh
    exact ⟨_, cv_wait_nothing_ready s cp l lk cvv lq hl hcv h1 hlq hlh hrh,
      Function.update_same _ _ _, rfl, rfl, rfl, rfl⟩

/-- Witness of C24, amended: in the state `holder_running` nobody waits on the
condition variable: `cv_signal` and `cv_broadcast` leave no trace, and `cv_wait`
by the running thread, which holds the lock while two threads are ready,
blocks. -/
theorem cv_signal_then_wait_witness :
    (cv_signal holder_running (some 4) (some 2) = some (.ret holder_running 0) ∧
      cv_broadcast holder_running (some 4) (some 2) = some (.ret holder_running 0)) ∧
    ∃ s2 wq2, cv_wait holder_running (some 4) (some 2) = some (.switch s2) ∧
      s2.wqs 5 = some wq2 ∧
      isQueue s2.heap wq2 ([] ++ [6]) ∧
      (s2.heap 6).map (fun t => t.status) = some BLOCKED ∧
      s2.running_thread = some 8 ∧ 8 ≠ 6 ∧
      isQueue s2.heap s2.ready_queue [0] ∧ 6 ∉ [0] :=
  ⟨(cv_signal_then_wait holder_running 4 2 { state := 1, wait_queue := 3 }
      { wait_queue := 5 } rfl rfl).1 empty_queue rfl rfl,
    (cv_signal_then_wait holder_running 4 2 { state := 1, wait_queue := 3 }
      { wait_queue := 5 } rfl rfl).2.1 rfl 6 8 [8, 0] [] [] [] [0]
      { tid := 1, next := none, mycontext := .stub, status := RUNNING, wait_queue := 7 }
      holder_running_sched holder_running_lock_waitset holder_running_cv_waitset (by decide)
      (by simp) rfl rfl⟩

theorem init_with_zombie_summary : init_with_zombie.map summary = some (summary with_zombie) := by
  rfl

theorem init_killed_running_summary :
    init_killed_running.map summary = some (summary killed_running) := by
  rfl

theorem init_killed_alone_summary :
    init_killed_alone.map summary = some (summary killed_alone) := by
  rfl

/-- C25: in a state that satisfies `Sched` and whose running thread `p` has not
been killed (its status is not `EXITED`) and has a tid in the range of the slot
table, `thread_yield (THREAD_SELF)` and `thread_yield (t)` with `t` the tid of
the caller both return that tid without a switch, in the state `swept s Z`: the
state of the call with the zombies `Z` and their wait queues freed and the
zombie set empty.  The running thread, its block, the header of the ready set
and the sequence `R` it represents are those of the call, and so is every block
that is not a zombie. -/
theorem thread_yield_self_returns (MAX : Nat) (s : State) (p : Nat) (R Z : List Nat)
    (c : tcb_t) (hs : Sched s p R Z) (hc : s.heap p = some c) (hk : c.status ≠ EXITED)
    (h0 : 0 ≤ c.tid) (hmax : c.tid < MAX) :
    thread_yield MAX s THREAD_SELF = some (.ret (swept s Z) c.tid) ∧
    thread_yield MAX s c.tid = some (.ret (swept s Z) c.tid) ∧
    (swept s Z).running_thread = some p ∧
    (swept s Z).heap p = some c ∧
    (swept s Z).ready_queue = s.ready_queue ∧
    isQueue (swept s Z).heap (swept s Z).ready_queue R ∧
    isQueue (swept s Z).heap (swept s Z).exit_queue [] ∧
    (∀ a, a ∉ Z → (swept s Z).heap a = s.heap a) ∧
    (∀ a ∈ Z, (swept s Z).heap a = none) := by
  have hsw := swept_sched hs
  refine ⟨?_, ?_, hsw.running, ?_, rfl, hsw.ready, hsw.zombie,
    fun a ha => erase_list_not_mem ha, fun a ha => by simp [swept, erase_list, ha]⟩
  · rw [thread_yield_after_sweep MAX s THREAD_SELF p R Z c hs hc]
    simp [hk, THREAD_SELF, THREAD_ANY]
  · rw [thread_yield_after_sweep MAX s c.tid p R Z c hs hc]
    have h1 : ¬ c.tid < 0 := by omega
    have h2 : c.tid ≥ -1 := by omega
    have h3 : c.tid ≠ THREAD_ANY := by simp only [THREAD_ANY]; omega
    simp [hk, h1, h2, h3, hmax]
  · show erase_list s.heap Z p = some c
    rw [erase_list_not_mem hs.not_zombie, hc]

theorem with_zombie_sched : Sched with_zombie 4 [0] [2] where
  running := rfl
  alloc := ⟨_, rfl, rfl⟩
  ready := ⟨rfl, ⟨rfl, _, rfl, rfl⟩, rfl, by decide⟩
  zombie := ⟨rfl, ⟨rfl, _, rfl, rfl⟩, rfl, by decide⟩
  zok := ⟨by
    intro z hz
    have : z = 2 := by simpa using hz
    subst this
    exact ⟨_, rfl, rfl⟩, by decide⟩
  not_ready := by decide
  not_zombie := by decide
  disjoint := by decide
  bound := by
    intro a t h
    show a < 6
    simp only [with_zombie] at h
    split_ifs at h
    · omega
    · omega
    · omega

/-- Witness of C25: the thread with tid 2 yields to itself in the state
`with_zombie`, whose zombie set holds the thread at address 2. -/
theorem thread_yield_self_returns_witness :
    thread_yield 4 with_zombie THREAD_SELF = some (.ret (swept with_zombie [2]) 2) ∧
    thread_yield 4 with_zombie 2 = some (.ret (swept with_zombie [2]) 2) ∧
    (swept with_zombie [2]).running_thread = some 4 ∧
    (swept with_zombie [2]).heap 4 = some
      { tid := 2, next := none, mycontext := .stub, status := RUNNING, wait_queue := 5 } ∧
    (swept with_zombie [2]).ready_queue = with_zombie.ready_queue ∧
    isQueue (swept with_zombie [2]).heap (swept with_zombie [2]).ready_queue [0] ∧
    isQueue (swept with_zombie [2]).heap (swept with_zombie [2]).exit_queue [] ∧
    (∀ a, a ∉ [2] → (swept with_zombie [2]).heap a = with_zombie.heap a) ∧
    (∀ a ∈ [2], (swept with_zombie [2]).heap a = none) :=
  thread_yield_self_returns 4 with_zombie 4 [0] [2]
    { tid := 2, next := none, mycontext := .stub, status := RUNNING, wait_queue := 5 }
    with_zombie_sched rfl (by decide) (by decide) (by decide)

/-- C26: in a state that satisfies `Sched` with an empty ready set and whose
running thread `p` has not been killed, `thread_yield (THREAD_ANY)` returns
`THREAD_NONE` in the state `swept s Z`: the caller is still the running thread,
its block (hence its status, `RUNNING` if it was) is unchanged and the ready set
is still empty. -/
theorem thread_yield_any_none (MAX : Nat) (s : State) (p : Nat) (Z : List Nat) (c : tcb_t)
    (hs : Sched s p [] Z) (hc : s.heap p = some c) (hk : c.status ≠ EXITED) :
    thread_yield MAX s THREAD_ANY = some (.ret (swept s Z) THREAD_NONE) ∧
    (swept s Z).running_thread = some p ∧
    (swept s Z).heap p = some c ∧
    (swept s Z).ready_queue = s.ready_queue ∧
    isQueue (swept s Z).heap (swept s Z).ready_queue [] := by
  have hsw := swept_sched hs
  refine ⟨?_, hsw.running, ?_, rfl, hsw.ready⟩
  · rw [thread_yield_after_sweep MAX s THREAD_ANY p [] Z c hs hc]
    have hsz : s.ready_queue.size = 0 := by rw [hs.ready.size_eq]; rfl
    simp [hk, THREAD_ANY, hsz]
  · show erase_list s.heap Z p = some c
    rw [erase_list_not_mem hs.not_zombie, hc]

/-- Witness of C26: the running thread of the state `joined`, whose ready set is
empty, yields to any thread. -/
theorem thread_yield_any_none_witness :
    thread_yield 4 joined THREAD_ANY = some (.ret (swept joined []) THREAD_NONE) ∧
    (swept joined []).running_thread = some 2 ∧
    (swept joined []).heap 2 = some
      { tid := 1, next := none, mycontext := .stub, status := RUNNING, wait_queue := 3 } ∧
    (swept joined []).ready_queue = joined.ready_queue ∧
    isQueue (swept joined []).heap (swept joined []).ready_queue [] :=
  thread_yield_any_none 4 joined 2 []
    { tid := 1, next := none, mycontext := .stub, status := RUNNING, wait_queue := 3 }
    joined_sched rfl (by decide)

/-- C27 as stated fails: at the end of `init_killed_running` the running thread
(tid 0) has status `EXITED`; its call `thread_yield (100)`, with
`THREAD_MAX_THREADS = 4`, does not return `THREAD_INVALID`: it takes the exit
path, the slot of the caller is emptied and the thread at address 2 runs. -/
theorem thread_yield_invalid_by_killed :
    (init_killed_running.bind fun s =>
      (thread_yield 4 s 100).map fun r =>
        (s.running_thread, (s.heap 0).map fun t => t.status, walk s.heap 9 s.ready_queue.head,
          r.outcome, r.state.running_thread, walk r.state.heap 9 r.state.ready_queue.head,
          r.state.available_thr 0))
      = some (some 0, some EXITED, [2], .switched, some 2, [], none) := by
  rfl

/-- C27, amended: in a state that satisfies `Sched` and whose running thread has
not been killed, `thread_yield (t)` returns `THREAD_INVALID` when `t` is neither
`THREAD_SELF` nor `THREAD_ANY` nor in the range of the slot table, and when `t`
is in that range, is not the tid of the caller and its slot is empty.  It
returns in the state `swept s Z`: the running thread, its block, the header of
the ready set and the sequence `R` it represents are those of the call. -/
theorem thread_yield_invalid_target (MAX : Nat) (s : State) (t : Int) (p : Nat)
    (R Z : List Nat) (c : tcb_t) (hs : Sched s p R Z) (hc : s.heap p = some c)
    (hk : c.status ≠ EXITED)
    (ht : (t ≠ THREAD_SELF ∧ t ≠ THREAD_ANY ∧ ¬ (0 ≤ t ∧ t < MAX)) ∨
      (0 ≤ t ∧ t < MAX ∧ t ≠ c.tid ∧ s.available_thr t = none)) :
    thread_yield MAX s t = some (.ret (swept s Z) THREAD_INVALID) ∧
    (swept s Z).running_thread = some p ∧
    (swept s Z).heap p = some c ∧
    (swept s Z).ready_queue = s.ready_queue ∧
    isQueue (swept s Z).heap (swept s Z).ready_queue R := by
  have hsw := swept_sched hs
  refine ⟨?_, hsw.running, ?_, rfl, hsw.ready⟩
  · rw [thread_yield_after_sweep MAX s t p R Z c hs hc]
    rcases ht with ⟨h1, h2, h3⟩ | ⟨h1, h2, h3, h4⟩
    · have h5 : ¬ (t ≥ -1 ∧ t < MAX) := by
        simp only [THREAD_ANY] at h2
        intro h
        exact h3 ⟨by omega, h.2⟩
      simp [hk, h1, h2, h5]
    · have h5 : ¬ t < 0 := by omega
      have h6 : t ≥ -1 := by omega
      have h7 : t ≠ THREAD_ANY := by simp only [THREAD_ANY]; omega
      simp [hk, h5, h6, h2, h7, h3, h4]
  · show erase_list s.heap Z p = some c
    rw [erase_list_not_mem hs.not_zombie, hc]

/-- Witness of C27, amended: the running thread of the state `with_zombie`
yields to the tid 1, whose slot is empty since the thread with that tid has
exited. -/
theorem thread_yield_invalid_target_witness :
    thread_yield 4 with_zombie 1 = some (.ret (swept with_zombie [2]) THREAD_INVALID) ∧
    (swept with_zombie [2]).running_thread = some 4 ∧
    (swept with_zombie [2]).heap 4 = some
      { tid := 2, next := none, mycontext := .stub, status := RUNNING, wait_queue := 5 } ∧
    (swept with_zombie [2]).ready_queue = with_zombie.ready_queue ∧
    isQueue (swept with_zombie [2]).heap (swept with_zombie [2]).ready_queue [0] :=
  thread_yield_invalid_target 4 with_zombie 1 4 [0] [2]
    { tid := 2, next := none, mycontext := .stub, status := RUNNING, wait_queue := 5 }
    with_zombie_sched rfl (by decide)
    (Or.inr ⟨by decide, by decide, by decide, rfl⟩)

/-- C28, the code at the failing input: at the end of `init_one_blocked` the
first thread runs, the thread with tid 2 (address 5) is ready and the thread
with tid 1 (address 3) is blocked on the wait queue at address 2.  The call
`thread_yield (1)` by the first thread does not return `THREAD_INVALID`: it
switches to the blocked thread, which becomes the running thread with status
`RUNNING` while it is still in the wait queue; the ready set, which held the
thread at address 5, now holds only the caller, and the thread at address 5 is
in no queue.  The resumed thread returns from its `thread_sleep`. -/
theorem thread_yield_to_blocked :
    (init_one_blocked.bind fun s =>
      (thread_yield 4 s 1).bind fun r1 =>
      (resume r1.state).map fun r2 =>
        ((s.running_thread, (s.heap 3).map fun t => (t.tid, t.status), queues s),
          (r1.outcome, r1.state.running_thread,
            (r1.state.heap 3).map fun t => (t.tid, t.status), queues r1.state,
            (r1.state.heap 5).map fun t => (t.tid, t.status)),
          (r2.outcome, r2.state.running_thread)))
      = some ((some 0, some (1, BLOCKED),
            [5], [], [none, some [], some [3], none, some [], none, some [], none, none]),
          (.switched, some 3, some (1, RUNNING),
            ([0], [], [none, some [], some [3], none, some [], none, some [], none, none]),
            some (2, READY)),
          (.returned 1, some 3)) := by
  rfl

theorem killed_running_sched : Sched killed_running 0 [2] [] where
  running := rfl
  alloc := ⟨_, rfl, rfl⟩
  ready := ⟨rfl, ⟨rfl, _, rfl, rfl⟩, rfl, by decide⟩
  zombie := ⟨rfl, rfl, rfl, by decide⟩
  zok := ⟨by simp, by simp [wq_of]⟩
  not_ready := by decide
  not_zombie := by decide
  disjoint := by simp
  bound := by
    intro a t h
    show a < 4
    simp only [killed_running] at h
    split_ifs at h
    · omega
    · omega

theorem killed_running_joiners : Joiners killed_running 0 [2] [] [] where
  wait := ⟨_, _, rfl, rfl, ⟨rfl, rfl, rfl, by decide⟩⟩
  not_ready := by simp
  not_zombie := by simp
  not_running := by simp

theorem killed_alone_sched : Sched killed_alone 0 [] [] where
  running := rfl
  alloc := ⟨_, rfl, rfl⟩
  ready := ⟨rfl, rfl, rfl, by decide⟩
  zombie := ⟨rfl, rfl, rfl, by decide⟩
  zok := ⟨by simp, by simp [wq_of]⟩
  not_ready := by decide
  not_zombie := by decide
  disjoint := by simp
  bound := by
    intro a t h
    show a < 4
    simp only [killed_alone] at h
    split_ifs at h
    omega

theorem killed_alone_joiners : Joiners killed_alone 0 [] [] [] where
  wait := ⟨_, _, rfl, rfl, ⟨rfl, rfl, rfl, by decide⟩⟩
  not_ready := by simp
  not_zombie := by simp
  not_running := by simp

/-- C29: in a state that satisfies `Sched` and `Joiners` (no zombie shares the
wait queue of the running thread) and whose running thread `p` has status
`EXITED`, `thread_yield (t)` is, for every `t`, `thread_exit (0)` after the
sweep.  When the ready set `R` and the wait set `W` of the caller are not both
empty it ends in a switch, not in a return: the slot of the caller is empty, 0
is recorded for its tid, the head `r` of `R ++ W`, which is not `p`, runs, `p`
is not in the ready set, it is the only zombie, its saved context is the one of
`thread_exit`, and the next sweep frees it.  When both are empty the process
ends with status 0. -/
theorem thread_yield_killed_exits (MAX : Nat) (s : State) (t : Int) (p : Nat)
    (R Z W : List Nat) (c : tcb_t) (hs : Sched s p R Z) (hj : Joiners s p R Z W)
    (hc : s.heap p = some c) (hk : c.status = EXITED)
    (hwz : c.wait_queue ∉ wq_of s.heap Z) :
    thread_yield MAX s t = thread_exit (interrupts_off (swept s Z)) 0 ∧
    (∀ (r : Nat) (T : List Nat), R ++ W = r :: T →
      ∃ s2, thread_yield MAX s t = some (.switch s2) ∧
        s2.available_thr c.tid = none ∧
        s2.exit_code_array c.tid = 0 ∧
        s2.running_thread = some r ∧ r ≠ p ∧
        isQueue s2.heap s2.ready_queue T ∧ p ∉ T ∧
        isQueue s2.heap s2.exit_queue [p] ∧
        s2.heap p = some { c with status := EXITED, mycontext := .exit false 0 } ∧
        ∃ s3, sweep s2 = some s3 ∧ s3.heap p = none ∧ s3.running_thread = some r) ∧
    (R = [] → W = [] → ∃ s2, thread_yield MAX s t = some (.exit s2 0)) := by
  have hy : thread_yield MAX s t = thread_exit (interrupts_off (swept s Z)) 0 := by
    rw [thread_yield_after_sweep MAX s t p R Z c hs hc, if_pos hk]
  have hs1 : Sched (interrupts_off (swept s Z)) p R [] := sched_interrupts_off (swept_sched hs)
  have hj0 := swept_joiners hs hj hc hwz
  have hj1 : Joiners (interrupts_off (swept s Z)) p R [] W :=
    ⟨hj0.wait, hj0.not_ready, hj0.not_zombie, hj0.not_running⟩
  have hc1 : (interrupts_off (swept s Z)).heap p = some c := by
    show erase_list s.heap Z p = some c
    rw [erase_list_not_mem hs.not_zombie, hc]
  refine ⟨hy, ?_, ?_⟩
  · intro r T hne
    obtain ⟨s2, h1, h2, h3, h4, h5, h6, h7, h8, _, _, h11, _⟩ :=
      thread_exit_spec _ 0 p r R [] W T c hs1 hj1 hc1 hne
    have hrRW : r ∈ R ++ W := by rw [hne]; exact List.mem_cons_self r T
    have hpRW : p ∉ R ++ W := by
      intro hm
      rcases List.mem_append.1 hm with h | h
      · exact hs.not_ready h
      · exact hj.not_running h
    have hrp : r ≠ p := by
      rintro rfl
      exact hpRW hrRW
    have hpT : p ∉ T := by
      intro hm
      apply hpRW
      rw [hne]
      exact List.mem_cons_of_mem r hm
    have hp1 : 1 ≤ s2.brk := by
      rw [h11]
      have := hs.bound p c hc
      show 1 ≤ s.brk
      omega
    have hok : zombies_ok s2.heap s2.wqs [p] := by
      refine ⟨?_, ?_⟩
      · intro z hz
        have : z = p := by simpa using hz
        subst this
        exact ⟨_, h5, h8⟩
      · simp [wq_of, h5]
    have hfree := free_queue_spec [p] s2.brk s2.heap s2.wqs s2.exit_queue hp1 h4 hok
    refine ⟨s2, hy.trans h1, h6, h7, h2, hrp, h3, hpT, h4, h5, ?_⟩
    refine ⟨{ s2 with
      heap := erase_list s2.heap [p]
      wqs := erase_list s2.wqs (wq_of s2.heap [p])
      exit_queue := empty_queue }, ?_, ?_, h2⟩
    · simp [sweep, hfree]
    · simp [erase_list]
  · intro hR hW
    subst hR
    subst hW
    obtain ⟨s2, h1⟩ := thread_exit_last _ 0 p [] c hs1 hj1 hc1 (by simp [wq_of])
    exact ⟨s2, hy.trans h1⟩

/-- Witness of C29: the killed running thread of the state `killed_running`,
with one ready thread, and of the state `killed_alone`, with none. -/
theorem thread_yield_killed_exits_witness :
    (∃ s2, thread_yield 4 killed_running THREAD_ANY = some (.switch s2) ∧
      s2.available_thr 0 = none ∧
      s2.exit_code_array 0 = 0 ∧
      s2.running_thread = some 2 ∧ 2 ≠ 0 ∧
      isQueue s2.heap s2.ready_queue [] ∧ 0 ∉ ([] : List Nat) ∧
      isQueue s2.heap s2.exit_queue [0] ∧
      s2.heap 0 = some
        { tid := 0, next := none, mycontext := .exit false 0, status := EXITED,
          wait_queue := 1 } ∧
      ∃ s3, sweep s2 = some s3 ∧ s3.heap 0 = none ∧ s3.running_thread = some 2) ∧
    ∃ s2, thread_yield 4 killed_alone THREAD_SELF = some (.exit s2 0) :=
  ⟨(thread_yield_killed_exits 4 killed_running THREAD_ANY 0 [2] [] []
      { tid := 0, next := none, mycontext := .yield true 1, status := EXITED, wait_queue := 1 }
      killed_running_sched killed_running_joiners rfl rfl (by simp [wq_of])).2.1 2 [] rfl,
    (thread_yield_killed_exits 4 killed_alone THREAD_SELF 0 [] [] []
      { tid := 0, next := none, mycontext := .yield true 1, status := EXITED, wait_queue := 1 }
      killed_alone_sched killed_alone_joiners rfl rfl (by simp [wq_of])).2.2 rfl rfl⟩

/-- C30, the code at the failing input: after `thread_init`, two creates and
`thread_yield (2)` by the first thread, the running thread (tid 2, at address
4) is in the ready set, at its head, and the live thread with tid 1 (address 2,
status `READY`, slot 1) is in no queue: neither in the ready set, nor in the
zombie set, nor in a wait queue. -/
theorem running_thread_in_ready_set :
    ((init_two 4).bind fun s =>
      (thread_yield 4 s 2).map fun r =>
        (queues s, r.outcome, r.state.running_thread, queues r.state,
          (r.state.heap 2).map fun t => (t.tid, t.status), r.state.available_thr 1))
      = some (([2, 4], [], [none, some [], none, some [], none, some [], none, none, none]),
          .switched, some 4,
          ([4, 0], [], [none, some [], none, some [], none, some [], none, none, none]),
          some (1, READY), some 2) := by
  rfl

/-! ## Reachable states, the preemption mask and the queue primitive -/

theorem links_only_refl (h : Heap) : links_only h h := fun _ => rfl

theorem links_only_trans {h1 h2 h3 : Heap} (h12 : links_only h1 h2) (h23 : links_only h2 h3) :
    links_only h1 h3 := fun a => (h23 a).trans (h12 a)

theorem links_only_update {h : Heap} {a : Nat} {t : tcb_t} (nx : Option Nat)
    (ht : h a = some t) : links_only h (Function.update h a (some { t with next := nx })) := by
  intro b
  by_cases hb : b = a
  · subst hb; simp [ht, tcb_t.fields]
  · simp [Function.update, hb]

theorem links_only_alloc {h h2 : Heap} (hl : links_only h h2) {a : Nat} {t : tcb_t}
    (ht : h a = some t) : ∃ t2, h2 a = some t2 ∧ t2.fields = t.fields := by
  have := hl a
  rw [ht] at this
  cases h2a : h2 a with
  | none => rw [h2a] at this; simp at this
  | some t2 => rw [h2a] at this; exact ⟨t2, rfl, by simpa using this⟩

theorem links_only_back {h h2 : Heap} (hl : links_only h h2) {a : Nat} {t2 : tcb_t}
    (ht : h2 a = some t2) : ∃ t, h a = some t ∧ t.fields = t2.fields := by
  have := hl a
  rw [ht] at this
  cases ha : h a with
  | none => rw [ha] at this; simp at this
  | some t => rw [ha] at this; exact ⟨t, rfl, by simpa using this.symm⟩

theorem links_or_freed_of_links_only {h h2 : Heap} (hl : links_only h h2) :
    links_or_freed h h2 := fun _ _ ht => links_only_back hl ht

theorem links_or_freed_refl (h : Heap) : links_or_freed h h := fun _ t ht => ⟨t, ht, rfl⟩

theorem links_or_freed_trans {h1 h2 h3 : Heap} (h12 : links_or_freed h1 h2)
    (h23 : links_or_freed h2 h3) : links_or_freed h1 h3 := by
  intro a t3 ht3
  obtain ⟨t2, ht2, e2⟩ := h23 a t3 ht3
  obtain ⟨t1, ht1, e1⟩ := h12 a t2 ht2
  exact ⟨t1, ht1, e1.trans e2⟩

theorem links_or_freed_free (h : Heap) (a : Nat) :
    links_or_freed h (Function.update h a none) := by
  intro b t hb
  by_cases hba : b = a
  · subst hba; simp at hb
  · rw [Function.update_noteq hba] at hb; exact ⟨t, hb, rfl⟩

theorem fields_status {t t2 : tcb_t} (h : t.fields = t2.fields) : t.status = t2.status := by
  simp only [tcb_t.fields, Prod.mk.injEq] at h; exact h.2.2.1

theorem fields_tid {t t2 : tcb_t} (h : t.fields = t2.fields) : t.tid = t2.tid := by
  simp only [tcb_t.fields, Prod.mk.injEq] at h; exact h.1

theorem fields_context {t t2 : tcb_t} (h : t.fields = t2.fields) :
    t.mycontext = t2.mycontext := by
  simp only [tcb_t.fields, Prod.mk.injEq] at h; exact h.2.1

theorem enqueue_links_only {h h2 : Heap} {q q2 : queue_t} {th : Option Nat}
    (he : enqueue h q th = some (h2, q2)) : links_only h h2 := by
  unfold enqueue at he
  split at he
  · simp at he; rw [← he.1]; exact links_only_refl h
  · cases htl : q.tail with
    | none => simp [htl] at he
    | some tl =>
      cases ht : h tl with
      | none => simp [htl, ht] at he
      | some t =>
        simp [htl, ht] at he
        rw [← he.1]
        exact links_only_update _ ht

theorem dequeue_scan_links_only {h : Heap} {q : queue_t} {th : Option Nat} :
    ∀ (n : Nat) (c prev : Option Nat) {h2 : Heap} {q2 : queue_t},
      dequeue_scan h q th n c prev = some (h2, q2) → links_only h h2
  | _, none, _, h2, q2, he => by
    cases ‹Nat› <;> simp [dequeue_scan] at he <;> (rw [← he.1]; exact links_only_refl h)
  | 0, some _, _, _, _, he => by simp [dequeue_scan] at he
  | n + 1, some c, prev, h2, q2, he => by
    simp only [dequeue_scan] at he
    cases hc : h c with
    | none => simp [hc] at he
    | some ct =>
      cases hth : th.bind h with
      | none => simp [hc, hth] at he
      | some tt =>
        simp only [hc, hth, Option.bind_eq_bind, Option.some_bind] at he
        split at he
        · split at he
          · simp at he; rw [← he.1]; exact links_only_refl h
          · split at he
            · cases prev with
              | none => simp at he
              | some p =>
                cases hp : h p with
                | none => simp [hp] at he
                | some pt =>
                  simp [hp] at he
                  rw [← he.1]; exact links_only_update _ hp
            · cases prev with
              | none => simp at he
              | some p =>
                cases hp : h p with
                | none => simp [hp] at he
                | some pt =>
                  simp [hp] at he
                  rw [← he.1]; exact links_only_update _ hp
        · exact dequeue_scan_links_only n ct.next (some c) he

/-- The part of `dequeue` before the final `thread->next = NULL; queue->size--`. -/
theorem dequeue_eq (fuel : Nat) (h : Heap) (q : queue_t) (th : Option Nat) :
    dequeue fuel h q th =
      (if q.size = 1 then some (h, { q with head := none, tail := none })
        else if q.size = 2 then
          if q.head = th then (th.bind h).bind fun t =>
            some (h, { q with head := t.next, tail := t.next })
          else some (h, { q with head := th, tail := th })
        else dequeue_scan h q th fuel q.head none).bind fun y =>
        th.bind fun p => (y.1 p).bind fun t =>
          some (Function.update y.1 p (some { t with next := none }),
            { y.2 with size := y.2.size - 1 }) := by
  unfold dequeue
  split_ifs
  · rfl
  · generalize th.bind h = o
    cases o <;> rfl
  · rfl
  · rfl

theorem dequeue_links_only {h h2 : Heap} {q q2 : queue_t} {th : Option Nat} {fuel : Nat}
    (he : dequeue fuel h q th = some (h2, q2)) : links_only h h2 := by
  rw [dequeue_eq] at he
  simp only [Option.bind_eq_some] at he
  obtain ⟨⟨h1, q1⟩, h1e, p, hp, t, ht, he2⟩ := he
  simp at he2
  have h01 : links_only h h1 := by
    split at h1e
    · simp at h1e; rw [← h1e.1]; exact links_only_refl h
    · split at h1e
      · split at h1e
        · simp only [Option.bind_eq_some] at h1e
          obtain ⟨_, _, h1e⟩ := h1e
          simp at h1e; rw [← h1e.1]; exact links_only_refl h
        · simp at h1e; rw [← h1e.1]; exact links_only_refl h
      · exact dequeue_scan_links_only _ _ _ h1e
  rw [← he2.1]
  exact links_only_trans h01 (links_only_update _ ht)

theorem free_queue_links_or_freed :
    ∀ (n : Nat) (h : Heap) (w : WQs) (q : queue_t) {h2 : Heap} {w2 : WQs} {q2 : queue_t},
      free_queue n h w q = some (h2, w2, q2) → links_or_freed h h2
  | 0, _, _, _, _, _, _, he => by simp [free_queue] at he
  | n + 1, h, w, q, h2, w2, q2, he => by
    simp only [free_queue] at he
    cases hh : q.head with
    | none => simp [hh] at he; rw [← he.1]; exact links_or_freed_refl h
    | some c =>
      simp only [hh, Option.bind_eq_bind, Option.bind_eq_some] at he
      obtain ⟨⟨h1, q1⟩, hd, t, ht, wq, hwq, he⟩ := he
      simp only at he ht
      split at he
      · simp at he
      · simp only [Option.bind_eq_some] at he
        obtain ⟨⟨h3, w3, q3⟩, hf1, hf2⟩ := he
        have a1 := links_or_freed_of_links_only (dequeue_links_only hd)
        have a2 := free_queue_links_or_freed n h1 w wq hf1
        have a3 := free_queue_links_or_freed n _ _ q1 hf2
        exact links_or_freed_trans a1
          (links_or_freed_trans a2 (links_or_freed_trans (links_or_freed_free h3 c) a3))

theorem running_within_links {h h2 : Heap} {X : Nat → Prop} (hx : running_within h X)
    (hl : links_or_freed h h2) : running_within h2 X := by
  intro a t2 ht2 hs
  obtain ⟨t, ht, e⟩ := hl a t2 ht2
  exact hx a t ht ((fields_status e).trans hs)

theorem running_within_update {h : Heap} {X : Nat → Prop} (b : Nat) (o : Option tcb_t)
    (hx : running_within h X) (ho : ∀ t, o = some t → t.status ≠ RUNNING) :
    running_within (Function.update h b o) X := by
  intro a t ht hs
  by_cases ha : a = b
  · subst ha
    rw [Function.update_same] at ht
    exact absurd hs (ho t ht)
  · rw [Function.update_noteq ha] at ht
    exact hx a t ht hs

theorem running_is_current_iff (s : State) :
    running_is_current s ↔ running_within s.heap fun a => s.running_thread = some a :=
  Iff.rfl

theorem wakeup_loop_running (all : Int) (w : Nat) (X : Nat → Prop) :
    ∀ (n : Nat) (s : State) (c : Option Nat) (k : Int) (s1 : State) (m : Int),
      wakeup_loop all w n s c k = some (s1, m) → running_within s.heap X →
      running_within s1.heap X ∧ s1.running_thread = s.running_thread ∧
        s1.interrupts = s.interrupts
  | n, s, none, k, s1, m, he, hx => by
    cases n <;> simp [wakeup_loop] at he <;> (obtain ⟨rfl, _⟩ := he; exact ⟨hx, rfl, rfl⟩)
  | 0, s, some c, k, s1, m, he, hx => by simp [wakeup_loop] at he
  | n + 1, s, some c, k, s1, m, he, hx => by
    simp only [wakeup_loop, Option.bind_eq_bind, Option.bind_eq_some] at he
    obtain ⟨t, ht, wq, hwq, ⟨h1, wq1⟩, hd, ⟨h2, rq⟩, hen, t2, ht2, he⟩ := he
    simp only at hen ht2 he
    have hx2 : running_within h2 X :=
      running_within_links hx (links_or_freed_of_links_only
        (links_only_trans (dequeue_links_only hd) (enqueue_links_only hen)))
    have hx3 : running_within (if t2.status ≠ EXITED then
        Function.update h2 c (some { t2 with status := READY }) else h2) X := by
      split
      · exact running_within_update _ _ hx2 (by rintro _ ⟨rfl⟩; show READY ≠ RUNNING; decide)
      · exact hx2
    split at he
    · simp only [Option.some.injEq, Prod.mk.injEq] at he
      obtain ⟨rfl, _⟩ := he
      exact ⟨hx3, rfl, rfl⟩
    · have := wakeup_loop_running all w X n _ _ _ _ _ he hx3
      exact this

theorem thread_wakeup_running {s s1 : State} {queue : Option Nat} {all m : Int}
    {X : Nat → Prop} (he : thread_wakeup s queue all = some (s1, m))
    (hx : running_within s.heap X) :
    running_within s1.heap X ∧ s1.running_thread = s.running_thread ∧
      s1.interrupts = s.interrupts := by
  cases queue with
  | none =>
    simp only [thread_wakeup, Option.some.injEq, Prod.mk.injEq] at he
    obtain ⟨rfl, _⟩ := he
    exact ⟨hx, rfl, rfl⟩
  | some w =>
    simp only [thread_wakeup, Option.bind_eq_bind, Option.bind_eq_some] at he
    obtain ⟨wq, _, ⟨s2, k⟩, hl, he⟩ := he
    simp only [Option.some.injEq, Prod.mk.injEq] at he
    obtain ⟨rfl, _⟩ := he
    obtain ⟨a, b, _⟩ := wakeup_loop_running all w X _ _ _ _ _ _ hl hx
    exact ⟨a, b, rfl⟩

theorem sweep_links {s s1 : State} (he : sweep s = some s1) :
    links_or_freed s.heap s1.heap ∧ s1.running_thread = s.running_thread ∧
      s1.interrupts = s.interrupts := by
  simp only [sweep, Option.bind_eq_bind, Option.bind_eq_some] at he
  obtain ⟨⟨h, w, q⟩, hf, he⟩ := he
  simp only [Option.some.injEq] at he
  subst he
  exact ⟨free_queue_links_or_freed _ _ _ _ hf, rfl, rfl⟩

theorem wait_queue_destroy_links {n : Nat} {h h1 : Heap} {w w1 : WQs} {wq : Nat}
    (he : wait_queue_destroy n h w wq = some (h1, w1)) : links_or_freed h h1 := by
  simp only [wait_queue_destroy, Option.bind_eq_bind, Option.bind_eq_some] at he
  obtain ⟨q, _, he⟩ := he
  split at he
  · simp at he
  · simp only [Option.bind_eq_some] at he
    obtain ⟨⟨h2, w2, q2⟩, hf, he⟩ := he
    simp only [Option.some.injEq, Prod.mk.injEq] at he
    obtain ⟨rfl, _⟩ := he
    exact free_queue_links_or_freed _ _ _ _ hf

/-- C31 fails in the code: after `thread_init`, two calls of `thread_create`
and `thread_yield (2)`, the thread with tid 2 (at address 4) runs while it is
still in the ready set, at its head; its `thread_exit (5)` puts it into the
zombie set and switches to the head of the ready set, which is this thread
itself.  In the state reached the running thread is the only zombie, and the
sweep that the resumed context runs frees the block of the running thread. -/
theorem sweep_frees_running_thread :
    ∃ r, trace 4 (.ret (thread_init none) 0) exit_after_yield_to_second = some r ∧
      r.outcome = .switched ∧
      r.state.running_thread = some 4 ∧
      r.state.exit_queue = { head := some 4, tail := some 4, size := 1 } ∧
      (r.state.heap 4).map (fun t => (t.tid, t.status, t.mycontext))
        = some (2, EXITED, .exit true 5) ∧
      (sweep r.state).map (fun s => (s.running_thread, s.heap 4, s.exit_queue))
        = some (some 4, none, empty_queue) ∧
      (resume r.state).map (fun r2 => (r2.outcome, r2.state.running_thread, r2.state.heap 4))
        = some (.exited 5, some 4, none) :=
  ⟨_, rfl, rfl, rfl, rfl, rfl, rfl, rfl⟩

/-- C33 fails in the code: the steps `yield_to_sleeper`, in which the first
thread calls `thread_yield (1)` while the thread with tid 1 is blocked, end in
a state in which slot 1 of the slot table holds the address 11 of a block that
has been freed.  The thread with tid 1 exits while it is in the ready set, so
it is in the ready set and in the zombie set at once; the next `thread_create`
reuses tid 1 and links the new thread (at address 11) behind it, and the sweep
of the zombie set frees the new thread with it. -/
theorem slot_of_freed_thread :
    ∃ r, trace 5 (.ret (thread_init none) 0) yield_to_sleeper = some r ∧
      r.outcome = .returned 3 ∧
      r.state.running_thread = some 7 ∧
      r.state.available_thr 1 = some 11 ∧
      r.state.heap 11 = none ∧
      r.state.ready_queue = { head := some 9, tail := some 11, size := 3 } :=
  ⟨_, rfl, rfl, rfl, rfl, rfl, rfl⟩

/-- C34 fails in the code: after `thread_init`, `wait_queue_create`, two calls
of `thread_create` and `thread_kill (1)`, the thread with tid 1 (at address 3)
is at the head of the ready set with status `EXITED`; `thread_sleep` by the
first thread switches to it and sets its status to `RUNNING`. -/
theorem thread_sleep_revives_killed :
    ∃ r r2, trace 4 (.ret (thread_init none) 0) kill_the_head = some r ∧
      r.outcome = .returned 1 ∧
      (r.state.heap 3).map (fun t => (t.tid, t.status)) = some (1, EXITED) ∧
      r.state.ready_queue = { head := some 3, tail := some 5, size := 2 } ∧
      thread_sleep r.state (some 2) .app = some r2 ∧
      r2.outcome = .switched ∧
      r2.state.running_thread = some 3 ∧
      (r2.state.heap 3).map (fun t => (t.tid, t.status)) = some (1, RUNNING) :=
  ⟨_, _, rfl, rfl, rfl, rfl, rfl, rfl, rfl, rfl⟩

theorem two_ready_queue : isQueue two_ready.heap two_ready.ready_queue [2, 4] :=
  ⟨rfl, ⟨rfl, _, rfl, rfl, _, rfl, rfl⟩, rfl, by decide⟩

/-- C36 fails in the code: in the state `two_ready` the ready queue is the
well-formed queue of the blocks 2 and 4, in this order, and `dequeue` of the
member 4 leaves the well-formed queue of the block 4 alone: the block 2, which
is not the one to remove, is dropped from the queue and the block 4 stays. -/
theorem dequeue_second_of_two :
    isQueue two_ready.heap two_ready.ready_queue [2, 4] ∧
    ∃ h q, dequeue 7 two_ready.heap two_ready.ready_queue (some 4) = some (h, q) ∧
      isQueue h q [4] ∧ q = { head := some 4, tail := some 4, size := 1 } :=
  ⟨two_ready_queue, _, _, rfl, ⟨rfl, ⟨rfl, _, rfl, rfl⟩, rfl, by decide⟩, rfl⟩

/-- C37 fails in the code: the steps `yield_to_lock_waiter`, in which the
holder of the lock calls `thread_yield (1)` while the thread with tid 1 is
blocked on the lock, end with `lock_release` in a state in which the lock is
free and the size of its wait queue is 2, with the thread with tid 2 (at
address 6) still blocked; `lock_destroy` on the free lock then has no defined
result: the assertion of `wait_queue_destroy` fails. -/
theorem lock_destroy_assertion_fails :
    ∃ r, trace 5 (.ret (thread_init none) 0) yield_to_lock_waiter = some r ∧
      r.outcome = .returned 0 ∧
      r.state.locks 2 = some { state := 0, wait_queue := 3 } ∧
      r.state.wqs 3 = some { head := none, tail := some 4, size := 2 } ∧
      (r.state.heap 6).map (fun t => (t.tid, t.status)) = some (2, BLOCKED) ∧
      lock_destroy r.state (some 2) = none :=
  ⟨_, rfl, rfl, rfl, rfl, rfl, rfl⟩

/-- C38: when the running thread calls `thread_wait (t, code)` for the tid `t`
of another thread whose slot is occupied and whose status is not `EXITED`,
while the ready set is empty, the call does not block: it returns
`THREAD_INVALID`, which is not `THREAD_NONE`, and the only change of the state
is that the cell `code` points to, if `code` is not `NULL`, holds the value
recorded in `exit_code_array` for `t`. -/
theorem thread_wait_nothing_ready (MAX : Nat) (s : State) (t : Int) (code : Option Nat)
    (ttid0 : Int) (p tp : Nat) (c tt : tcb_t)
    (hrun : s.running_thread = some p) (hc : s.heap p = some c) (hself : t ≠ c.tid)
    (h0 : 0 ≤ t) (hmax : t < MAX) (hslot : s.available_thr t = some tp)
    (htt : s.heap tp = some tt) (hlive : tt.status ≠ EXITED)
    (hempty : s.ready_queue.head = none) :
    thread_wait MAX s t code ttid0
        = some (.ret
            (match code with
              | some a => { s with mem := Function.update s.mem a (s.exit_code_array t) }
              | none => s)
            THREAD_INVALID) ∧
      THREAD_INVALID ≠ THREAD_NONE := by
  refine ⟨?_, by decide⟩
  have hge : ¬ t ≥ (MAX : Int) := not_le.2 hmax
  have hlt : ¬ t < 0 := not_lt.2 h0
  cases s
  cases code <;>
    simp_all [thread_wait, thread_sleep, thread_wait_tail, interrupts_off, interrupts_set,
      THREAD_NONE, THREAD_INVALID]

theorem thread_wait_nothing_ready_witness :
    thread_wait 4 one_blocked_none_ready 1 (some 0) 9
        = some (.ret
            { one_blocked_none_ready with
              mem := Function.update one_blocked_none_ready.mem 0 (one_blocked_none_ready.exit_code_array 1) }
            THREAD_INVALID) ∧
      THREAD_INVALID ≠ THREAD_NONE :=
  thread_wait_nothing_ready 4 one_blocked_none_ready 1 (some 0) 9 0 2
    { tid := 0, next := none, mycontext := .init, status := RUNNING, wait_queue := 1 }
    { tid := 1, next := none, mycontext := .stub, status := BLOCKED, wait_queue := 3 }
    rfl rfl (by decide) (by decide) (by decide) rfl rfl (by decide) rfl

/-- The two ways in which `thread_exit` ends: the process exits, or the caller
becomes a zombie and the head of the ready set runs. -/
theorem thread_exit_cases {s : State} {code : Int} {r : result}
    (he : thread_exit s code = some r) :
    (∃ rp rt h1 w1 h3 w3 rq h4 w4 eq,
      (interrupts_off s).running_thread = some rp ∧ (interrupts_off s).heap rp = some rt ∧
      wait_queue_destroy ((interrupts_off s).brk + 1) (interrupts_off s).heap
        (interrupts_off s).wqs rt.wait_queue = some (h1, w1) ∧
      free_queue ((interrupts_off s).brk + 1) (Function.update h1 rp none) w1
        (interrupts_off s).ready_queue = some (h3, w3, rq) ∧
      free_queue ((interrupts_off s).brk + 1) h3 w3 (interrupts_off s).exit_queue
        = some (h4, w4, eq) ∧
      r = .exit (interrupts_set
          { interrupts_off s with heap := h4, wqs := w4, ready_queue := rq, exit_queue := eq }
          s.interrupts) code) ∨
    ∃ rp rt s1 n rt1 h2 eq hd ht h4 rq,
      (interrupts_off s).running_thread = some rp ∧ (interrupts_off s).heap rp = some rt ∧
      thread_wakeup (interrupts_off s) (some rt.wait_queue) 1 = some (s1, n) ∧
      s1.heap rp = some rt1 ∧
      enqueue (Function.update s1.heap rp
          (some { rt1 with status := EXITED, mycontext := .exit s.interrupts code }))
        s1.exit_queue (some rp) = some (h2, eq) ∧
      s1.ready_queue.head = some hd ∧ h2 hd = some ht ∧
      dequeue (s1.brk + 1)
        (if ht.status ≠ EXITED then Function.update h2 hd (some { ht with status := RUNNING })
          else h2) s1.ready_queue (some hd) = some (h4, rq) ∧
      r = .switch
          { s1 with
            heap := h4
            running_thread := some hd
            ready_queue := rq
            exit_queue := eq
            available_thr := Function.update s1.available_thr rt1.tid none
            exit_code_array := Function.update s1.exit_code_array rt1.tid code } := by
  unfold thread_exit at he
  simp only [Option.bind_eq_bind] at he
  cases hrp : (interrupts_off s).running_thread with
  | none => simp only [hrp, Option.none_bind] at he; cases he
  | some rp =>
    cases hrt : (interrupts_off s).heap rp with
    | none => simp only [hrp, hrt, Option.some_bind, Option.none_bind] at he; cases he
    | some rt =>
      simp only [hrp, hrt, Option.some_bind] at he
      by_cases hsz : (interrupts_off s).ready_queue.size = 0
      · simp only [hsz, if_true] at he
        cases hwq : (interrupts_off s).wqs rt.wait_queue with
        | none => simp only [hwq, Option.none_bind] at he; cases he
        | some wq =>
          simp only [hwq, Option.some_bind] at he
          split at he
          · simp only [Option.bind_eq_some, Option.some.injEq] at he
            obtain ⟨⟨h1, w1⟩, hd, ⟨h3, w3, rq⟩, hf1, ⟨h4, w4, eq⟩, hf2, he⟩ := he
            exact Or.inl ⟨rp, rt, h1, w1, h3, w3, rq, h4, w4, eq, rfl, hrt, hd, hf1, hf2,
              he.symm.trans (by rw [← hrp])⟩
          · simp only [Option.bind_eq_some, Option.some.injEq] at he
            obtain ⟨⟨s1, n⟩, hw, rt1, hrt1, ⟨h2, eq⟩, hen, hd, hhd, ht, hht, ⟨h4, rq⟩, hdq, he⟩ := he
            exact Or.inr ⟨rp, rt, s1, n, rt1, h2, eq, hd, ht, h4, rq, rfl, hrt, hw, hrt1, hen, hhd,
              hht, hdq, he.symm⟩
      · simp only [hsz, if_false, Option.some_bind, Bool.false_eq_true] at he
        simp only [Option.bind_eq_some, Option.some.injEq] at he
        obtain ⟨⟨s1, n⟩, hw, rt1, hrt1, ⟨h2, eq⟩, hen, hd, hhd, ht, hht, ⟨h4, rq⟩, hdq, he⟩ := he
        exact Or.inr ⟨rp, rt, s1, n, rt1, h2, eq, hd, ht, h4, rq, rfl, hrt, hw, hrt1, hen, hhd,
          hht, hdq, he.symm⟩

theorem thread_exit_mask {s : State} {code : Int} {r : result}
    (he : thread_exit s code = some r) (e : Bool) : mask_ok e r := by
  rcases thread_exit_cases he with
    ⟨rp, rt, h1, w1, h3, w3, rq, h4, w4, eq, hrp, hrt, hd, hf1, hf2, rfl⟩ |
    ⟨rp, rt, s1, n, rt1, h2, eq, hd, ht, h4, rq, hrp, hrt, hw, hrt1, hen, hhd, hht, hdq, rfl⟩
  · trivial
  · exact (thread_wakeup_running (X := fun _ => True) hw (fun _ _ _ _ => trivial)).2.2

theorem thread_id_mask {s : State} {r : result} (he : thread_id s = some r) :
    mask_ok s.interrupts r := by
  unfold thread_id at he
  split at he
  · simp only [Option.bind_eq_bind, Option.bind_eq_some, Option.some.injEq] at he
    obtain ⟨_, _, rfl⟩ := he
    rfl
  · simp only [Option.some.injEq] at he
    subst he
    rfl

theorem thread_create_mask {MAX : Nat} {s : State} {ok : Bool} {r : result}
    (he : thread_create MAX s ok = some r) : mask_ok s.interrupts r := by
  unfold thread_create at he
  simp only at he
  split at he
  · simp only [Option.some.injEq] at he
    subst he
    rfl
  · split at he
    · split at he
      · simp at he
      · simp only [Option.some.injEq] at he
        subst he
        rfl
    · simp only [Option.bind_eq_bind, Option.bind_eq_some] at he
      obtain ⟨⟨h1, rq⟩, hen, t1, _, he⟩ := he
      simp only [Option.some.injEq] at he
      subst he
      rfl

theorem thread_kill_mask {MAX : Nat} {s : State} {tid : Int} {r : result}
    (he : thread_kill MAX s tid = some r) : mask_ok s.interrupts r := by
  have key : ∀ inv : Bool, (if inv then
        some (result.ret (interrupts_set (interrupts_off s) s.interrupts) THREAD_INVALID)
      else do
        let curr ← (interrupts_off s).available_thr tid
        let ct ← (interrupts_off s).heap curr
        some (.ret (interrupts_set
          { interrupts_off s with
            heap := Function.update (interrupts_off s).heap curr
              (some { ct with status := EXITED }) } s.interrupts) ct.tid)) = some r →
      mask_ok s.interrupts r := by
    intro inv he
    split at he
    · simp only [Option.some.injEq] at he
      subst he
      rfl
    · simp only [Option.bind_eq_bind, Option.bind_eq_some, Option.some.injEq] at he
      obtain ⟨curr, _, ct, _, rfl⟩ := he
      rfl
  unfold thread_kill at he
  by_cases hinv : tid < 0 ∨ tid ≥ (MAX : Int) ∨ (interrupts_off s).available_thr tid = none
  · simp only [hinv, if_true, Option.bind_eq_bind, Option.some_bind] at he
    exact key true he
  · simp only [hinv, if_false, Option.bind_eq_bind, Option.bind_eq_some] at he
    obtain ⟨rp, _, rt, _, inv, _, he⟩ := he
    exact key inv he

theorem yield_switch_mask {s : State} {enabled : Bool} {ready : Option Nat} {r : result}
    (he : yield_switch s enabled ready = some r) (hs : s.interrupts = false) (e : Bool) :
    mask_ok e r := by
  simp only [yield_switch, Option.bind_eq_bind, Option.bind_eq_some] at he
  obtain ⟨rp, hrp, ⟨h1, rq1⟩, hdq, ⟨h2, rq2⟩, hen, rt, hrt, np, hnp, nt, hnt, nt1, hnt1,
    ot, hot, he⟩ := he
  simp only [Option.some.injEq] at he
  subst he
  exact hs

theorem thread_yield_mask {MAX : Nat} {s : State} {want_tid : Int} {r : result}
    (he : thread_yield MAX s want_tid = some r) : mask_ok s.interrupts r := by
  simp only [thread_yield, Option.bind_eq_bind, Option.bind_eq_some] at he
  obtain ⟨s1, hsw, rp, hrp, rt, hrt, he⟩ := he
  have h1 : s1.interrupts = false := (sweep_links hsw).2.2
  split at he
  · exact thread_exit_mask he _
  · split at he
    · simp only [Option.some.injEq] at he; subst he; rfl
    · split at he
      · simp only [Option.some.injEq] at he; subst he; rfl
      · split at he
        · split at he
          · exact yield_switch_mask he h1 _
          · split at he
            · simp only [Option.some.injEq] at he; subst he; rfl
            · split at he
              · simp only [Option.some.injEq] at he; subst he; rfl
              · exact yield_switch_mask he h1 _
        · simp only [Option.some.injEq] at he; subst he; rfl

/-- The two ways in which `thread_sleep` ends: it returns at once, or the
caller blocks and the head of the ready set runs. -/
theorem thread_sleep_cases {s : State} {queue : Option Nat} {k : caller} {r : result}
    (he : thread_sleep s queue k = some r) :
    (∃ v, r = .ret (interrupts_set (interrupts_off s) s.interrupts) v) ∨
    ∃ w rp rt wq h1 wq1 hd ht h3 rq,
      queue = some w ∧ s.running_thread = some rp ∧ s.heap rp = some rt ∧ s.wqs w = some wq ∧
      enqueue (Function.update s.heap rp
          (some { rt with mycontext := .sleep s.interrupts k, status := BLOCKED })) wq (some rp)
        = some (h1, wq1) ∧
      s.ready_queue.head = some hd ∧ h1 hd = some ht ∧
      dequeue (s.brk + 1) (Function.update h1 hd (some { ht with status := RUNNING }))
        s.ready_queue (some hd) = some (h3, rq) ∧
      r = .switch
          { interrupts_off s with
            heap := h3
            wqs := Function.update s.wqs w (some wq1)
            running_thread := some hd
            ready_queue := rq } := by
  cases queue with
  | none =>
    simp only [thread_sleep, Option.some.injEq] at he
    exact Or.inl ⟨_, he.symm⟩
  | some w =>
    by_cases hh : (interrupts_off s).ready_queue.head = none
    · simp only [thread_sleep, hh, if_true, Option.some.injEq] at he
      exact Or.inl ⟨_, he.symm⟩
    · simp only [thread_sleep, hh, if_false, Option.bind_eq_bind, Option.bind_eq_some] at he
      obtain ⟨rp, hrp, rt, hrt, wq, hwq, ⟨h1, wq1⟩, hen, hd, hhd, ht, hht, ⟨h3, rq⟩, hdq, he⟩ := he
      simp only [Option.some.injEq] at he
      exact Or.inr ⟨w, rp, rt, wq, h1, wq1, hd, ht, h3, rq, rfl, hrp, hrt, hwq, hen, hhd, hht,
        hdq, he.symm⟩

theorem thread_sleep_mask {s : State} {queue : Option Nat} {k : caller} {r : result}
    (he : thread_sleep s queue k = some r) : mask_ok s.interrupts r := by
  rcases thread_sleep_cases he with ⟨v, rfl⟩ | ⟨w, rp, rt, wq, h1, wq1, hd, ht, h3, rq, _, _, _,
    _, _, _, _, _, rfl⟩
  · rfl
  · rfl

theorem thread_wait_tail_mask (s : State) (enabled : Bool) (tid : Int)
    (exit_code : Option Nat) (ttid : Int) :
    mask_ok enabled (thread_wait_tail s enabled tid exit_code ttid) := by
  unfold thread_wait_tail
  cases exit_code <;> (simp only; split <;> rfl)

theorem thread_wait_mask {MAX : Nat} {s : State} {tid : Int} {exit_code : Option Nat}
    {ttid0 : Int} {r : result} (he : thread_wait MAX s tid exit_code ttid0 = some r) :
    mask_ok s.interrupts r := by
  simp only [thread_wait, Option.bind_eq_bind, Option.bind_eq_some] at he
  obtain ⟨rp, hrp, rt, hrt, he⟩ := he
  split at he
  · simp only [Option.some.injEq] at he; subst he; rfl
  · simp only [Option.bind_eq_some] at he
    obtain ⟨tp, _, tt, _, he⟩ := he
    split at he
    · simp only [Option.bind_eq_some] at he
      obtain ⟨r1, hsl, he⟩ := he
      have h1 := thread_sleep_mask hsl
      cases r1 <;> simp only [Option.some.injEq] at he <;> subst he
      · exact thread_wait_tail_mask _ _ _ _ _
      · exact h1
      · trivial
      · trivial
    · simp only [Option.some.injEq] at he; subst he
      exact thread_wait_tail_mask _ _ _ _ _

/-- The frame that `thread_sleep` saves when it switches holds the mask at its
entry. -/
theorem thread_sleep_frame {s s2 : State} {queue : Option Nat} {k : caller} {p : Nat}
    (he : thread_sleep s queue k = some (.switch s2)) (hp : s.running_thread = some p) :
    ∃ c, s2.heap p = some c ∧ c.mycontext = .sleep s.interrupts k := by
  rcases thread_sleep_cases he with ⟨v, h⟩ | ⟨w, rp, rt, wq, h1, wq1, hd, ht, h3, rq, _, hrp, hrt,
    hwq, hen, hhd, hht, hdq, h⟩
  · cases h
  · cases h
    rw [hp] at hrp
    cases hrp
    obtain ⟨c1, hc1, e1⟩ := links_only_alloc (enqueue_links_only hen)
      (Function.update_same p _ _)
    have hc2 : ∃ c2, Function.update h1 hd (some { ht with status := RUNNING }) p = some c2 ∧
        c2.mycontext = .sleep s.interrupts k := by
      by_cases hdp : p = hd
      · subst hdp
        rw [hc1] at hht
        cases hht
        exact ⟨_, Function.update_same _ _ _, (fields_context e1)⟩
      · exact ⟨c1, by rw [Function.update_noteq hdp]; exact hc1, fields_context e1⟩
    obtain ⟨c2, hc2, e2⟩ := hc2
    obtain ⟨c3, hc3, e3⟩ := links_only_alloc (dequeue_links_only hdq) hc2
    exact ⟨c3, hc3, (fields_context e3).trans e2⟩

/-- The frame that `thread_yield` saves when it switches holds the mask at its
entry, unless the caller has been killed and exits. -/
theorem thread_yield_frame {MAX : Nat} {s s2 : State} {want_tid : Int} {p : Nat}
    (he : thread_yield MAX s want_tid = some (.switch s2)) (hp : s.running_thread = some p) :
    ∃ c, s2.heap p = some c ∧ (c.status = EXITED ∨ ∃ v, c.mycontext = .yield s.interrupts v) := by
  have hys : ∀ (s1 : State) (ready : Option Nat), s1.running_thread = some p →
      yield_switch s1 s.interrupts ready = some (.switch s2) →
      ∃ c, s2.heap p = some c ∧ (c.status = EXITED ∨ ∃ v, c.mycontext = .yield s.interrupts v) := by
    intro s1 ready hp1 he
    simp only [yield_switch, Option.bind_eq_bind, Option.bind_eq_some] at he
    obtain ⟨rp, hrp, ⟨h1, rq1⟩, hdq, ⟨h2, rq2⟩, hen, rt, hrt, np, hnp, nt, hnt, nt1, hnt1,
      ot, hot, he⟩ := he
    simp only [Option.some.injEq, result.switch.injEq] at he
    subst he
    rw [hp1] at hrp
    cases hrp
    exact ⟨_, Function.update_same _ _ _, Or.inr ⟨_, rfl⟩⟩
  simp only [thread_yield, Option.bind_eq_bind, Option.bind_eq_some] at he
  obtain ⟨s1, hsw, rp, hrp, rt, hrt, he⟩ := he
  have hp1 : s1.running_thread = some p := (sweep_links hsw).2.1.trans hp
  rw [hp1] at hrp
  cases hrp
  split at he
  · rcases thread_exit_cases he with
      ⟨rp, rt, h1, w1, h3, w3, rq, h4, w4, eq, hrp, hrt, hd, hf1, hf2, h⟩ |
      ⟨rp, rt, s3, n, rt1, h2, eq, hd, ht, h4, rq, hrp, hrt, hw, hrt1, hen, hhd, hht, hdq, h⟩
    · cases h
    · cases h
      have hrp2 : s1.running_thread = some rp := hrp
      rw [hp1] at hrp2
      cases hrp2
      obtain ⟨c1, hc1, e1⟩ := links_only_alloc (enqueue_links_only hen)
        (Function.update_same p _ _)
      have hs1 : c1.status = EXITED := fields_status e1
      have hc2 : (if ht.status ≠ EXITED then
          Function.update h2 hd (some { ht with status := RUNNING }) else h2) p = some c1 := by
        split
        · rename_i hne
          have hdp : p ≠ hd := by
            rintro rfl
            rw [hc1] at hht
            cases hht
            exact hne hs1
          rw [Function.update_noteq hdp]; exact hc1
        · exact hc1
      obtain ⟨c3, hc3, e3⟩ := links_only_alloc (dequeue_links_only hdq) hc2
      exact ⟨c3, hc3, Or.inl ((fields_status e3).trans hs1)⟩
  · split at he
    · cases he
    · split at he
      · cases he
      · split at he
        · split at he
          · exact hys _ _ hp1 he
          · split at he
            · cases he
            · split at he
              · cases he
              · exact hys _ _ hp1 he
        · cases he

/-- The frame that `thread_wait` saves when it switches holds the mask at its
entry. -/
theorem thread_wait_frame {MAX : Nat} {s s2 : State} {tid : Int} {exit_code : Option Nat}
    {ttid0 : Int} {p : Nat} (he : thread_wait MAX s tid exit_code ttid0 = some (.switch s2))
    (hp : s.running_thread = some p) :
    ∃ c, s2.heap p = some c ∧ c.mycontext = .sleep false (.wait s.interrupts tid exit_code) := by
  simp only [thread_wait, Option.bind_eq_bind, Option.bind_eq_some] at he
  obtain ⟨rp, hrp, rt, hrt, he⟩ := he
  split at he
  · cases he
  · simp only [Option.bind_eq_some] at he
    obtain ⟨tp, _, tt, _, he⟩ := he
    split at he
    · simp only [Option.bind_eq_some] at he
      obtain ⟨r1, hsl, he⟩ := he
      cases r1 with
      | ret s3 v =>
        simp only [Option.some.injEq] at he
        unfold thread_wait_tail at he
        cases exit_code <;> (simp only at he; split at he <;> cases he)
      | switch s3 =>
        simp only [Option.some.injEq, result.switch.injEq] at he
        subst he
        exact thread_sleep_frame hsl hp
      | exit s3 c => cases he
      | start s3 => cases he
    · simp only [Option.some.injEq] at he
      unfold thread_wait_tail at he
      cases exit_code <;> (simp only at he; split at he <;> cases he)

/-- A thread that resumes in a frame saved by `thread_yield`, by `thread_sleep`
called from application code, or by `thread_wait` returns with the mask that
the frame holds. -/
theorem resume_mask {s : State} {p : Nat} {c : tcb_t} {r : result}
    (hp : s.running_thread = some p) (hc : s.heap p = some c) (he : resume s = some r) :
    (∀ e v, c.mycontext = .yield e v → mask_ok e r) ∧
    (∀ e, c.mycontext = .sleep e .app → mask_ok e r) ∧
    (∀ e0 e t ec, c.mycontext = .sleep e0 (.wait e t ec) → mask_ok e r) := by
  simp only [resume, hp, hc, Option.bind_eq_bind, Option.some_bind] at he
  refine ⟨?_, ?_, ?_⟩
  · intro e v hcx
    rw [hcx] at he
    simp only [Option.bind_eq_some, Option.some.injEq] at he
    obtain ⟨s1, _, rfl⟩ := he
    rfl
  · intro e hcx
    rw [hcx] at he
    simp only [return_from_sleep, Option.some.injEq] at he
    subst he
    rfl
  · intro e0 e t ec hcx
    rw [hcx] at he
    simp only [return_from_sleep, Option.some.injEq] at he
    subst he
    exact thread_wait_tail_mask _ _ _ _ _

/-- The part of C35 on the value of the mask, which holds: with the preemption
mask as the field `interrupts` of the state, each
of `thread_id`, `thread_create`, `thread_yield`, `thread_kill`, `thread_sleep`,
`thread_wakeup` and `thread_wait` leaves the mask equal to its value at entry
on every path that returns, and has it masked where it switches to another
thread; the frame saved at a switch holds the mask at entry (unless the caller
of `thread_yield` has been killed and exits), and a thread that resumes in such
a frame returns to its caller with the mask that the frame holds. -/
theorem mask_restored_on_return (MAX : Nat) (s : State) :
    (∀ r, thread_id s = some r → mask_ok s.interrupts r) ∧
    (∀ ok r, thread_create MAX s ok = some r → mask_ok s.interrupts r) ∧
    (∀ t r, thread_yield MAX s t = some r → mask_ok s.interrupts r) ∧
    (∀ t r, thread_kill MAX s t = some r → mask_ok s.interrupts r) ∧
    (∀ q k r, thread_sleep s q k = some r → mask_ok s.interrupts r) ∧
    (∀ q all s1 n, thread_wakeup s q all = some (s1, n) → s1.interrupts = s.interrupts) ∧
    (∀ t ec t0 r, thread_wait MAX s t ec t0 = some r → mask_ok s.interrupts r) ∧
    (∀ t s2 p, thread_yield MAX s t = some (.switch s2) → s.running_thread = some p →
      ∃ c, s2.heap p = some c ∧
        (c.status = EXITED ∨ ∃ v, c.mycontext = .yield s.interrupts v)) ∧
    (∀ q k s2 p, thread_sleep s q k = some (.switch s2) → s.running_thread = some p →
      ∃ c, s2.heap p = some c ∧ c.mycontext = .sleep s.interrupts k) ∧
    (∀ t ec t0 s2 p, thread_wait MAX s t ec t0 = some (.switch s2) →
      s.running_thread = some p →
      ∃ c, s2.heap p = some c ∧ c.mycontext = .sleep false (.wait s.interrupts t ec)) ∧
    (∀ p c r, s.running_thread = some p → s.heap p = some c → resume s = some r →
      (∀ e v, c.mycontext = .yield e v → mask_ok e r) ∧
      (∀ e, c.mycontext = .sleep e .app → mask_ok e r) ∧
      (∀ e0 e t ec, c.mycontext = .sleep e0 (.wait e t ec) → mask_ok e r)) :=
  ⟨fun _ h => thread_id_mask h, fun _ _ h => thread_create_mask h,
    fun _ _ h => thread_yield_mask h, fun _ _ h => thread_kill_mask h,
    fun _ _ _ h => thread_sleep_mask h,
    fun _ _ _ _ h => (thread_wakeup_running (X := fun _ => True) h (fun _ _ _ _ => trivial)).2.2,
    fun _ _ _ _ h => thread_wait_mask h,
    fun _ _ _ h hp => thread_yield_frame h hp,
    fun _ _ _ _ h hp => thread_sleep_frame h hp,
    fun _ _ _ _ _ h hp => thread_wait_frame h hp,
    fun _ _ _ hp hc h => resume_mask hp hc h⟩

theorem mask_restored_on_return_witness :
    mask_ok two_ready.interrupts (.ret two_ready 0) ∧
    (thread_yield 4 two_ready THREAD_ANY).map result.outcome = some .switched ∧
    (∀ r, thread_yield 4 two_ready THREAD_ANY = some r → mask_ok two_ready.interrupts r) ∧
    ∀ s2 p, thread_yield 4 two_ready THREAD_ANY = some (.switch s2) →
      two_ready.running_thread = some p →
      ∃ c, s2.heap p = some c ∧
        (c.status = EXITED ∨ ∃ v, c.mycontext = .yield two_ready.interrupts v) :=
  ⟨(mask_restored_on_return 4 two_ready).1 _ rfl, rfl,
    (mask_restored_on_return 4 two_ready).2.2.1 THREAD_ANY,
    (mask_restored_on_return 4 two_ready).2.2.2.2.2.2.2.1 THREAD_ANY⟩

/-- The loop of `dequeue`, started in front of the blocks `pre ++ [p]` that
precede the block `a`, none of which has the tid of `a`, stops at `a` and
unlinks it from its predecessor `p`. -/
theorem dequeue_scan_found {h : Heap} {q : queue_t} {a : Nat} {ta : tcb_t} {l3 : List Nat}
    (hta : h a = some ta) (hah : some a ≠ q.head) :
    ∀ (pre : List Nat) (p : Nat) (c prev : Option Nat) (fuel : Nat),
      chain h c (pre ++ p :: a :: l3) →
      (∀ x ∈ pre ++ [p], ∀ tx, h x = some tx → tx.tid ≠ ta.tid) →
      pre.length + 2 ≤ fuel →
      ∃ pt, h p = some pt ∧
        dequeue_scan h q (some a) fuel c prev =
          some (if some a = q.tail then
              (Function.update h p (some { pt with next := none }), { q with tail := some p })
            else (Function.update h p (some { pt with next := ta.next }), q))
  | [], p, c, prev, fuel, hc, htid, hf => by
    obtain ⟨n, rfl⟩ : ∃ n, fuel = n + 2 := ⟨fuel - 2, by simp at hf; omega⟩
    obtain ⟨rfl, pt, hpt, hn, ta2, hta2, _⟩ := hc
    have hne : pt.tid ≠ ta.tid := htid p (by simp) pt hpt
    refine ⟨pt, hpt, ?_⟩
    simp only [dequeue_scan, hpt, hta, Option.bind_eq_bind, Option.some_bind, hne, if_false, hn,
      if_true, hah]
    split <;> rfl
  | x :: pre, p, c, prev, fuel, hc, htid, hf => by
    obtain ⟨n, rfl⟩ : ∃ n, fuel = n + 1 := ⟨fuel - 1, by simp at hf; omega⟩
    obtain ⟨rfl, tx, htx, hrest⟩ := hc
    have hne : tx.tid ≠ ta.tid := htid x (by simp) tx htx
    obtain ⟨pt, hpt, hs⟩ := dequeue_scan_found hta hah pre p tx.next (some x) n hrest
      (fun y hy => htid y (List.mem_cons_of_mem x hy)) (by simp at hf; omega)
    refine ⟨pt, hpt, ?_⟩
    simp only [dequeue_scan, htx, hta, Option.bind_eq_bind, Option.some_bind, hne, if_false]
    exact hs

/-- Unlinking the block `a` from its predecessor `p` in a chain. -/
theorem chain_unlink {h : Heap} {a p : Nat} {ta pt : tcb_t} {l3 : List Nat}
    (hta : h a = some ta) (hpt : h p = some pt) :
    ∀ (pre : List Nat) (c : Option Nat),
      chain h c (pre ++ p :: a :: l3) → (pre ++ p :: a :: l3).Nodup →
      chain (Function.update (Function.update h p (some { pt with next := ta.next })) a
        (some { ta with next := none })) c (pre ++ p :: l3)
  | [], c, hc, hnd => by
    obtain ⟨rfl, pt2, hpt2, hn, ta2, hta2, hl3⟩ := hc
    rw [hpt] at hpt2; cases hpt2
    rw [hta] at hta2; cases hta2
    simp only [List.nil_append, List.nodup_cons, List.mem_cons, not_or] at hnd
    obtain ⟨⟨hpa, hp3⟩, ha3, _⟩ := hnd
    refine ⟨rfl, { pt with next := ta.next }, ?_, ?_⟩
    · rw [Function.update_noteq hpa, Function.update_same]
    · apply chain_congr _ hl3
      intro b hb
      have hba : b ≠ a := by rintro rfl; exact ha3 hb
      have hbp : b ≠ p := by rintro rfl; exact hp3 hb
      rw [Function.update_noteq hba, Function.update_noteq hbp]
  | x :: pre, c, hc, hnd => by
    obtain ⟨rfl, tx, htx, hrest⟩ := hc
    have hnd2 := (List.nodup_cons.1 hnd).2
    have hx := (List.nodup_cons.1 hnd).1
    have hxp : x ≠ p := by rintro rfl; exact hx (by simp)
    have hxa : x ≠ a := by rintro rfl; exact hx (by simp)
    refine ⟨rfl, tx, ?_, chain_unlink hta hpt pre tx.next hrest hnd2⟩
    rw [Function.update_noteq hxa, Function.update_noteq hxp]
    exact htx

/-- The function `dequeue` on a well-formed queue whose threads have distinct
tids, for a member `a`: the call has a result, and the queue is well-formed
afterwards.  It holds the other members in their order, except when the queue
has two members and `a` is the second: then it holds `a` alone. -/
theorem dequeue_member {h : Heap} {q : queue_t} {l : List Nat} {a : Nat} (fuel : Nat)
    (hq : isQueue h q l) (hd : distinct_tids h l) (ha : a ∈ l) (hf : l.length ≤ fuel) :
    ∃ h2 q2, dequeue fuel h q (some a) = some (h2, q2) ∧ links_only h h2 ∧
      isQueue h2 q2 (if l.length = 2 ∧ l.head? ≠ some a then [a] else l.erase a) := by
  have hlinks : ∀ {h2 q2}, dequeue fuel h q (some a) = some (h2, q2) → links_only h h2 :=
    fun he => dequeue_links_only he
  obtain ⟨n, rfl⟩ : ∃ n, fuel = n + 1 := by
    cases l with
    | nil => simp at ha
    | cons b l => exact ⟨fuel - 1, by simp at hf; omega⟩
  cases l with
  | nil => simp at ha
  | cons b l =>
    by_cases hab : a = b
    · subst hab
      obtain ⟨q2, he, hq2⟩ := dequeue_head n hq
      refine ⟨_, q2, he, hlinks he, ?_⟩
      simpa using hq2
    · have hal : a ∈ l := by
        rcases List.mem_cons.1 ha with h1 | h1
        · exact absurd h1 hab
        · exact h1
      obtain ⟨hs, hch, htl, hnd⟩ := hq
      obtain ⟨ta, hta⟩ := chain_mem hch ha
      obtain ⟨L1, l3, hsplit⟩ := List.append_of_mem hal
      -- the blocks in front of `a` are `pre ++ [p]`
      obtain ⟨pre, p, hpre⟩ : ∃ pre p, b :: L1 = pre ++ [p] := by
        rcases List.eq_nil_or_concat (b :: L1) with h0 | ⟨pre, p, h0⟩
        · simp at h0
        · exact ⟨pre, p, by rw [h0, List.concat_eq_append]⟩
      have hl : b :: l = pre ++ p :: a :: l3 := by
        rw [hsplit, ← List.cons_append, hpre]; simp
      rw [hl] at hch hnd htl hs hd ha
      have hnd' := hnd
      rw [List.nodup_append] at hnd'
      obtain ⟨_, hnd3, hdisj⟩ := hnd'
      have hapre : a ∉ pre := fun hm => hdisj hm (by simp)
      have hpa : p ≠ a := by
        intro e
        have := (List.nodup_cons.1 hnd3).1
        apply this; simp [e]
      have hnd4 := (List.nodup_cons.1 (List.nodup_cons.1 hnd3).2)
      have ha3 : a ∉ l3 := hnd4.1
      obtain ⟨pt, hpt⟩ := chain_mem hch (show p ∈ pre ++ p :: a :: l3 by simp)
      have hbhead : q.head = some b := by
        have := chain_head hch
        cases pre with
        | nil => simp at hpre; obtain ⟨rfl, _⟩ := hpre; simpa using this
        | cons y pre2 => simp at hpre; obtain ⟨rfl, _⟩ := hpre; simpa using this
      have hah : some a ≠ q.head := by
        rw [hbhead]; intro e; exact hab (Option.some.inj e)
      -- the tail link of `a`
      have hchain_a : ∀ (pre : List Nat) (c : Option Nat), chain h c (pre ++ p :: a :: l3) →
          chain h ta.next l3 := by
        intro pre
        induction pre with
        | nil =>
          intro c hc
          obtain ⟨_, _, _, _, ta2, hta2, hl3⟩ := hc
          rw [hta] at hta2; cases hta2
          exact hl3
        | cons x pre ih =>
          intro c hc
          obtain ⟨_, _, _, hrest⟩ := hc
          exact ih _ hrest
      have hl3c := hchain_a pre q.head hch
      have htids : ∀ x ∈ pre ++ [p], ∀ tx, h x = some tx → tx.tid ≠ ta.tid := by
        intro x hx tx htx e
        have hxl : x ∈ pre ++ p :: a :: l3 := by
          rcases List.mem_append.1 hx with h1 | h1
          · exact List.mem_append_left _ h1
          · simp at h1; subst h1; simp
        have := hd x hxl a ha tx ta htx hta e
        subst this
        rcases List.mem_append.1 hx with h1 | h1
        · exact hapre h1
        · simp at h1; exact hpa h1.symm
      have hlen : (pre ++ p :: a :: l3).length = pre.length + 2 + l3.length := by
        simp; omega
      by_cases h2 : (pre ++ p :: a :: l3).length = 2
      · -- two members, `a` is the second
        have h00 : pre.length = 0 ∧ l3.length = 0 := by rw [hlen] at h2; omega
        have hpre0 : pre = [] := List.length_eq_zero.1 h00.1
        have hl30 : l3 = [] := List.length_eq_zero.1 h00.2
        subst hpre0 hl30
        simp only [List.nil_append] at *
        have hq2 : q.size = 2 := by rw [hs]; rfl
        have hq1 : q.size ≠ 1 := by rw [hq2]; decide
        have hhd : q.head ≠ some a := fun e => hah e.symm
        refine ⟨Function.update h a (some { ta with next := none }),
          { head := some a, tail := some a, size := 1 }, ?_, ?_, ?_⟩
        · rw [dequeue_eq]
          simp [hq1, hq2, hhd, hta]
        · exact links_only_update _ hta
        · have hcond : (b :: l).length = 2 ∧ (b :: l).head? ≠ some a := by
            rw [hl]; refine ⟨rfl, ?_⟩
            simp only [List.head?_cons]
            intro e; exact hpa (Option.some.inj e)
          rw [if_pos hcond]
          exact ⟨rfl, ⟨rfl, _, Function.update_same _ _ _, rfl⟩, rfl, by simp⟩
      · have h3 : ¬ ((b :: l).length = 2 ∧ (b :: l).head? ≠ some a) := by
          rw [hl]; exact fun h => h2 h.1
        rw [if_neg h3]
        have hq1 : q.size ≠ 1 := by
          rw [hs, hlen]; push_cast; omega
        have hq2 : q.size ≠ 2 := by
          rw [hs]; intro e; apply h2; exact_mod_cast e
        obtain ⟨pt2, hpt2, hscan⟩ := dequeue_scan_found hta hah pre p q.head none (n + 1) hch
          htids (by rw [hl, hlen] at hf; omega)
        rw [hpt] at hpt2; cases hpt2
        have herase : (b :: l).erase a = pre ++ p :: l3 := by
          rw [hl, List.erase_append_right _ hapre, List.erase_cons_tail (by simpa using hpa),
            List.erase_cons_head]
        rw [herase]
        have hnd2 : (pre ++ p :: l3).Nodup := by
          rw [← herase, hl]; exact hnd.erase a
        have hchain2 := chain_unlink hta hpt pre q.head hch hnd
        by_cases ht : some a = q.tail
        · -- `a` is the last member
          have hl30 : l3 = [] := by
            rw [htl] at ht
            cases l3 with
            | nil => rfl
            | cons y l4 =>
              exfalso
              have : (pre ++ p :: a :: y :: l4).getLast? = (y :: l4).getLast? := by
                rw [List.getLast?_append_of_ne_nil _ (by simp)]
                simp [List.getLast?_cons_cons]
              rw [this] at ht
              have hm := List.mem_of_getLast?_eq_some ht.symm
              exact ha3 hm
          subst hl30
          have hnext : ta.next = none := by simpa [chain] using hl3c
          rw [hnext] at hchain2
          refine ⟨Function.update (Function.update h p (some { pt with next := none })) a
            (some { ta with next := none }), { q with tail := some p, size := q.size - 1 }, ?_, ?_, ?_⟩
          · rw [dequeue_eq]
            simp only [hq1, hq2, if_false, hscan, if_pos ht, Option.some_bind,
              Function.update_noteq hpa.symm, hta]
          · exact links_only_trans (links_only_update _ hpt)
              (links_only_update _ (by rw [Function.update_noteq hpa.symm]; exact hta))
          · refine ⟨?_, hchain2, ?_, hnd2⟩
            · simp [hs]; ring
            · simp
        · have hl3ne : l3 ≠ [] := by
            rintro rfl
            apply ht
            rw [htl]; simp
          refine ⟨Function.update (Function.update h p (some { pt with next := ta.next })) a
            (some { ta with next := none }), { q with size := q.size - 1 }, ?_, ?_, ?_⟩
          · rw [dequeue_eq]
            simp only [hq1, hq2, if_false, hscan, if_neg ht, Option.some_bind,
              Function.update_noteq hpa.symm, hta]
          · exact links_only_trans (links_only_update _ hpt)
              (links_only_update _ (by rw [Function.update_noteq hpa.symm]; exact hta))
          · refine ⟨?_, hchain2, ?_, hnd2⟩
            · simp [hs]; ring
            · rw [show q.tail = (pre ++ p :: a :: l3).getLast? from htl]
              rw [List.getLast?_append_of_ne_nil _ (by simp),
                List.getLast?_append_of_ne_nil _ (by simp)]
              cases l3 with
              | nil => exact absurd rfl hl3ne
              | cons y l4 => simp [List.getLast?_cons_cons]

theorem distinct_tids_links {h h2 : Heap} {l : List Nat} (hl : links_only h h2)
    (hd : distinct_tids h l) : distinct_tids h2 l := by
  intro a ha b hb ta tb hta htb e
  obtain ⟨ta1, hta1, ea⟩ := links_only_back hl hta
  obtain ⟨tb1, htb1, eb⟩ := links_only_back hl htb
  exact hd a ha b hb ta1 tb1 hta1 htb1 ((fields_tid ea).trans (e.trans (fields_tid eb).symm))

theorem distinct_tids_subset {h : Heap} {l l2 : List Nat} (hsub : ∀ a ∈ l2, a ∈ l)
    (hd : distinct_tids h l) : distinct_tids h l2 :=
  fun a ha b hb => hd a (hsub a ha) b (hsub b hb)

/-- C40 as stated fails.  The queue of the block 2 alone in `same_tid_heap` is
well-formed, and the block 4 is in no queue and has a null `next` link; after
`enqueue` of the block 4 the queue holds the blocks 2 and 4, whose tids are
equal.  In the heap of the state `joined` the queue of the block 2 alone is
well-formed; the wait queue of this thread is not empty, and `free_queue` has
no result: the assertion of `wait_queue_destroy` fails. -/
theorem well_formedness_needs_more :
    (isQueue same_tid_heap { head := some 2, tail := some 2, size := 1 } [2] ∧
      distinct_tids same_tid_heap [2] ∧
      (same_tid_heap 4).map (fun t => t.next) = some none ∧
      ∃ h2 q2, enqueue same_tid_heap { head := some 2, tail := some 2, size := 1 } (some 4)
          = some (h2, q2) ∧
        isQueue h2 q2 [2, 4] ∧ ¬ distinct_tids h2 [2, 4]) ∧
    (isQueue joined.heap { head := some 2, tail := some 2, size := 1 } [2] ∧
      distinct_tids joined.heap [2] ∧
      ∀ n, free_queue n joined.heap joined.wqs { head := some 2, tail := some 2, size := 1 }
        = none) := by
  refine ⟨⟨⟨rfl, ⟨rfl, _, rfl, rfl⟩, rfl, by simp⟩, ?_, rfl, _, _, rfl,
    ⟨rfl, ⟨rfl, _, rfl, rfl, _, rfl, rfl⟩, rfl, by decide⟩, ?_⟩,
    ⟨rfl, ⟨rfl, _, rfl, rfl⟩, rfl, by simp⟩, ?_, ?_⟩
  · intro a ha b hb _ _ _ _ _
    simp only [List.mem_singleton] at ha hb
    rw [ha, hb]
  · intro hd
    have := hd 2 (by simp) 4 (by simp) _ _ rfl rfl rfl
    exact absurd this (by decide)
  · intro a ha b hb _ _ _ _ _
    simp only [List.mem_singleton] at ha hb
    rw [ha, hb]
  · intro n
    cases n with
    | zero => rfl
    | succ n => rfl

/-- C40, amended: let the queue be well-formed, that is its size is the number
of blocks reached from its head by `next` links, its tail is the last of them
(head and tail are null when there is none), and they have distinct tids.
Then `enqueue` of a thread that is not in the queue, has a null `next` link and
has a tid that no thread of the queue has gives a well-formed queue with the
thread as new last element behind the earlier ones, and the size grows by
one; `dequeue` of a member has a result and gives a well-formed queue; and
`free_queue`, when every thread of the queue has an allocated, empty wait queue
of its own, has a result and leaves the queue with size 0 and null head and
tail. -/
theorem queue_well_formedness (h : Heap) (q : queue_t) (l : List Nat)
    (hq : isQueue h q l) (hd : distinct_tids h l) :
    (∀ x tx, h x = some tx → tx.next = none → x ∉ l →
      (∀ b ∈ l, ∀ tb, h b = some tb → tb.tid ≠ tx.tid) →
      ∃ h2 q2, enqueue h q (some x) = some (h2, q2) ∧ isQueue h2 q2 (l ++ [x]) ∧
        distinct_tids h2 (l ++ [x]) ∧ q2.size = q.size + 1) ∧
    (∀ a fuel, a ∈ l → l.length ≤ fuel →
      ∃ h2 q2 l2, dequeue fuel h q (some a) = some (h2, q2) ∧ isQueue h2 q2 l2 ∧
        distinct_tids h2 l2 ∧ (∀ b ∈ l2, b ∈ l) ∧ l2.length + 1 = l.length) ∧
    (∀ w n, zombies_ok h w l → l.length < n →
      ∃ h2 w2, free_queue n h w q = some (h2, w2, { head := none, tail := none, size := 0 })) := by
  refine ⟨?_, ?_, ?_⟩
  · intro x tx htx hn hx htid
    obtain ⟨q2, he, hq2⟩ := enqueue_spec hq hx htx hn
    refine ⟨_, q2, he, hq2, ?_, ?_⟩
    · apply distinct_tids_links (enqueue_links_only he)
      intro a ha b hb ta tb hta htb e
      rcases List.mem_append.1 ha with ha1 | ha1 <;> rcases List.mem_append.1 hb with hb1 | hb1
      · exact hd a ha1 b hb1 ta tb hta htb e
      · simp only [List.mem_singleton] at hb1
        subst hb1
        rw [htx] at htb; cases htb
        exact absurd e (htid a ha1 ta hta)
      · simp only [List.mem_singleton] at ha1
        subst ha1
        rw [htx] at hta; cases hta
        exact absurd e.symm (htid b hb1 tb htb)
      · simp only [List.mem_singleton] at ha1 hb1
        rw [ha1, hb1]
    · rw [hq2.size_eq, hq.size_eq]; simp
  · intro a fuel ha hf
    obtain ⟨h2, q2, he, hl, hq2⟩ := dequeue_member fuel hq hd ha hf
    refine ⟨h2, q2, _, he, hq2, ?_, ?_, ?_⟩
    · apply distinct_tids_links hl
      apply distinct_tids_subset _ hd
      intro b hb
      split at hb
      · simp only [List.mem_singleton] at hb; rw [hb]; exact ha
      · exact List.mem_of_mem_erase hb
    · intro b hb
      split at hb
      · simp only [List.mem_singleton] at hb; rw [hb]; exact ha
      · exact List.mem_of_mem_erase hb
    · split
      · rename_i hc; rw [hc.1]; rfl
      · rw [List.length_erase_of_mem ha]
        have : 0 < l.length := List.length_pos_of_mem ha
        omega
  · intro w n hz hn
    obtain ⟨m, rfl⟩ : ∃ m, n = m + 1 := ⟨n - 1, by omega⟩
    exact ⟨_, _, free_queue_spec l m h w q (by omega) hq hz⟩

theorem queue_well_formedness_witness :
    (∀ x tx, two_ready.heap x = some tx → tx.next = none → x ∉ [2, 4] →
      (∀ b ∈ [2, 4], ∀ tb, two_ready.heap b = some tb → tb.tid ≠ tx.tid) →
      ∃ h2 q2, enqueue two_ready.heap two_ready.ready_queue (some x) = some (h2, q2) ∧
        isQueue h2 q2 ([2, 4] ++ [x]) ∧
        distinct_tids h2 ([2, 4] ++ [x]) ∧ q2.size = two_ready.ready_queue.size + 1) ∧
    (∀ a fuel, a ∈ [2, 4] → [2, 4].length ≤ fuel →
      ∃ h2 q2 l2, dequeue fuel two_ready.heap two_ready.ready_queue (some a) = some (h2, q2) ∧
        isQueue h2 q2 l2 ∧
        distinct_tids h2 l2 ∧ (∀ b ∈ l2, b ∈ [2, 4]) ∧ l2.length + 1 = [2, 4].length) ∧
    (∀ w n, zombies_ok two_ready.heap w [2, 4] → [2, 4].length < n →
      ∃ h2 w2, free_queue n two_ready.heap w two_ready.ready_queue
        = some (h2, w2, { head := none, tail := none, size := 0 })) :=
  queue_well_formedness two_ready.heap two_ready.ready_queue [2, 4] two_ready_queue (by
    intro a ha b hb ta tb hta htb e
    simp only [List.mem_cons, List.mem_singleton, List.not_mem_nil, or_false] at ha hb
    rcases ha with rfl | rfl <;> rcases hb with rfl | rfl
    · rfl
    · simp only [two_ready] at hta htb
      simp at hta htb
      subst hta htb
      simp at e
    · simp only [two_ready] at hta htb
      simp at hta htb
      subst hta htb
      simp at e
    · rfl)

theorem exited_kept_refl (b : Nat) (h : Heap) : exited_kept b h h :=
  fun _ t2 _ ht => ⟨t2, ht, id⟩

theorem exited_kept_trans {b : Nat} {h1 h2 h3 : Heap} (h12 : exited_kept b h1 h2)
    (h23 : exited_kept b h2 h3) : exited_kept b h1 h3 := by
  intro a t3 ha ht3
  obtain ⟨t2, ht2, e2⟩ := h23 a t3 ha ht3
  obtain ⟨t1, ht1, e1⟩ := h12 a t2 ha ht2
  exact ⟨t1, ht1, fun h => e2 (e1 h)⟩

theorem exited_kept_links {b : Nat} {h h2 : Heap} (hl : links_or_freed h h2) :
    exited_kept b h h2 := by
  intro a t2 _ ht2
  obtain ⟨t, ht, e⟩ := hl a t2 ht2
  exact ⟨t, ht, fun h => (fields_status e).symm.trans h⟩

theorem exited_kept_fresh {b : Nat} (h : Heap) {a : Nat} (o : Option tcb_t) (hab : b ≤ a) :
    exited_kept b h (Function.update h a o) := by
  intro x t2 hx ht2
  have hxa : x ≠ a := by omega
  rw [Function.update_noteq hxa] at ht2
  exact ⟨t2, ht2, id⟩

theorem exited_kept_update {b : Nat} {h : Heap} {a : Nat} {t t2 : tcb_t} (ht : h a = some t)
    (himp : t.status = EXITED → t2.status = EXITED) :
    exited_kept b h (Function.update h a (some t2)) := by
  intro x t3 _ ht3
  by_cases hxa : x = a
  · subst hxa
    rw [Function.update_same] at ht3
    cases ht3
    exact ⟨t, ht, himp⟩
  · rw [Function.update_noteq hxa] at ht3
    exact ⟨t3, ht3, id⟩

theorem exited_kept_mono {b c : Nat} {h h2 : Heap} (hbc : b ≤ c) (hk : exited_kept c h h2) :
    exited_kept b h h2 :=
  fun a t2 ha ht2 => hk a t2 (by omega) ht2

theorem exited_kept_state_refl (s : State) : exited_kept_state s s :=
  ⟨exited_kept_refl _ _, rfl, le_refl _⟩

theorem exited_kept_state_trans {s1 s2 s3 : State} (h12 : exited_kept_state s1 s2)
    (h23 : exited_kept_state s2 s3) : exited_kept_state s1 s3 :=
  ⟨exited_kept_trans h12.1 (exited_kept_mono h12.2.2 h23.1), h23.2.1.trans h12.2.1,
    le_trans h12.2.2 h23.2.2⟩

theorem wakeup_loop_exited (all : Int) (w : Nat) (b : Nat) :
    ∀ (n : Nat) (s : State) (c : Option Nat) (k : Int) (s1 : State) (m : Int),
      wakeup_loop all w n s c k = some (s1, m) →
      exited_kept b s.heap s1.heap ∧ s1.running_thread = s.running_thread ∧ s1.brk = s.brk
  | n, s, none, k, s1, m, he => by
    cases n <;> simp [wakeup_loop] at he <;>
      (obtain ⟨rfl, _⟩ := he; exact ⟨exited_kept_refl _ _, rfl, rfl⟩)
  | 0, s, some c, k, s1, m, he => by simp [wakeup_loop] at he
  | n + 1, s, some c, k, s1, m, he => by
    simp only [wakeup_loop, Option.bind_eq_bind, Option.bind_eq_some] at he
    obtain ⟨t, ht, wq, hwq, ⟨h1, wq1⟩, hd, ⟨h2, rq⟩, hen, t2, ht2, he⟩ := he
    simp only at hen ht2 he
    have hx2 : exited_kept b s.heap h2 :=
      exited_kept_links (links_or_freed_of_links_only
        (links_only_trans (dequeue_links_only hd) (enqueue_links_only hen)))
    have hx3 : exited_kept b s.heap (if t2.status ≠ EXITED then
        Function.update h2 c (some { t2 with status := READY }) else h2) := by
      split
      · rename_i hne
        exact exited_kept_trans hx2 (exited_kept_update ht2 (fun h => absurd h hne))
      · exact hx2
    split at he
    · simp only [Option.some.injEq, Prod.mk.injEq] at he
      obtain ⟨rfl, _⟩ := he
      exact ⟨hx3, rfl, rfl⟩
    · obtain ⟨a1, a2, a3⟩ := wakeup_loop_exited all w b n _ _ _ _ _ he
      exact ⟨exited_kept_trans hx3 a1, a2, a3⟩

theorem thread_wakeup_exited {s s1 : State} {queue : Option Nat} {all m : Int}
    (he : thread_wakeup s queue all = some (s1, m)) : exited_kept_state s s1 := by
  cases queue with
  | none =>
    simp only [thread_wakeup, Option.some.injEq, Prod.mk.injEq] at he
    obtain ⟨rfl, _⟩ := he
    exact exited_kept_state_refl s
  | some w =>
    simp only [thread_wakeup, Option.bind_eq_bind, Option.bind_eq_some] at he
    obtain ⟨wq, _, ⟨s2, k⟩, hl, he⟩ := he
    simp only [Option.some.injEq, Prod.mk.injEq] at he
    obtain ⟨rfl, _⟩ := he
    obtain ⟨a, b, c⟩ := wakeup_loop_exited all w s.brk _ _ _ _ _ _ hl
    exact ⟨a, b, le_of_eq c.symm⟩

theorem thread_id_exited {s s2 : State} {v : Int} (he : thread_id s = some (.ret s2 v)) :
    exited_kept_state s s2 := by
  unfold thread_id at he
  split at he
  · simp only [Option.bind_eq_bind, Option.bind_eq_some, Option.some.injEq,
      result.ret.injEq] at he
    obtain ⟨_, _, rfl, _⟩ := he
    exact exited_kept_state_refl s
  · simp only [Option.some.injEq, result.ret.injEq] at he
    obtain ⟨rfl, _⟩ := he
    exact exited_kept_state_refl s

theorem thread_create_exited {MAX : Nat} {s s2 : State} {ok : Bool} {v : Int}
    (he : thread_create MAX s ok = some (.ret s2 v)) : exited_kept_state s s2 := by
  unfold thread_create at he
  simp only at he
  split at he
  · simp only [Option.some.injEq, result.ret.injEq] at he
    obtain ⟨rfl, _⟩ := he
    exact exited_kept_state_refl s
  · split at he
    · split at he
      · simp at he
      · simp only [Option.some.injEq, result.ret.injEq] at he
        obtain ⟨rfl, _⟩ := he
        exact ⟨exited_kept_refl _ _, rfl, Nat.le_succ _⟩
    · simp only [Option.bind_eq_bind, Option.bind_eq_some] at he
      obtain ⟨⟨h1, rq⟩, hen, t1, _, he⟩ := he
      simp only [Option.some.injEq, result.ret.injEq] at he
      obtain ⟨rfl, _⟩ := he
      have hl := exited_kept_links (b := s.brk)
        (links_or_freed_of_links_only (enqueue_links_only hen))
      exact ⟨exited_kept_trans (exited_kept_fresh _ _ (le_refl _)) hl, rfl,
        Nat.le_add_right _ 2⟩

theorem thread_kill_exited {MAX : Nat} {s s2 : State} {tid : Int} {v : Int}
    (he : thread_kill MAX s tid = some (.ret s2 v)) : exited_kept_state s s2 := by
  have key : ∀ inv : Bool, (if inv then
        some (result.ret (interrupts_set (interrupts_off s) s.interrupts) THREAD_INVALID)
      else do
        let curr ← (interrupts_off s).available_thr tid
        let ct ← (interrupts_off s).heap curr
        some (.ret (interrupts_set
          { interrupts_off s with
            heap := Function.update (interrupts_off s).heap curr
              (some { ct with status := EXITED }) } s.interrupts) ct.tid)) = some (.ret s2 v) →
      exited_kept_state s s2 := by
    intro inv he
    split at he
    · simp only [Option.some.injEq, result.ret.injEq] at he
      obtain ⟨rfl, _⟩ := he
      exact exited_kept_state_refl s
    · simp only [Option.bind_eq_bind, Option.bind_eq_some, Option.some.injEq,
        result.ret.injEq] at he
      obtain ⟨curr, _, ct, hct, rfl, _⟩ := he
      exact ⟨exited_kept_update hct (fun _ => rfl), rfl, le_refl _⟩
  unfold thread_kill at he
  by_cases hinv : tid < 0 ∨ tid ≥ (MAX : Int) ∨ (interrupts_off s).available_thr tid = none
  · simp only [hinv, if_true, Option.bind_eq_bind, Option.some_bind] at he
    exact key true he
  · simp only [hinv, if_false, Option.bind_eq_bind, Option.bind_eq_some] at he
    obtain ⟨rp, _, rt, _, inv, _, he⟩ := he
    exact key inv he

theorem thread_exit_no_ret {s : State} {code : Int} {s2 : State} {v : Int} :
    thread_exit s code ≠ some (.ret s2 v) := by
  intro he
  rcases thread_exit_cases he with
    ⟨rp, rt, h1, w1, h3, w3, rq, h4, w4, eq, hrp, hrt, hd, hf1, hf2, h⟩ |
    ⟨rp, rt, s1, n, rt1, h2, eq, hd, ht, h4, rq, hrp, hrt, hw, hrt1, hen, hhd, hht, hdq, h⟩
  · cases h
  · cases h

theorem yield_switch_no_ret {s : State} {enabled : Bool} {ready : Option Nat} {s2 : State}
    {v : Int} : yield_switch s enabled ready ≠ some (.ret s2 v) := by
  intro he
  simp only [yield_switch, Option.bind_eq_bind, Option.bind_eq_some] at he
  obtain ⟨rp, hrp, ⟨h1, rq1⟩, hdq, ⟨h2, rq2⟩, hen, rt, hrt, np, hnp, nt, hnt, nt1, hnt1,
    ot, hot, he⟩ := he
  simp at he

theorem sweep_exited {s s1 : State} (he : sweep s = some s1) : exited_kept_state s s1 := by
  have hl := (sweep_links he)
  simp only [sweep, Option.bind_eq_bind, Option.bind_eq_some] at he
  obtain ⟨⟨h, w, q⟩, hf, he⟩ := he
  simp only [Option.some.injEq] at he
  subst he
  exact ⟨exited_kept_links hl.1, rfl, le_refl _⟩

theorem thread_yield_exited {MAX : Nat} {s s2 : State} {want_tid : Int} {v : Int}
    (he : thread_yield MAX s want_tid = some (.ret s2 v)) : exited_kept_state s s2 := by
  simp only [thread_yield, Option.bind_eq_bind, Option.bind_eq_some] at he
  obtain ⟨s1, hsw, rp, hrp, rt, hrt, he⟩ := he
  have h1 : exited_kept_state s s1 := sweep_exited (s := interrupts_off s) hsw
  split at he
  · exact absurd he thread_exit_no_ret
  · split at he
    · simp only [Option.some.injEq, result.ret.injEq] at he; obtain ⟨rfl, _⟩ := he; exact h1
    · split at he
      · simp only [Option.some.injEq, result.ret.injEq] at he; obtain ⟨rfl, _⟩ := he; exact h1
      · split at he
        · split at he
          · exact absurd he yield_switch_no_ret
          · split at he
            · simp only [Option.some.injEq, result.ret.injEq] at he
              obtain ⟨rfl, _⟩ := he; exact h1
            · split at he
              · simp only [Option.some.injEq, result.ret.injEq] at he
                obtain ⟨rfl, _⟩ := he; exact h1
              · exact absurd he yield_switch_no_ret
        · simp only [Option.some.injEq, result.ret.injEq] at he; obtain ⟨rfl, _⟩ := he; exact h1

theorem thread_sleep_exited {s s2 : State} {queue : Option Nat} {k : caller} {v : Int}
    (he : thread_sleep s queue k = some (.ret s2 v)) : exited_kept_state s s2 := by
  rcases thread_sleep_cases he with ⟨v2, h⟩ | ⟨w, rp, rt, wq, h1, wq1, hd, ht, h3, rq, _, _, _,
    _, _, _, _, _, h⟩
  · simp only [result.ret.injEq] at h
    obtain ⟨rfl, _⟩ := h
    exact exited_kept_state_refl s
  · cases h

theorem thread_wait_tail_exited {s s2 : State} {enabled : Bool} {tid : Int}
    {exit_code : Option Nat} {ttid : Int} {v : Int}
    (he : thread_wait_tail s enabled tid exit_code ttid = .ret s2 v) :
    exited_kept_state s s2 := by
  unfold thread_wait_tail at he
  cases exit_code <;>
    (simp only at he; split at he <;>
      (simp only [result.ret.injEq] at he; obtain ⟨rfl, _⟩ := he; exact exited_kept_state_refl s))

theorem thread_wait_exited {MAX : Nat} {s s2 : State} {tid : Int} {exit_code : Option Nat}
    {ttid0 : Int} {v : Int} (he : thread_wait MAX s tid exit_code ttid0 = some (.ret s2 v)) :
    exited_kept_state s s2 := by
  simp only [thread_wait, Option.bind_eq_bind, Option.bind_eq_some] at he
  obtain ⟨rp, hrp, rt, hrt, he⟩ := he
  split at he
  · simp only [Option.some.injEq, result.ret.injEq] at he
    obtain ⟨rfl, _⟩ := he; exact exited_kept_state_refl s
  · simp only [Option.bind_eq_some] at he
    obtain ⟨tp, _, tt, _, he⟩ := he
    split at he
    · simp only [Option.bind_eq_some] at he
      obtain ⟨r1, hsl, he⟩ := he
      cases r1 with
      | ret s3 v3 =>
        simp only [Option.some.injEq] at he
        have a1 : exited_kept_state s s3 := thread_sleep_exited (s := interrupts_off s) hsl
        exact exited_kept_state_trans a1 (thread_wait_tail_exited he)
      | switch s3 => simp at he
      | exit s3 c => simp at he
      | start s3 => simp at he
    · simp only [Option.some.injEq] at he
      exact thread_wait_tail_exited (s := interrupts_off s) he

theorem acquire_loop_exited {s s2 : State} {enabled : Bool} {lock : Nat} {cv : Option Bool}
    {v : Int} (he : acquire_loop s enabled lock cv = some (.ret s2 v)) :
    exited_kept_state s s2 := by
  simp only [acquire_loop, Option.bind_eq_bind, Option.bind_eq_some] at he
  obtain ⟨l, _, he⟩ := he
  split at he
  · simp only [Option.bind_eq_some] at he
    obtain ⟨r1, hsl, he⟩ := he
    cases r1 <;> simp at he
  · cases cv <;>
      (simp only [Option.some.injEq, result.ret.injEq] at he; obtain ⟨rfl, _⟩ := he
       exact exited_kept_state_refl s)

theorem lock_release_exited {s s2 : State} {lock : Option Nat} {v : Int}
    (he : lock_release s lock = some (.ret s2 v)) : exited_kept_state s s2 := by
  simp only [lock_release, Option.bind_eq_bind, Option.bind_eq_some] at he
  obtain ⟨lp, _, l, _, he⟩ := he
  split at he
  · simp only [Option.bind_eq_some] at he
    obtain ⟨⟨s1, n⟩, hw, l1, _, he⟩ := he
    simp only [Option.some.injEq, result.ret.injEq] at he
    obtain ⟨rfl, _⟩ := he
    have hk := thread_wakeup_exited (s := interrupts_off s) hw
    exact hk
  · simp only [Option.some.injEq, result.ret.injEq] at he
    obtain ⟨rfl, _⟩ := he; exact exited_kept_state_refl s

theorem cv_wake_exited {s : State} {cv lock : Option Nat} (all : Int) {s2 : State} {v : Int}
    (he : (do
      let enabled := s.interrupts
      let s0 := interrupts_off s
      let cp ← cv
      let lp ← lock
      let l ← s0.locks lp
      if l.state = 1 then do
        let c ← s0.cvs cp
        let (s1, _) ← thread_wakeup s0 (some c.wait_queue) all
        some (result.ret (interrupts_set s1 enabled) 0)
      else
        some (result.ret (interrupts_set s0 enabled) 0)) = some (.ret s2 v)) :
    exited_kept_state s s2 := by
  simp only [Option.bind_eq_bind, Option.bind_eq_some] at he
  obtain ⟨cp, _, lp, _, l, _, he⟩ := he
  split at he
  · simp only [Option.bind_eq_some] at he
    obtain ⟨c, _, ⟨s1, n⟩, hw, he⟩ := he
    simp only [Option.some.injEq, result.ret.injEq] at he
    obtain ⟨rfl, _⟩ := he
    have hk := thread_wakeup_exited (s := interrupts_off s) hw
    exact hk
  · simp only [Option.some.injEq, result.ret.injEq] at he
    obtain ⟨rfl, _⟩ := he; exact exited_kept_state_refl s

theorem cv_wait_exited {s s2 : State} {cv lock : Option Nat} {v : Int}
    (he : cv_wait s cv lock = some (.ret s2 v)) : exited_kept_state s s2 := by
  simp only [cv_wait, Option.bind_eq_bind, Option.bind_eq_some] at he
  obtain ⟨cp, _, lp, _, l, _, he⟩ := he
  split at he
  · simp only [Option.bind_eq_some] at he
    obtain ⟨r1, hrel, he⟩ := he
    cases r1 with
    | ret s1 v1 =>
      have a1 : exited_kept_state s s1 := lock_release_exited (s := interrupts_off s) hrel
      simp only [Option.bind_eq_bind, Option.bind_eq_some] at he
      obtain ⟨c, _, r2, hsl, he⟩ := he
      cases r2 with
      | ret s3 v3 =>
        have a2 := thread_sleep_exited hsl
        have a3 : exited_kept_state s3 s2 := acquire_loop_exited (s := interrupts_off s3) he
        exact exited_kept_state_trans a1 (exited_kept_state_trans a2 a3)
      | switch s3 => simp at he
      | exit s3 c3 => simp at he
      | start s3 => simp at he
    | switch s1 => simp at he
    | exit s1 c1 => simp at he
    | start s1 => simp at he
  · simp only [Option.some.injEq, result.ret.injEq] at he
    obtain ⟨rfl, _⟩ := he; exact exited_kept_state_refl s

theorem lock_destroy_exited {s s2 : State} {lock : Option Nat} {v : Int}
    (he : lock_destroy s lock = some (.ret s2 v)) : exited_kept_state s s2 := by
  unfold lock_destroy at he
  simp only [Option.bind_eq_bind] at he
  cases lock with
  | none => simp only [Option.none_bind] at he; cases he
  | some lp =>
    cases hl : (interrupts_off s).locks lp with
    | none => simp only [hl, Option.some_bind, Option.none_bind] at he; cases he
    | some l =>
      simp only [hl, Option.some_bind] at he
      by_cases h0 : l.state = 0
      · simp only [h0, if_true, Option.bind_eq_some, Option.some.injEq, result.ret.injEq] at he
        obtain ⟨⟨h, w⟩, hd, rfl, _⟩ := he
        exact ⟨exited_kept_links (wait_queue_destroy_links hd), rfl, le_refl _⟩
      · simp only [h0, if_false, Option.some_bind, Option.some.injEq, result.ret.injEq] at he
        obtain ⟨rfl, _⟩ := he
        exact exited_kept_state_refl s

theorem cv_destroy_exited {s s2 : State} {cv : Option Nat} {v : Int}
    (he : cv_destroy s cv = some (.ret s2 v)) : exited_kept_state s s2 := by
  simp only [cv_destroy, Option.bind_eq_bind, Option.bind_eq_some] at he
  obtain ⟨cp, _, c, _, ⟨h, w⟩, hd, he⟩ := he
  simp only [Option.some.injEq, result.ret.injEq] at he
  obtain ⟨rfl, _⟩ := he
  exact ⟨exited_kept_links (wait_queue_destroy_links hd), rfl, le_refl _⟩

/-- A call of the library that returns without a switch leaves the running
thread in place and every block that still exists with status `EXITED` if it
had that status. -/
theorem call_exited {MAX : Nat} {s s2 : State} {o : op} {v : Int}
    (he : call MAX s o = some (.ret s2 v)) : exited_kept_state s s2 := by
  cases o with
  | thread_id => exact thread_id_exited he
  | thread_create ok => exact thread_create_exited he
  | thread_yield t => exact thread_yield_exited he
  | thread_exit c => exact absurd he thread_exit_no_ret
  | thread_kill t => exact thread_kill_exited he
  | wait_queue_create =>
    simp only [call, wait_queue_create, Option.some.injEq, result.ret.injEq] at he
    obtain ⟨rfl, _⟩ := he
    exact ⟨exited_kept_refl _ _, rfl, Nat.le_succ _⟩
  | wait_queue_destroy wq =>
    simp only [call, Option.map_eq_some', result.ret.injEq] at he
    obtain ⟨⟨h, w⟩, hd, rfl, _⟩ := he
    exact ⟨exited_kept_links (wait_queue_destroy_links hd), rfl, le_refl _⟩
  | thread_sleep q => exact thread_sleep_exited he
  | thread_wakeup q all =>
    simp only [call, Option.map_eq_some', result.ret.injEq] at he
    obtain ⟨⟨s1, n⟩, hw, rfl, _⟩ := he
    exact thread_wakeup_exited hw
  | thread_wait t e t0 => exact thread_wait_exited he
  | lock_create =>
    simp only [call, lock_create, Option.some.injEq, result.ret.injEq] at he
    obtain ⟨rfl, _⟩ := he
    exact ⟨exited_kept_refl _ _, rfl, Nat.le_add_right _ 2⟩
  | lock_destroy l => exact lock_destroy_exited he
  | lock_acquire l =>
    simp only [call, lock_acquire, Option.bind_eq_bind, Option.bind_eq_some] at he
    obtain ⟨lp, _, he⟩ := he
    exact acquire_loop_exited (s := interrupts_off s) he
  | lock_release l => exact lock_release_exited he
  | cv_create =>
    simp only [call, cv_create, Option.some.injEq, result.ret.injEq] at he
    obtain ⟨rfl, _⟩ := he
    exact ⟨exited_kept_refl _ _, rfl, Nat.le_add_right _ 2⟩
  | cv_destroy c => exact cv_destroy_exited he
  | cv_wait c l => exact cv_wait_exited he
  | cv_signal c l => exact cv_wake_exited 0 he
  | cv_broadcast c l => exact cv_wake_exited 1 he

/-- The function `thread_kill` is its part up to `interrupts_set (enabled)`
followed, when nothing runs in between, by the evaluation of the return
expression. -/
theorem thread_kill_masked_then_return (MAX : Nat) (s : State) (tid : Int) :
    thread_kill MAX s tid =
      (thread_kill_masked MAX s tid).bind fun x => (x.2.eval x.1).map fun v => .ret x.1 v := by
  unfold thread_kill thread_kill_masked
  simp only [Option.bind_eq_bind]
  by_cases hinv : tid < 0 ∨ tid ≥ (MAX : Int) ∨ (interrupts_off s).available_thr tid = none
  · simp only [hinv, if_true, Option.some_bind, ret_expr.eval, Option.map_some']
  · simp only [hinv, if_false]
    cases hrp : (interrupts_off s).running_thread with
    | none => simp only [Option.none_bind]
    | some rp =>
      cases hrt : (interrupts_off s).heap rp with
      | none => simp only [Option.some_bind, hrt, Option.none_bind]
      | some rt =>
        simp only [Option.some_bind, hrt]
        by_cases hself : tid = rt.tid
        · simp only [hself, decide_True, if_true, Option.some_bind, ret_expr.eval,
            Option.map_some']
        · simp only [hself, decide_False, Bool.false_eq_true, if_false]
          cases hc : (interrupts_off s).available_thr tid with
          | none => simp only [Option.none_bind]
          | some curr =>
            cases hct : (interrupts_off s).heap curr with
            | none => simp only [Option.some_bind, hct, Option.none_bind]
            | some ct =>
              simp only [Option.some_bind, hct, ret_expr.eval, interrupts_set,
                Function.update_same, Option.map_some']

/-- C10, amended: when the thread `r` that `thread_yield (THREAD_ANY)` or
`thread_exit` is about to switch to (the head of the ready set) has status
`EXITED`, the scheduler still makes it the running thread, with its status left
`EXITED`, and switches to its saved context.  While `r` runs with status
`EXITED`, every call of the library that returns without a switch leaves it the
running thread and, as long as its block exists, with status `EXITED`; and a
call of `thread_yield` that it makes with that status, whatever the argument,
continues as `thread_exit (0)` after the sweep: the thread is treated as exited
then. -/
theorem killed_target_still_resumed (MAX : Nat) (s : State) (code : Int) (p r : Nat)
    (R Z W : List Nat) (c rt : tcb_t) (hs : Sched s p (r :: R) Z)
    (hj : Joiners s p (r :: R) Z W) (hc : s.heap p = some c) (hk : c.status ≠ EXITED)
    (hrt : s.heap r = some rt) (hkr : rt.status = EXITED) :
    (∃ s2, thread_yield MAX s THREAD_ANY = some (.switch s2) ∧
      s2.running_thread = some r ∧
      (s2.heap r).map (fun t => (t.status, t.mycontext)) = some (EXITED, rt.mycontext)) ∧
    (∃ s2, thread_exit s code = some (.switch s2) ∧
      s2.running_thread = some r ∧
      (s2.heap r).map (fun t => (t.status, t.mycontext)) = some (EXITED, rt.mycontext)) ∧
    (∀ (s3 s4 : State) (o : op) (v : Int) (t : tcb_t), s3.running_thread = some r →
      s3.heap r = some t → t.status = EXITED → r < s3.brk →
      call MAX s3 o = some (.ret s4 v) →
      s4.running_thread = some r ∧ r < s4.brk ∧
        ∀ t4, s4.heap r = some t4 → t4.status = EXITED) ∧
    (∀ (s3 s4 : State) (want_tid : Int) (t : tcb_t), sweep (interrupts_off s3) = some s4 →
      s4.running_thread = some r → s4.heap r = some t → t.status = EXITED →
      thread_yield MAX s3 want_tid = thread_exit s4 0) := by
  refine ⟨?_, ?_, ?_, ?_⟩
  · obtain ⟨s1, hd, hrun1, hp1, hn, hR1, hr1⟩ :=
      thread_yield_any_dispatch MAX s p r R Z c hs hc hk
    obtain ⟨rt2, hrt2, s2, hy, h2, _, _, h6⟩ :=
      yield_switch_spec s.interrupts hrun1 hp1 hn hR1 hs.not_ready
    rw [hr1, hrt] at hrt2
    cases hrt2
    exact ⟨s2, hd.trans hy, h2, by simp [h6, hkr]⟩
  · obtain ⟨s2, h1, h2, _, _, _, _, _, _, h9, h10, _⟩ :=
      thread_exit_spec s code p r (r :: R) Z W (R ++ W) c hs hj hc rfl
    refine ⟨s2, h1, h2, ?_⟩
    rw [hrt] at h9 h10
    cases e : s2.heap r with
    | none => rw [e] at h10; simp at h10
    | some t2 =>
      rw [e] at h9 h10
      simp only [same_thread, Option.map_some', Option.some.injEq, Prod.mk.injEq] at h9
      simp only [Option.map_some', Option.some.injEq, hkr, if_true] at h10
      simp [h9.2.1, h10]
  · intro s3 s4 o v t hrun ht hst hb hcall
    obtain ⟨hk4, hr4, hb4⟩ := call_exited hcall
    refine ⟨hr4.trans hrun, by omega, ?_⟩
    intro t4 ht4
    obtain ⟨t0, ht0, himp⟩ := hk4 r t4 hb ht4
    rw [ht] at ht0
    cases ht0
    exact himp hst
  · intro s3 s4 want_tid t hsw hrun ht hst
    simp [thread_yield, hsw, hrun, ht, hst]

/-- Witness of C10, amended: the state `two_ready` with the head of the ready
set killed. -/
theorem killed_target_still_resumed_witness :
    (∃ s2, thread_yield 4 head_killed THREAD_ANY = some (.switch s2) ∧
      s2.running_thread = some 2 ∧
      (s2.heap 2).map (fun t => (t.status, t.mycontext)) = some (EXITED, .stub)) ∧
    (∃ s2, thread_exit head_killed 7 = some (.switch s2) ∧
      s2.running_thread = some 2 ∧
      (s2.heap 2).map (fun t => (t.status, t.mycontext)) = some (EXITED, .stub)) ∧
    (∀ (s3 s4 : State) (o : op) (v : Int) (t : tcb_t), s3.running_thread = some 2 →
      s3.heap 2 = some t → t.status = EXITED → 2 < s3.brk →
      call 4 s3 o = some (.ret s4 v) →
      s4.running_thread = some 2 ∧ 2 < s4.brk ∧
        ∀ t4, s4.heap 2 = some t4 → t4.status = EXITED) ∧
    (∀ (s3 s4 : State) (want_tid : Int) (t : tcb_t), sweep (interrupts_off s3) = some s4 →
      s4.running_thread = some 2 → s4.heap 2 = some t → t.status = EXITED →
      thread_yield 4 s3 want_tid = thread_exit s4 0) :=
  killed_target_still_resumed 4 head_killed 7 0 2 [4] [] []
    { tid := 0, next := none, mycontext := .init, status := RUNNING, wait_queue := 1 }
    { tid := 1, next := some 4, mycontext := .stub, status := EXITED, wait_queue := 3 }
    { running := rfl
      alloc := ⟨_, rfl, rfl⟩
      ready := ⟨rfl, ⟨rfl, _, rfl, rfl, _, rfl, rfl⟩, rfl, by decide⟩
      zombie := ⟨rfl, rfl, rfl, by decide⟩
      zok := ⟨by simp, by simp [wq_of]⟩
      not_ready := by decide
      not_zombie := by simp
      disjoint := by simp
      bound := by
        intro a t h
        show a < 6
        by_cases h2 : a = 2
        · omega
        · simp only [head_killed, Function.update_noteq h2, two_ready] at h
          split_ifs at h
          · omega
          · omega }
    { wait := ⟨_, _, rfl, rfl, ⟨rfl, rfl, rfl, by decide⟩⟩
      not_ready := by simp
      not_zombie := by simp
      not_running := by simp }
    rfl (by decide) rfl rfl

/-- A killed thread that blocks is no longer treated as exited: at the end of
the steps `killed_thread_blocks` the thread with tid 1 (at address 3), which
was killed before it ran, has returned from `thread_sleep` and runs with status
`RUNNING`, and its `thread_yield (THREAD_ANY)` is an ordinary switch after
which it is ready. -/
theorem blocked_killed_thread_survives :
    ∃ r r2, trace 4 (.ret (thread_init none) 0) killed_thread_blocks = some r ∧
      r.outcome = .returned 1 ∧ r.state.running_thread = some 3 ∧
      (r.state.heap 3).map (fun t => (t.tid, t.status)) = some (1, RUNNING) ∧
      thread_yield 4 r.state THREAD_ANY = some r2 ∧ r2.outcome = .switched ∧
      (r2.state.heap 3).map (fun t => (t.tid, t.status)) = some (1, READY) ∧
      r2.state.available_thr 1 = some 3 :=
  ⟨_, _, rfl, rfl, rfl, rfl, rfl, rfl, rfl, rfl⟩

/-- C35 fails in the code: `thread_kill` unmasks before it evaluates its return
expression.  After `thread_init` and `thread_create`, the part of `thread_kill
(1)` up to `interrupts_set (enabled)` ends in a state in which preemption is
enabled, and what is left to do is to read the field `tid` of the block of the
target (at address 2), which is scheduler state.  Without a preemption in
between the value read is 1, and this is what `thread_kill` returns.  With the
preemption `preempted_in_kill` in between, the target has run, exited and been
freed when the caller runs again, and the read is one of a freed block. -/
theorem thread_kill_reads_unmasked :
    ∃ r s1 e r2, trace 4 (.ret (thread_init none) 0) [.call (.thread_create true)] = some r ∧
      thread_kill_masked 4 r.state 1 = some (s1, e) ∧
      e = .tid_of 2 ∧ s1.interrupts = true ∧ e.eval s1 = some 1 ∧
      (thread_kill 4 r.state 1).map result.outcome = some (.returned 1) ∧
      trace 4 (.ret s1 0) preempted_in_kill = some r2 ∧
      r2.state.running_thread = some 0 ∧ r2.state.heap 2 = none ∧ e.eval r2.state = none :=
  ⟨_, _, _, _, rfl, rfl, rfl, rfl, rfl, rfl, rfl, rfl, rfl, rfl⟩

end Threads

/-! ## The clock algorithm -/

namespace Clock

theorem emod_of_lt_two_mul (m x : Int) (h0 : 0 ≤ x) (h2 : x < 2 * m) :
    x % m = if x < m then x else x - m := by
  split
  · exact Int.emod_eq_of_lt h0 ‹_›
  · calc x % m = ((x - m) + m) % m := by ring_nf
      _ = (x - m) % m := Int.add_emod_self
      _ = x - m := Int.emod_eq_of_lt (by omega) (by omega)

theorem hand_shift (m c : Int) (j : Nat) :
    ((c + 1) % m + (j : Int)) % m = (c + ((j + 1 : Nat) : Int)) % m := by
  rw [Int.emod_add_emod]
  push_cast
  ring_nf

theorem hand_ne (m c : Int) (k : Nat) (h0 : 0 ≤ c) (h1 : c < m) (hk0 : 0 < k)
    (hk : (k : Int) < m) : (c + (k : Int)) % m ≠ c := by
  rw [emod_of_lt_two_mul m (c + k) (by omega) (by omega)]
  split <;> omega

/-- The loop of `clock_evict`, started with the hand on a frame of the array
when the reference bits at the offsets `n` and beyond are 0: it ends after
`d ≤ n` iterations, on the first frame from the hand on whose bit is 0, with
the bits of the `d` frames passed over cleared. -/
theorem clock_loop_spec (m : Nat) (hm : 0 < m) (hmax : (m : Int) ≤ INT_MAX) :
    ∀ (n : Nat) (s : State) (fuel : Nat), 0 ≤ s.curr → s.curr < m → n ≤ m → n + 1 ≤ fuel →
      (∀ j : Nat, n ≤ j → j < m → s.clock_arr ((s.curr + j) % m) = 0) →
      ∃ (d : Nat) (s2 : State), clock_loop m fuel s = some s2 ∧ d ≤ n ∧
        s2.curr = (s.curr + d) % m ∧
        (∀ j : Nat, j < d → s.clock_arr ((s.curr + j) % m) ≠ 0) ∧
        (d < m → s.clock_arr ((s.curr + d) % m) = 0) ∧
        (∀ j : Nat, j < d → s2.clock_arr ((s.curr + j) % m) = 0) ∧
        (∀ i, (∀ j : Nat, j < d → i ≠ (s.curr + j) % m) → s2.clock_arr i = s.clock_arr i) := by
  have hstop : ∀ (s : State) (fuel : Nat), 0 ≤ s.curr → s.curr < m → 1 ≤ fuel →
      s.clock_arr s.curr = 0 →
      ∃ (d : Nat) (s2 : State), clock_loop m fuel s = some s2 ∧ d ≤ 0 ∧
        s2.curr = (s.curr + d) % m ∧
        (∀ j : Nat, j < d → s.clock_arr ((s.curr + j) % m) ≠ 0) ∧
        (d < m → s.clock_arr ((s.curr + d) % m) = 0) ∧
        (∀ j : Nat, j < d → s2.clock_arr ((s.curr + j) % m) = 0) ∧
        (∀ i, (∀ j : Nat, j < d → i ≠ (s.curr + j) % m) → s2.clock_arr i = s.clock_arr i) := by
    intro s fuel h0 h1 hf hb
    obtain ⟨f, rfl⟩ : ∃ f, fuel = f + 1 := ⟨fuel - 1, by omega⟩
    have hc : s.curr % (m : Int) = s.curr := Int.emod_eq_of_lt h0 h1
    refine ⟨0, s, ?_, le_refl 0, ?_, ?_, ?_, ?_, ?_⟩
    · have hnb : ¬ (s.curr < 0 ∨ (m : Int) ≤ s.curr) := by omega
      simp [clock_loop, hnb, hb]
    · simp [hc]
    · intro j hj; omega
    · intro _; simpa [hc] using hb
    · intro j hj; omega
    · intro i _; rfl
  intro n
  induction n with
  | zero =>
    intro s fuel h0 h1 _ hf hz
    have hb : s.clock_arr s.curr = 0 := by
      have := hz 0 (le_refl 0) hm
      simpa [Int.emod_eq_of_lt h0 h1] using this
    exact hstop s fuel h0 h1 hf hb
  | succ n ih =>
    intro s fuel h0 h1 hn hf hz
    by_cases hb : s.clock_arr s.curr = 0
    · obtain ⟨d, s2, a1, a2, a3⟩ := hstop s fuel h0 h1 (by omega) hb
      exact ⟨d, s2, a1, by omega, a3⟩
    · obtain ⟨f, rfl⟩ : ∃ f, fuel = f + 1 := ⟨fuel - 1, by omega⟩
      have hmpos : (0 : Int) < m := by exact_mod_cast hm
      have hc1a : 0 ≤ (s.curr + 1) % (m : Int) := Int.emod_nonneg _ (by omega)
      have hc1b : (s.curr + 1) % (m : Int) < m := Int.emod_lt_of_pos _ hmpos
      have hz1 : ∀ j : Nat, n ≤ j → j < m →
          Function.update s.clock_arr s.curr 0 (((s.curr + 1) % (m : Int) + (j : Int)) % m) = 0 := by
        intro j hj hjm
        rw [hand_shift]
        by_cases he : (s.curr + ((j + 1 : Nat) : Int)) % (m : Int) = s.curr
        · rw [he, Function.update_same]
        · rw [Function.update_noteq he]
          by_cases hj1 : j + 1 < m
          · exact hz (j + 1) (by omega) hj1
          · exfalso
            apply he
            have : (j : Int) + 1 = m := by omega
            push_cast
            rw [this, Int.add_emod_self]
            exact Int.emod_eq_of_lt h0 h1
      obtain ⟨d1, s2, b1, b2, b3, b4, b5, b6, b7⟩ :=
        ih { clock_arr := Function.update s.clock_arr s.curr 0, curr := (s.curr + 1) % (m : Int) }
          f hc1a hc1b (by omega) (by omega) hz1
      simp only at b3 b4 b5 b6 b7
      have hpos : ∀ j : Nat, j + 1 < m + 1 → 0 < j + 1 → j + 1 < m →
          (s.curr + ((j + 1 : Nat) : Int)) % (m : Int) ≠ s.curr := by
        intro j _ hj0 hj1
        exact hand_ne m s.curr (j + 1) h0 h1 hj0 (by exact_mod_cast hj1)
      refine ⟨d1 + 1, s2, ?_, by omega, ?_, ?_, ?_, ?_, ?_⟩
      · have hnb : ¬ (s.curr < 0 ∨ (m : Int) ≤ s.curr) := by omega
        have hadv : ¬ (s.curr + 1 > INT_MAX ∨ m = 0) := by
          have : s.curr + 1 ≤ INT_MAX := by omega
          omega
        simp only [clock_loop, hnb, if_false, ne_eq, hb, not_false_eq_true, if_true, advance,
          hadv, Option.some_bind]
        exact b1
      · rw [b3, hand_shift]
      · intro j hj
        cases j with
        | zero => simpa [Int.emod_eq_of_lt h0 h1] using hb
        | succ j =>
          have h4 := b4 j (by omega)
          rw [hand_shift] at h4
          by_cases he : (s.curr + ((j + 1 : Nat) : Int)) % (m : Int) = s.curr
          · rw [he, Function.update_same] at h4
            exact absurd rfl h4
          · rw [Function.update_noteq he] at h4
            exact h4
      · intro hd
        have h5 := b5 (by omega)
        rw [hand_shift] at h5
        have he := hpos d1 (by omega) (by omega) hd
        rw [Function.update_noteq he] at h5
        exact h5
      · intro j hj
        cases j with
        | zero =>
          have : s2.clock_arr s.curr = Function.update s.clock_arr s.curr 0 s.curr ∨
              ∃ j : Nat, j < d1 ∧ s.curr = ((s.curr + 1) % (m : Int) + (j : Int)) % m := by
            by_cases hx : ∃ j : Nat, j < d1 ∧ s.curr = ((s.curr + 1) % (m : Int) + (j : Int)) % m
            · exact Or.inr hx
            · left
              apply b7
              intro j hj e
              exact hx ⟨j, hj, e⟩
          simp only [Nat.cast_zero, add_zero, Int.emod_eq_of_lt h0 h1]
          rcases this with h | ⟨j, hj, e⟩
          · rw [h, Function.update_same]
          · rw [e]; exact b6 j hj
        | succ j =>
          have h6 := b6 j (by omega)
          rw [hand_shift] at h6
          exact h6
      · intro i hi
        have hi0 : i ≠ s.curr := by
          have := hi 0 (by omega)
          simpa [Int.emod_eq_of_lt h0 h1] using this
        rw [b7 i, Function.update_noteq hi0]
        intro j hj
        rw [hand_shift]
        exact hi (j + 1) (by omega)

/-- C39: for `memsize` frames, with `1 ≤ memsize` and `memsize` in the range
of `int`, and the hand on a frame of the array, `clock_evict` returns after
`d ≤ memsize` iterations of its loop the frame `v = (hand + d) mod memsize`,
which lies in `[0, memsize)`: the bits of the `d` frames from the hand on are
not 0, the bit of `v` is 0 unless `d = memsize`, in which case every bit is
set and `v` is the frame of the hand; the bits of the `d` frames passed over
are 0 afterwards, the other bits are unchanged, and the hand is at
`(v + 1) mod memsize`. -/
theorem clock_evict_spec (memsize fuel : Nat) (s : State) (hm : 1 ≤ memsize)
    (hmax : (memsize : Int) ≤ INT_MAX) (h0 : 0 ≤ s.curr) (h1 : s.curr < memsize)
    (hf : memsize + 1 ≤ fuel) :
    ∃ (d : Nat) (s2 : State) (v : Int), clock_evict memsize fuel s = some (s2, v) ∧
      d ≤ memsize ∧ v = (s.curr + d) % memsize ∧ 0 ≤ v ∧ v < memsize ∧
      (∀ j : Nat, j < d → s.clock_arr ((s.curr + j) % memsize) ≠ 0) ∧
      (d < memsize → s.clock_arr v = 0) ∧
      (d = memsize → v = s.curr) ∧
      (∀ j : Nat, j < d → s2.clock_arr ((s.curr + j) % memsize) = 0) ∧
      (∀ i, (∀ j : Nat, j < d → i ≠ (s.curr + j) % memsize) →
        s2.clock_arr i = s.clock_arr i) ∧
      s2.curr = (v + 1) % memsize := by
  have hmpos : (0 : Int) < memsize := by exact_mod_cast hm
  obtain ⟨d, s1, b1, b2, b3, b4, b5, b6, b7⟩ :=
    clock_loop_spec memsize hm hmax memsize s fuel h0 h1 (le_refl _) hf
      (fun j hj hjm => absurd hjm (by omega))
  have hv0 : 0 ≤ (s.curr + d) % (memsize : Int) := Int.emod_nonneg _ (by omega)
  have hv1 : (s.curr + d) % (memsize : Int) < memsize := Int.emod_lt_of_pos _ hmpos
  have hadv : ¬ ((s.curr + ↑d) % (memsize : Int) + 1 > INT_MAX ∨ memsize = 0) := by
    have : (s.curr + ↑d) % (memsize : Int) + 1 ≤ INT_MAX := by omega
    omega
  refine ⟨d, { s1 with curr := (s1.curr + 1) % (memsize : Int) }, (s.curr + d) % memsize,
    ?_, b2, rfl, hv0, hv1, b4, b5, ?_, b6, b7, ?_⟩
  · simp only [clock_evict, b1, Option.bind_eq_bind, Option.some_bind, advance, b3, hadv,
      if_false]
  · intro hd
    rw [hd, Int.add_emod_self]
    exact Int.emod_eq_of_lt h0 h1
  · simp only [b3]

theorem clock_evict_spec_witness :
    ∃ (d : Nat) (s2 : State) (v : Int),
      clock_evict 3 4 { clock_arr := fun i => if i = 1 then 1 else 0, curr := 1 }
        = some (s2, v) ∧
      d ≤ 3 ∧ v = ((1 : Int) + d) % (3 : Nat) ∧ 0 ≤ v ∧ v < (3 : Nat) ∧
      (∀ j : Nat, j < d → (fun i : Int => if i = 1 then (1 : Int) else 0)
        (((1 : Int) + j) % (3 : Nat)) ≠ 0) ∧
      (d < 3 → (fun i : Int => if i = 1 then (1 : Int) else 0) v = 0) ∧
      (d = 3 → v = 1) ∧
      (∀ j : Nat, j < d → s2.clock_arr (((1 : Int) + j) % (3 : Nat)) = 0) ∧
      (∀ i, (∀ j : Nat, j < d → i ≠ ((1 : Int) + j) % (3 : Nat)) →
        s2.clock_arr i = (fun i : Int => if i = 1 then (1 : Int) else 0) i) ∧
      s2.curr = (v + 1) % (3 : Nat) :=
  clock_evict_spec 3 4 { clock_arr := fun i => if i = 1 then 1 else 0, curr := 1 }
    (by decide) (by decide) (by decide) (by decide) (by decide)

end Clock
